import Mathlib

/-!
# bspatch (expo-updates vendor/bsdiff/bspatch.c): a shallow embedding

Data model
* bytes (`u_char`) are natural numbers below 256;
* `off_t` and `ssize_t` are 64-bit signed integers (LP64): values are `Int`,
  every arithmetic result goes through `wrap64`;
* `int` is 32 bits: the length argument of `BZ2_bzRead` goes through `wrap32`;
* a decompressed bzip2 stream is the list of bytes it can still deliver.
-/

namespace BSPatch

/-! ## Machine integers -/

/-- Two's-complement reduction of an integer to a signed 64-bit value (`off_t`, `ssize_t`). -/
def wrap64 (x : Int) : Int := (x + 2 ^ 63) % 2 ^ 64 - 2 ^ 63

/-- Two's-complement reduction of an integer to a signed 32-bit value (`int`). -/
def wrap32 (x : Int) : Int := (x + 2 ^ 31) % 2 ^ 32 - 2 ^ 31

/-- `a + b` on `off_t`. -/
def add64 (a b : Int) : Int := wrap64 (a + b)

/-- `a * b` on `off_t`. -/
def mul64 (a b : Int) : Int := wrap64 (a * b)

/-- `-a` on `off_t`. -/
def neg64 (a : Int) : Int := wrap64 (-a)

/-! ## offtin (bspatch.c lines 57-73) -/

/-- Byte `i` of a buffer (`buf[i]`). -/
def byteAt (buf : List Nat) (i : Nat) : Nat := buf.getD i 0

/-- Source: `offtin`. `y=buf[7]&0x7F; y=y*256; y+=buf[6]; ... ; if(buf[7]&0x80) y=-y;`. -/
def offtin (buf : List Nat) : Int :=
  let y : Int := ((byteAt buf 7 &&& 0x7F : Nat) : Int)
  let y := mul64 y 256
  let y := add64 y (byteAt buf 6)
  let y := mul64 y 256
  let y := add64 y (byteAt buf 5)
  let y := mul64 y 256
  let y := add64 y (byteAt buf 4)
  let y := mul64 y 256
  let y := add64 y (byteAt buf 3)
  let y := mul64 y 256
  let y := add64 y (byteAt buf 2)
  let y := mul64 y 256
  let y := add64 y (byteAt buf 1)
  let y := mul64 y 256
  let y := add64 y (byteAt buf 0)
  if byteAt buf 7 &&& 0x80 ≠ 0 then neg64 y else y

/-- The value the format description assigns to eight bytes: little-endian magnitude
over bytes 0..6 and the low seven bits of byte 7, sign taken from the top bit of byte 7. -/
def offtinSpec (b : List Nat) : Int :=
  (if byteAt b 7 ≥ 128 then (-1 : Int) else 1) *
    ((byteAt b 0 : Int) + byteAt b 1 * 256 + byteAt b 2 * 256 ^ 2 + byteAt b 3 * 256 ^ 3
      + byteAt b 4 * 256 ^ 4 + byteAt b 5 * 256 ^ 5 + byteAt b 6 * 256 ^ 6
      + ((byteAt b 7 % 128 : Nat) : Int) * 256 ^ 7)

/-- A list of `u_char` values: every element is below 256. -/
def IsBytes (l : List Nat) : Prop := ∀ x ∈ l, x < 256

instance (l : List Nat) : Decidable (IsBytes l) := by
  unfold IsBytes; infer_instance

/-! ## Decompressed streams and `BZ2_bzRead` (libbzip2, called at lines 185, 201, 224) -/

/-- State of one bzip2 read handle: the decompressed bytes it can still deliver and
whether the logical end of the stream has already been reported. -/
structure BzStream where
  data : List Nat
  ended : Bool
deriving DecidableEq, Repr

/-- Result of one `BZ2_bzRead(&bzerror, b, buf, len)` call. `lenread` is the returned
count, `bytes` what was stored at `buf[0..lenread)`, `ok` says that `bzerror` is
`BZ_OK` or `BZ_STREAM_END`, `next` is the handle afterwards. -/
structure BzResult where
  lenread : Int
  bytes : List Nat
  ok : Bool
  next : BzStream
deriving DecidableEq, Repr

/-- Library call `int BZ2_bzRead(int *bzerror, BZFILE *b, void *buf, int len)`.
The caller passes an `off_t`; the parameter is an `int`, so the value is reduced
to 32 bits. `len < 0` is `BZ_PARAM_ERROR` (returns 0), `len == 0` is `BZ_OK` (returns 0),
a handle whose end was reported gives `BZ_SEQUENCE_ERROR` (returns 0); otherwise up to
`len` bytes are delivered, with `BZ_STREAM_END` when the stream is used up by the call. -/
def BZ2_bzRead (s : BzStream) (len : Int) : BzResult :=
  let n := wrap32 len
  if n < 0 then ⟨0, [], false, s⟩
  else if n = 0 then ⟨0, [], true, s⟩
  else if s.ended then ⟨0, [], false, s⟩
  else if n.toNat < s.data.length then
    ⟨n, s.data.take n.toNat, true, ⟨s.data.drop n.toNat, false⟩⟩
  else ⟨s.data.length, s.data, true, ⟨[], true⟩⟩

/-! ## The reconstruction loop (bspatch.c lines 181-234) -/

/-- The `return 1` exits inside the loop, by source line. -/
inductive LoopExit
  | controlRead   -- line 186-190
  | boundsAdd     -- line 195-198
  | diffRead      -- line 202-206
  | boundsCopy    -- line 218-221
  | extraRead     -- line 225-229
deriving DecidableEq, Repr

/-- Local variables of the loop: the cursors, the `ctx.new` buffer (`newsize+1` bytes
from `malloc`) and the three bzip2 read handles. -/
structure LoopState where
  newpos : Int
  oldpos : Int
  new : List Nat
  cpf : BzStream
  dpf : BzStream
  epf : BzStream
deriving DecidableEq, Repr

/-- What one pass, or the whole loop, comes to. `undefined` stands for a store outside
the `ctx.new` allocation, after which the C program has no defined behaviour. -/
inductive LoopResult
  | running (s : LoopState)
  | exit1 (e : LoopExit)
  | undefined
deriving DecidableEq, Repr

/-- Store `bytes` at `buf + pos` (the destination argument `ctx.new + newpos` of a read).
`none` when a byte would land outside the allocation. -/
def storeAt (buf : List Nat) (pos : Int) (bytes : List Nat) : Option (List Nat) :=
  if bytes = [] then some buf
  else if pos < 0 ∨ (buf.length : Int) < pos + bytes.length then none
  else some (buf.take pos.toNat ++ bytes ++ buf.drop (pos.toNat + bytes.length))

/-- Source lines 209-211: `for(i=0;i<ctrl[0];i++) if((oldpos+i>=0) && (oldpos+i<oldsize))
ctx.new[newpos+i]+=ctx.old[oldpos+i];`. -/
def addOldData (old : List Nat) (oldsize oldpos newpos ctrl0 : Int) (new : List Nat) :
    List Nat :=
  (List.range ctrl0.toNat).foldl
    (fun nw (i : Nat) =>
      if 0 ≤ add64 oldpos i ∧ add64 oldpos i < oldsize then
        nw.set (add64 newpos i).toNat
          ((nw.getD (add64 newpos i).toNat 0 + old.getD (add64 oldpos i).toNat 0) % 256)
      else nw)
    new

/-- Source lines 184-192: three reads of 8 bytes from the control stream, each decoded
by `offtin`. `none` is the exit at line 188. -/
def readControl (cpf : BzStream) : Option ((Int × Int × Int) × BzStream) :=
  let r0 := BZ2_bzRead cpf 8
  if r0.lenread < 8 ∨ r0.ok = false then none
  else
    let r1 := BZ2_bzRead r0.next 8
    if r1.lenread < 8 ∨ r1.ok = false then none
    else
      let r2 := BZ2_bzRead r1.next 8
      if r2.lenread < 8 ∨ r2.ok = false then none
      else some ((offtin r0.bytes, offtin r1.bytes, offtin r2.bytes), r2.next)

/-- One pass through the body of `while(newpos<newsize)` (lines 183-233). -/
def loopBody (old : List Nat) (oldsize newsize : Int) (s : LoopState) : LoopResult :=
  match readControl s.cpf with
  | none => .exit1 .controlRead
  | some ((ctrl0, ctrl1, ctrl2), cpf) =>
    if add64 s.newpos ctrl0 > newsize then .exit1 .boundsAdd
    else
      let rd := BZ2_bzRead s.dpf ctrl0
      match storeAt s.new s.newpos rd.bytes with
      | none => .undefined
      | some new1 =>
        if rd.lenread < ctrl0 ∨ rd.ok = false then .exit1 .diffRead
        else
          let new2 := addOldData old oldsize s.oldpos s.newpos ctrl0 new1
          let newpos := add64 s.newpos ctrl0
          let oldpos := add64 s.oldpos ctrl0
          if add64 newpos ctrl1 > newsize then .exit1 .boundsCopy
          else
            let re := BZ2_bzRead s.epf ctrl1
            match storeAt new2 newpos re.bytes with
            | none => .undefined
            | some new3 =>
              if re.lenread < ctrl1 ∨ re.ok = false then .exit1 .extraRead
              else
                .running ⟨add64 newpos ctrl1, add64 oldpos ctrl2, new3, cpf, rd.next, re.next⟩

/-- The loop `while(newpos<newsize) { ... }`, run for at most `fuel` passes. `none` means
the passes ran out with the loop condition still true. -/
def loopFuel (old : List Nat) (oldsize newsize : Int) : Nat → LoopState → Option LoopResult
  | 0, s => if s.newpos < newsize then none else some (.running s)
  | fuel + 1, s =>
    if s.newpos < newsize then
      match loopBody old oldsize newsize s with
      | .running s1 => loopFuel old oldsize newsize fuel s1
      | r => some r
    else some (.running s)

/-- Lines 181-234 from `oldpos=0;newpos=0;`: every pass that does not exit consumes 24
control bytes, so `length / 24 + 1` passes always suffice (see `loopFuel_enough`). -/
def reconstruct (old : List Nat) (newsize : Int) (newbuf control diff extra : List Nat) :
    Option LoopResult :=
  loopFuel old (old.length : Int) newsize (control.length / 24 + 1)
    ⟨0, 0, newbuf, ⟨control, false⟩, ⟨diff, false⟩, ⟨extra, false⟩⟩

/-- The bytes `write(fd,ctx.new,newsize)` takes from the buffer after a loop that ran
to its end; `none` for every other ending. -/
def outputOf (newsize : Int) : Option LoopResult → Option (List Nat)
  | some (.running s) => some (s.new.take newsize.toNat)
  | _ => none

/-! ## The driver `bspatch_main` (bspatch.c lines 75-262) -/

/-- Things `bspatch_main` acquires and has to give back. -/
inductive Res
  | f | cpf | cpfbz2 | dpf | dpfbz2 | epf | epfbz2 | oldfd | old | new | newfd
deriving DecidableEq, Repr

/-- Observable actions on resources and on the destination file. -/
inductive Event
  | acquire (r : Res)
  | release (r : Res)
  | truncateDest
  | writeDest (bytes : List Nat)
deriving DecidableEq, Repr

/-- The fields of `struct bspatch_context` that `cleanup_context` tests: `true` is a
non-NULL pointer. -/
structure Ctx where
  cpf : Bool := false
  dpf : Bool := false
  epf : Bool := false
  cpfbz2 : Bool := false
  dpfbz2 : Bool := false
  epfbz2 : Bool := false
  old : Bool := false
  new : Bool := false
deriving DecidableEq, Repr

/-- Source lines 46-55. -/
def cleanup_context (ctx : Ctx) : List Event :=
  (if ctx.cpfbz2 then [Event.release .cpfbz2] else []) ++
  (if ctx.dpfbz2 then [Event.release .dpfbz2] else []) ++
  (if ctx.epfbz2 then [Event.release .epfbz2] else []) ++
  (if ctx.cpf then [Event.release .cpf] else []) ++
  (if ctx.dpf then [Event.release .dpf] else []) ++
  (if ctx.epf then [Event.release .epf] else []) ++
  (if ctx.old then [Event.release .old] else []) ++
  (if ctx.new then [Event.release .new] else [])

/-- Everything outside the program that a call of `bspatch_main` depends on. The
booleans give the result of each fallible library or system call (`true`: the call
succeeds). -/
structure Env where
  argc : Int
  patch : List Nat
  streamAt : Int → List Nat
  oldFile : List Nat
  garbage : Nat → Nat
  dest : Option (List Nat)
  written : Nat
  fopenF : Bool
  fcloseF : Bool
  fopenC : Bool
  fseekC : Bool
  bzOpenC : Bool
  fopenD : Bool
  fseekD : Bool
  bzOpenD : Bool
  fopenE : Bool
  fseekE : Bool
  bzOpenE : Bool
  openOld : Bool
  lseekEnd : Bool
  mallocOld : Bool
  lseekSet : Bool
  readOld : Bool
  closeOld : Bool
  mallocNew : Bool
  fcloseC : Bool
  fcloseD : Bool
  fcloseE : Bool
  openNew : Bool
  writeNew : Bool
  closeNew : Bool

/-- The `return` statements of `bspatch_main`. -/
inductive MainExit
  | argc | fopenPatch | shortHeader | badMagic | negativeLength | fcloseF
  | openC | seekC | bzOpenC | openD | seekD | bzOpenD | openE | seekE | bzOpenE
  | loadOld | mallocNew
  | loop (e : LoopExit)
  | fcloseStreams | writeNew | success
deriving DecidableEq, Repr

/-- What a finished call leaves behind: the return value, the `return` taken, the
destination file and the resource actions in program order. -/
structure Outcome where
  ret : Int
  exit : MainExit
  dest : Option (List Nat)
  events : List Event
deriving DecidableEq, Repr

/-- A call either finishes or runs into undefined behaviour (a store outside `ctx.new`). -/
inductive MainResult
  | finished (o : Outcome)
  | undefined
deriving DecidableEq, Repr

/-- The marker `"BSDIFF40"`. -/
def magic : List Nat := [66, 83, 68, 73, 70, 70, 52, 48]

/-- Source lines 108-127 on an open patch file: read 32 bytes, compare the marker,
decode the three lengths. The error is the `return 1` that is taken. -/
def readHeader (patch : List Nat) : Except MainExit (Int × Int × Int) :=
  let header := patch.take 32
  if header.length < 32 then .error .shortHeader
  else if header.take 8 ≠ magic then .error .badMagic
  else
    let bzctrllen := offtin (header.drop 8)
    let bzdatalen := offtin (header.drop 16)
    let newsize := offtin (header.drop 24)
    if bzctrllen < 0 ∨ bzdatalen < 0 ∨ newsize < 0 then .error .negativeLength
    else .ok (bzctrllen, bzdatalen, newsize)

/-- The three `fseeko` targets of lines 134, 146 and 158, computed in 64-bit signed
arithmetic. -/
def segmentOffsets (bzctrllen bzdatalen : Int) : Int × Int × Int :=
  (32, add64 32 bzctrllen, add64 (add64 32 bzctrllen) bzdatalen)

/-- `fseeko(fp, off, SEEK_SET)`: a negative offset is refused. -/
def fseekoOk (callOk : Bool) (off : Int) : Bool := callOk && decide (0 ≤ off)

/-- Lines 236-261, after the loop has left with buffer `new`. -/
def finishMain (env : Env) (newsize : Int) (new : List Nat) (ev : List Event) : Outcome :=
  let ev := ev ++ [.release .cpfbz2, .release .dpfbz2, .release .epfbz2]
  let ctx : Ctx := { cpf := true, dpf := true, epf := true, old := true, new := true }
  if !env.fcloseC then
    ⟨1, .fcloseStreams, env.dest, ev ++ [.release .cpf] ++ cleanup_context ctx⟩
  else if !env.fcloseD then
    ⟨1, .fcloseStreams, env.dest, ev ++ [.release .cpf, .release .dpf] ++ cleanup_context ctx⟩
  else if !env.fcloseE then
    ⟨1, .fcloseStreams, env.dest,
      ev ++ [.release .cpf, .release .dpf, .release .epf] ++ cleanup_context ctx⟩
  else
    let ev := ev ++ [.release .cpf, .release .dpf, .release .epf]
    let ctx : Ctx := { old := true, new := true }
    if !env.openNew then ⟨1, .writeNew, env.dest, ev ++ cleanup_context ctx⟩
    else
      let ev := ev ++ [.acquire .newfd, .truncateDest]
      let out := new.take newsize.toNat
      if !env.writeNew then
        ⟨1, .writeNew, some (out.take env.written),
          ev ++ [.writeDest (out.take env.written)] ++ cleanup_context ctx⟩
      else
        let ev := ev ++ [.writeDest out, .release .newfd]
        if !env.closeNew then ⟨1, .writeNew, some out, ev ++ cleanup_context ctx⟩
        else ⟨0, .success, some out, ev ++ [.release .new, .release .old]⟩

/-- Lines 167-234: load the old file, allocate `ctx.new`, run the loop. -/
def loadAndRun (env : Env) (newsize : Int) (streams : List Nat × List Nat × List Nat)
    (ev : List Event) : MainResult :=
  let ctx : Ctx :=
    { cpf := true, dpf := true, epf := true, cpfbz2 := true, dpfbz2 := true, epfbz2 := true }
  if !env.openOld then .finished ⟨1, .loadOld, env.dest, ev ++ cleanup_context ctx⟩
  else
    let ev := ev ++ [.acquire .oldfd]
    if !env.lseekEnd then .finished ⟨1, .loadOld, env.dest, ev ++ cleanup_context ctx⟩
    else if !env.mallocOld then .finished ⟨1, .loadOld, env.dest, ev ++ cleanup_context ctx⟩
    else
      let ev := ev ++ [.acquire .old]
      let ctx := { ctx with old := true }
      if !env.lseekSet then .finished ⟨1, .loadOld, env.dest, ev ++ cleanup_context ctx⟩
      else if !env.readOld then
        .finished ⟨1, .loadOld, env.dest, ev ++ cleanup_context ctx⟩
      else
        let ev := ev ++ [.release .oldfd]
        if !env.closeOld then .finished ⟨1, .loadOld, env.dest, ev ++ cleanup_context ctx⟩
        else if !env.mallocNew ∨ add64 newsize 1 < 0 then
          .finished ⟨1, .mallocNew, env.dest, ev ++ cleanup_context ctx⟩
        else
          let ev := ev ++ [.acquire .new]
          let ctx := { ctx with new := true }
          let newbuf := (List.range (newsize.toNat + 1)).map env.garbage
          match reconstruct env.oldFile newsize newbuf streams.1 streams.2.1 streams.2.2 with
          | some (.running s) => .finished (finishMain env newsize s.new ev)
          | some (.exit1 e) => .finished ⟨1, .loop e, env.dest, ev ++ cleanup_context ctx⟩
          | some .undefined => .undefined
          | none => .undefined

/-- Lines 129-165: reopen the patch file three times and start a bzip2 reader at each
segment offset. -/
def openStreams (env : Env) (bzctrllen bzdatalen newsize : Int) (ev : List Event) :
    MainResult :=
  let offs := segmentOffsets bzctrllen bzdatalen
  if !env.fopenC then .finished ⟨1, .openC, env.dest, ev⟩
  else
    let ev := ev ++ [.acquire .cpf]
    if !fseekoOk env.fseekC offs.1 then
      .finished ⟨1, .seekC, env.dest, ev ++ cleanup_context { cpf := true }⟩
    else if !env.bzOpenC then
      .finished ⟨1, .bzOpenC, env.dest, ev ++ cleanup_context { cpf := true }⟩
    else
      let ev := ev ++ [.acquire .cpfbz2]
      let ctx : Ctx := { cpf := true, cpfbz2 := true }
      if !env.fopenD then .finished ⟨1, .openD, env.dest, ev ++ cleanup_context ctx⟩
      else
        let ev := ev ++ [.acquire .dpf]
        let ctx := { ctx with dpf := true }
        if !fseekoOk env.fseekD offs.2.1 then
          .finished ⟨1, .seekD, env.dest, ev ++ cleanup_context ctx⟩
        else if !env.bzOpenD then
          .finished ⟨1, .bzOpenD, env.dest, ev ++ cleanup_context ctx⟩
        else
          let ev := ev ++ [.acquire .dpfbz2]
          let ctx := { ctx with dpfbz2 := true }
          if !env.fopenE then .finished ⟨1, .openE, env.dest, ev ++ cleanup_context ctx⟩
          else
            let ev := ev ++ [.acquire .epf]
            let ctx := { ctx with epf := true }
            if !fseekoOk env.fseekE offs.2.2 then
              .finished ⟨1, .seekE, env.dest, ev ++ cleanup_context ctx⟩
            else if !env.bzOpenE then
              .finished ⟨1, .bzOpenE, env.dest, ev ++ cleanup_context ctx⟩
            else
              loadAndRun env newsize
                (env.streamAt offs.1, env.streamAt offs.2.1, env.streamAt offs.2.2)
                (ev ++ [.acquire .epfbz2])

/-- Source: `bspatch_main`. -/
def bspatch_main (env : Env) : MainResult :=
  if env.argc ≠ 4 then .finished ⟨1, .argc, env.dest, []⟩
  else if !env.fopenF then .finished ⟨1, .fopenPatch, env.dest, []⟩
  else
    match readHeader env.patch with
    | .error e => .finished ⟨1, e, env.dest, [.acquire .f, .release .f]⟩
    | .ok (bzctrllen, bzdatalen, newsize) =>
      if !env.fcloseF then
        .finished ⟨1, .fcloseF, env.dest, [.acquire .f, .release .f]⟩
      else openStreams env bzctrllen bzdatalen newsize [.acquire .f, .release .f]

/-- Resources open after a sequence of events, and whether a release hit a resource
that was not open. -/
def replay : List Event → List Res × Bool → List Res × Bool
  | [], st => st
  | .acquire r :: es, (opened, bad) => replay es (r :: opened, bad)
  | .release r :: es, (opened, bad) =>
    if r ∈ opened then replay es (opened.erase r, bad) else replay es (opened, true)
  | _ :: es, st => replay es st

/-- Resources still open at the end of a run. -/
def leaked (ev : List Event) : List Res := (replay ev ([], false)).1

/-- Whether some resource was released while not open. -/
def doubleRelease (ev : List Event) : Bool := (replay ev ([], false)).2

/-! ## The producing side of the format, as the specification describes it -/

/-- Eight-byte encoding of a signed value: little-endian magnitude, sign in the top bit
of the last byte (the format's counterpart of `offtin`). -/
def offtout (x : Int) : List Nat :=
  let y0 := x.natAbs
  let y1 := y0 / 256
  let y2 := y1 / 256
  let y3 := y2 / 256
  let y4 := y3 / 256
  let y5 := y4 / 256
  let y6 := y5 / 256
  let y7 := y6 / 256
  [y0 % 256, y1 % 256, y2 % 256, y3 % 256, y4 % 256, y5 % 256, y6 % 256,
    y7 % 256 + (if x < 0 then 128 else 0)]

/-- The decompressed control stream of a list of triples `(add, copy, seek)`: 24 bytes
for each. -/
def encodeControl : List (Int × Int × Int) → List Nat
  | [] => []
  | (a, c, z) :: ts => offtout a ++ offtout c ++ offtout z ++ encodeControl ts

/-- Diff bytes of one add region of `new` that starts at `np` and is aligned with old
index `op`: `(new[j] - old[p]) mod 256` where `p` is inside the old file, `new[j]`
elsewhere. -/
def diffSegment (old new : List Nat) (np op a : Int) : List Nat :=
  (List.range a.toNat).map fun (i : Nat) =>
    if 0 ≤ op + i ∧ op + i < old.length then
      (new.getD (np.toNat + i) 0 + 256 - old.getD (op + i).toNat 0) % 256
    else new.getD (np.toNat + i) 0

/-- Extra bytes of one copy region: the bytes of `new` from `np`, `c` of them. -/
def extraSegment (new : List Nat) (np c : Int) : List Nat :=
  (List.range c.toNat).map fun (i : Nat) => new.getD (np.toNat + i) 0

/-- Diff and extra streams that describe `new` relative to `old` along a list of
triples, starting from cursors `np` (new) and `op` (old). -/
def patchStreams (old new : List Nat) : List (Int × Int × Int) → Int → Int →
    List Nat × List Nat
  | [], _, _ => ([], [])
  | (a, c, z) :: ts, np, op =>
    let r := patchStreams old new ts (np + a + c) (op + a + z)
    (diffSegment old new np op a ++ r.1, extraSegment new (np + a) c ++ r.2)

/-- Total of `add + copy` over a list of triples. -/
def totalLength : List (Int × Int × Int) → Int
  | [] => 0
  | (a, c, _) :: ts => a + c + totalLength ts

/-- The old-file cursor stays representable as an `off_t` along the triples. -/
def CursorInRange : List (Int × Int × Int) → Int → Prop
  | [], _ => True
  | (a, _, z) :: ts, op =>
    (-(2 ^ 63) ≤ op + a ∧ op + a < 2 ^ 63) ∧
    (-(2 ^ 63) ≤ op + a + z ∧ op + a + z < 2 ^ 63) ∧ CursorInRange ts (op + a + z)

/-- Every triple has `add` and `copy` in `[0, 2^31)` and a seek that `offtin` can
produce. -/
def TriplesOk (ts : List (Int × Int × Int)) : Prop :=
  ∀ t ∈ ts, (0 ≤ t.1 ∧ t.1 < 2 ^ 31) ∧ (0 ≤ t.2.1 ∧ t.2.1 < 2 ^ 31) ∧
    (-(2 ^ 63) < t.2.2 ∧ t.2.2 < 2 ^ 63)

/-- The header conditions under which the specification has the patch rejected. -/
def HeaderBad (p : List Nat) : Prop :=
  p.length < 32 ∨ p.take 8 ≠ magic ∨ offtin ((p.drop 8).take 8) < 0 ∨
    offtin ((p.drop 16).take 8) < 0 ∨ offtin ((p.drop 24).take 8) < 0

/-- An environment in which every library and system call succeeds. -/
def nominalEnv (patch oldFile : List Nat) (streamAt : Int → List Nat) : Env :=
  { argc := 4, patch := patch, streamAt := streamAt, oldFile := oldFile,
    garbage := fun _ => 0, dest := none, written := 0,
    fopenF := true, fcloseF := true, fopenC := true, fseekC := true, bzOpenC := true,
    fopenD := true, fseekD := true, bzOpenD := true, fopenE := true, fseekE := true,
    bzOpenE := true, openOld := true, lseekEnd := true, mallocOld := true,
    lseekSet := true, readOld := true, closeOld := true, mallocNew := true,
    fcloseC := true, fcloseD := true, fcloseE := true, openNew := true,
    writeNew := true, closeNew := true }

/-- Events that touch the destination file. -/
def isDestEvent : Event → Bool
  | .truncateDest => true
  | .writeDest _ => true
  | _ => false

/-- A patch file of 35 bytes plus three segments: header with control length 1, diff
length 2 and new size 2. -/
def samplePatch : List Nat :=
  magic ++ [1, 0, 0, 0, 0, 0, 0, 0] ++ [2, 0, 0, 0, 0, 0, 0, 0] ++ [2, 0, 0, 0, 0, 0, 0, 0]

/-- Decompressed segments that go with `samplePatch`: one triple `(1, 1, 0)`, diff byte
`4`, extra byte `9`. -/
def sampleStreams (off : Int) : List Nat :=
  if off = 32 then encodeControl [(1, 1, 0)] else if off = 33 then [4] else [9]

/-- The bytes the loop assembles for an environment: the first `newsize` bytes of
`ctx.new` after a loop that ran to its end on the three streams of the patch. -/
def assembled (env : Env) : Option (List Nat) :=
  match readHeader env.patch with
  | .ok (c, d, n) =>
    outputOf n (reconstruct env.oldFile n ((List.range (n.toNat + 1)).map env.garbage)
      (env.streamAt (segmentOffsets c d).1) (env.streamAt (segmentOffsets c d).2.1)
      (env.streamAt (segmentOffsets c d).2.2))
  | .error _ => none

/-- Destination contract of a finished run, `out` being what the loop assembled: either
the run succeeded and wrote `out` once, or it failed while writing, or it failed earlier
and never touched the destination. -/
def DestOk (env : Env) (o : Outcome) (out : Option (List Nat)) : Prop :=
  (o.exit = .success ∧ o.ret = 0 ∧
    ∃ b, out = some b ∧ o.dest = some b ∧
      o.events.filter isDestEvent = [.truncateDest, .writeDest b]) ∨
  o.exit = .writeNew ∨
  (o.exit ≠ .success ∧ o.exit ≠ .writeNew ∧ o.dest = env.dest ∧ o.ret = 1 ∧
    o.events.filter isDestEvent = [])

/-- The sample run, except that `read(fd, ctx.old, oldsize)` on the old file comes back
short (line 171). -/
def readFailEnv : Env := { nominalEnv samplePatch [1] sampleStreams with readOld := false }

/-- The sample run, except that `fclose(ctx.cpf)` after the loop reports an error
(line 243). -/
def fcloseFailEnv : Env := { nominalEnv samplePatch [1] sampleStreams with fcloseC := false }

/-- Sum of the `add` fields of the first `k` triples of a decompressed control
stream. -/
def sumAdd : Nat → List Nat → Int
  | 0, _ => 0
  | k + 1, c => offtin (c.take 8) + sumAdd k (c.drop 24)

/-- Sum of the `copy` fields of the first `k` triples of a decompressed control
stream. -/
def sumCopy : Nat → List Nat → Int
  | 0, _ => 0
  | k + 1, c => offtin ((c.drop 8).take 8) + sumCopy k (c.drop 24)

/-- Every triple of a decompressed control stream has `add = 0`. -/
def AllAddZero (c : List Nat) : Prop :=
  ∀ k : Nat, 24 * k + 24 ≤ c.length → offtin ((c.drop (24 * k)).take 8) = 0

/-- A handle `s` has exactly the bytes `l` left to deliver. -/
def Holds (s : BzStream) (l : List Nat) : Prop := s.data = l ∧ (s.ended = true → l = [])

/-- The three read handles of a loop state are consistent: a handle whose end was
reported has nothing left. -/
def WfState (s : LoopState) : Prop :=
  Holds s.cpf s.cpf.data ∧ Holds s.dpf s.dpf.data ∧ Holds s.epf s.epf.data

/-! ## Basic facts on machine integers -/

theorem wrap64_of_range {x : Int} (h1 : -(2 ^ 63) ≤ x) (h2 : x < 2 ^ 63) : wrap64 x = x := by
  unfold wrap64
  rw [Int.emod_eq_of_lt (by omega) (by omega)]
  omega

theorem wrap32_of_range {x : Int} (h1 : -(2 ^ 31) ≤ x) (h2 : x < 2 ^ 31) : wrap32 x = x := by
  unfold wrap32
  rw [Int.emod_eq_of_lt (by omega) (by omega)]
  omega

theorem wrap64_range (x : Int) : -(2 ^ 63) ≤ wrap64 x ∧ wrap64 x < 2 ^ 63 := by
  unfold wrap64
  have h1 := Int.emod_nonneg (x + 2 ^ 63) (show (2 ^ 64 : Int) ≠ 0 by norm_num)
  have h2 := Int.emod_lt_of_pos (x + 2 ^ 63) (show (0 : Int) < 2 ^ 64 by norm_num)
  constructor <;> omega

theorem wrap32_range (x : Int) : -(2 ^ 31) ≤ wrap32 x ∧ wrap32 x < 2 ^ 31 := by
  unfold wrap32
  have h1 := Int.emod_nonneg (x + 2 ^ 31) (show (2 ^ 32 : Int) ≠ 0 by norm_num)
  have h2 := Int.emod_lt_of_pos (x + 2 ^ 31) (show (0 : Int) < 2 ^ 32 by norm_num)
  constructor <;> omega

theorem byteAt_lt {b : List Nat} (hb : IsBytes b) (i : Nat) : byteAt b i < 256 := by
  unfold byteAt
  rw [List.getD_eq_getElem?_getD]
  cases h : b[i]? with
  | none => simp
  | some v =>
    simp only [Option.getD_some]
    exact hb v (List.mem_iff_getElem?.mpr ⟨i, h⟩)

theorem and_7F (n : Nat) : n &&& 0x7F = n % 128 :=
  Nat.and_pow_two_sub_one_eq_mod n 7

theorem and_80_ne_zero {n : Nat} (h : n < 256) : (n &&& 0x80 ≠ 0) ↔ n ≥ 128 := by
  interval_cases n <;> decide

/-- The code's decoder computes the format's value on every 8-byte buffer; no
intermediate result leaves the signed 64-bit range. -/
theorem offtin_eq_spec (b : List Nat) (hb : IsBytes b) : offtin b = offtinSpec b := by
  have h0 := byteAt_lt hb 0
  have h1 := byteAt_lt hb 1
  have h2 := byteAt_lt hb 2
  have h3 := byteAt_lt hb 3
  have h4 := byteAt_lt hb 4
  have h5 := byteAt_lt hb 5
  have h6 := byteAt_lt hb 6
  have h7 := byteAt_lt hb 7
  have h7m : byteAt b 7 % 128 < 128 := Nat.mod_lt _ (by norm_num)
  unfold offtin offtinSpec
  simp only [and_7F, and_80_ne_zero h7, mul64, add64, neg64]
  generalize byteAt b 7 % 128 = m at h7m ⊢
  generalize byteAt b 0 = b0 at h0 ⊢
  generalize byteAt b 1 = b1 at h1 ⊢
  generalize byteAt b 2 = b2 at h2 ⊢
  generalize byteAt b 3 = b3 at h3 ⊢
  generalize byteAt b 4 = b4 at h4 ⊢
  generalize byteAt b 5 = b5 at h5 ⊢
  generalize byteAt b 6 = b6 at h6 ⊢
  rw [wrap64_of_range (x := (m : Int) * 256) (by omega) (by omega)]
  rw [wrap64_of_range (x := (m : Int) * 256 + b6) (by omega) (by omega)]
  rw [wrap64_of_range (x := ((m : Int) * 256 + b6) * 256) (by omega) (by omega)]
  rw [wrap64_of_range (x := ((m : Int) * 256 + b6) * 256 + b5) (by omega) (by omega)]
  rw [wrap64_of_range (x := (((m : Int) * 256 + b6) * 256 + b5) * 256) (by omega) (by omega)]
  rw [wrap64_of_range (x := (((m : Int) * 256 + b6) * 256 + b5) * 256 + b4) (by omega) (by omega)]
  rw [wrap64_of_range (x := ((((m : Int) * 256 + b6) * 256 + b5) * 256 + b4) * 256)
    (by omega) (by omega)]
  rw [wrap64_of_range (x := ((((m : Int) * 256 + b6) * 256 + b5) * 256 + b4) * 256 + b3)
    (by omega) (by omega)]
  rw [wrap64_of_range (x := (((((m : Int) * 256 + b6) * 256 + b5) * 256 + b4) * 256 + b3) * 256)
    (by omega) (by omega)]
  rw [wrap64_of_range
    (x := (((((m : Int) * 256 + b6) * 256 + b5) * 256 + b4) * 256 + b3) * 256 + b2)
    (by omega) (by omega)]
  rw [wrap64_of_range
    (x := ((((((m : Int) * 256 + b6) * 256 + b5) * 256 + b4) * 256 + b3) * 256 + b2) * 256)
    (by omega) (by omega)]
  rw [wrap64_of_range
    (x := ((((((m : Int) * 256 + b6) * 256 + b5) * 256 + b4) * 256 + b3) * 256 + b2) * 256 + b1)
    (by omega) (by omega)]
  rw [wrap64_of_range
    (x := (((((((m : Int) * 256 + b6) * 256 + b5) * 256 + b4) * 256 + b3) * 256 + b2) * 256
      + b1) * 256) (by omega) (by omega)]
  rw [wrap64_of_range
    (x := (((((((m : Int) * 256 + b6) * 256 + b5) * 256 + b4) * 256 + b3) * 256 + b2) * 256
      + b1) * 256 + b0) (by omega) (by omega)]
  split
  · rw [wrap64_of_range (by omega) (by omega)]
    omega
  · omega

/-! ## The encoder inverts the decoder -/

theorem offtout_length (x : Int) : (offtout x).length = 8 := by
  simp [offtout]

theorem offtout_isBytes (x : Int) (h1 : -(2 ^ 63) < x) (h2 : x < 2 ^ 63) :
    IsBytes (offtout x) := by
  have hy : x.natAbs < 2 ^ 63 := by omega
  intro v hv
  simp only [offtout, List.mem_cons, List.mem_singleton, List.not_mem_nil, or_false] at hv
  rcases hv with h | h | h | h | h | h | h | h <;> subst h
  all_goals try omega
  split <;> omega

theorem offtin_offtout (x : Int) (h1 : -(2 ^ 63) < x) (h2 : x < 2 ^ 63) :
    offtin (offtout x) = x := by
  rw [offtin_eq_spec _ (offtout_isBytes x h1 h2)]
  have hy : x.natAbs < 2 ^ 63 := by omega
  simp only [offtinSpec, offtout, byteAt, List.getD_cons_zero, List.getD_cons_succ]
  by_cases hx : x < 0
  · have hxy : x = -(x.natAbs : Int) := by omega
    simp only [hx, if_true]
    generalize x.natAbs = y at hy hxy
    rw [if_pos (by omega)]
    have h7 : (y / 256 / 256 / 256 / 256 / 256 / 256 / 256 % 256 + 128) % 128
        = y / 256 / 256 / 256 / 256 / 256 / 256 / 256 := by omega
    rw [h7, hxy]
    push_cast
    omega
  · have hxy : x = (x.natAbs : Int) := by omega
    simp only [hx, if_false]
    generalize x.natAbs = y at hy hxy
    rw [if_neg (by omega)]
    have h7 : (y / 256 / 256 / 256 / 256 / 256 / 256 / 256 % 256 + 0) % 128
        = y / 256 / 256 / 256 / 256 / 256 / 256 / 256 := by omega
    rw [h7, hxy]
    push_cast
    omega

theorem offtin_append (b rest : List Nat) (hb : b.length = 8) :
    offtin (b ++ rest) = offtin b := by
  have h : ∀ i, i < 8 → byteAt (b ++ rest) i = byteAt b i := by
    intro i hi
    unfold byteAt
    rw [List.getD_eq_getElem?_getD, List.getD_eq_getElem?_getD,
      List.getElem?_append_left (by omega)]
  unfold offtin
  simp only [h 0 (by norm_num), h 1 (by norm_num), h 2 (by norm_num), h 3 (by norm_num),
    h 4 (by norm_num), h 5 (by norm_num), h 6 (by norm_num), h 7 (by norm_num)]

/-! ## Reads from a decompressed stream -/

theorem holds_fresh (l : List Nat) : Holds ⟨l, false⟩ l := ⟨rfl, by simp⟩

theorem bzRead_lenread_le (s : BzStream) (v : Int) :
    (BZ2_bzRead s v).lenread ≤ s.data.length := by
  unfold BZ2_bzRead
  simp only []
  split
  · simp
  · split
    · simp
    · split
      · simp
      · split
        · simp only []
          omega
        · simp

theorem bzRead_spec (s : BzStream) (l : List Nat) (v : Int) (hs : Holds s l)
    (hn : 0 ≤ wrap32 v) (hne : wrap32 v = 0 ∨ l ≠ []) :
    (BZ2_bzRead s v).lenread = min (wrap32 v) l.length ∧
    (BZ2_bzRead s v).bytes = l.take (wrap32 v).toNat ∧
    (BZ2_bzRead s v).ok = true ∧
    Holds (BZ2_bzRead s v).next (l.drop (wrap32 v).toNat) := by
  obtain ⟨hd, he⟩ := hs
  subst hd
  unfold BZ2_bzRead
  simp only []
  generalize wrap32 v = n at hn hne
  split
  · omega
  · split
    · rename_i h0
      subst h0
      refine ⟨by simp, by simp, rfl, ?_⟩
      simpa using ⟨rfl, he⟩
    · rename_i h0
      have hl : s.data ≠ [] := by
        rcases hne with h | h
        · exact absurd h h0
        · exact h
      have hend : s.ended = false := by
        cases hb : s.ended
        · rfl
        · exact absurd (he hb) hl
      simp only [hend, Bool.false_eq_true, if_false]
      split
      · rename_i hlt
        refine ⟨?_, rfl, rfl, rfl, by simp⟩
        simp only []
        omega
      · rename_i hlt
        refine ⟨?_, ?_, rfl, ?_⟩
        · simp only []
          omega
        · simp only []
          rw [List.take_of_length_le (by omega)]
        · refine ⟨?_, fun _ => ?_⟩
          · simp only []
            rw [List.drop_of_length_le (by omega)]
          · rw [List.drop_of_length_le (by omega)]

theorem wrap32_eight : wrap32 8 = 8 := by decide

theorem readControl_ok (s : BzStream) (l : List Nat) (hs : Holds s l) (hl : 24 ≤ l.length) :
    ∃ s1, readControl s = some ((offtin (l.take 8), offtin ((l.drop 8).take 8),
      offtin ((l.drop 16).take 8)), s1) ∧ Holds s1 (l.drop 24) := by
  have hne : ∀ (m : List Nat), 8 ≤ m.length → (wrap32 8 = 0 ∨ m ≠ []) := by
    intro m hm
    right
    intro h
    rw [h] at hm
    simp at hm
  obtain ⟨a1, a2, a3, a4⟩ := bzRead_spec s l 8 hs (by rw [wrap32_eight]; norm_num)
    (hne l (by omega))
  rw [wrap32_eight] at a1 a2 a4
  obtain ⟨b1, b2, b3, b4⟩ := bzRead_spec _ _ 8 a4 (by rw [wrap32_eight]; norm_num)
    (hne _ (by simp; omega))
  rw [wrap32_eight] at b1 b2 b4
  obtain ⟨c1, c2, c3, c4⟩ := bzRead_spec _ _ 8 b4 (by rw [wrap32_eight]; norm_num)
    (hne _ (by simp; omega))
  rw [wrap32_eight] at c1 c2 c4
  refine ⟨(BZ2_bzRead (BZ2_bzRead (BZ2_bzRead s 8).next 8).next 8).next, ?_, ?_⟩
  · unfold readControl
    simp only []
    rw [if_neg (by rw [a1, a3]; simp; omega)]
    rw [if_neg (by rw [b1, b3]; simp; omega)]
    rw [if_neg (by rw [c1, c3]; simp; omega)]
    rw [a2, b2, c2]
    simp [List.drop_drop]
  · simpa [List.drop_drop] using c4

theorem bzRead_consume (s : BzStream) (v : Int) :
    ((BZ2_bzRead s v).next.data.length : Int) + (BZ2_bzRead s v).lenread = s.data.length := by
  unfold BZ2_bzRead
  simp only []
  split
  · simp
  · split
    · simp
    · split
      · simp
      · split
        · simp only [List.length_drop]
          omega
        · simp

theorem readControl_short (s : BzStream) (hl : s.data.length < 24) : readControl s = none := by
  unfold readControl
  simp only []
  by_cases h0 : (BZ2_bzRead s 8).lenread < 8 ∨ (BZ2_bzRead s 8).ok = false
  · rw [if_pos h0]
  · rw [if_neg h0]
    by_cases h1 : (BZ2_bzRead (BZ2_bzRead s 8).next 8).lenread < 8
        ∨ (BZ2_bzRead (BZ2_bzRead s 8).next 8).ok = false
    · rw [if_pos h1]
    · rw [if_neg h1]
      rw [if_pos]
      left
      have e0 := bzRead_consume s 8
      have e1 := bzRead_consume (BZ2_bzRead s 8).next 8
      have e2 := bzRead_consume (BZ2_bzRead (BZ2_bzRead s 8).next 8).next 8
      push_neg at h0 h1
      omega

/-! ## Stores into the `ctx.new` buffer -/

theorem storeAt_some (buf : List Nat) (pos : Int) (bytes : List Nat)
    (h : bytes = [] ∨ (0 ≤ pos ∧ pos + bytes.length ≤ buf.length)) :
    ∃ r, storeAt buf pos bytes = some r := by
  unfold storeAt
  by_cases hb : bytes = []
  · exact ⟨buf, by rw [if_pos hb]⟩
  · rw [if_neg hb]
    rcases h with h | h
    · exact absurd h hb
    · rw [if_neg (by omega)]
      exact ⟨_, rfl⟩

theorem storeAt_spec (buf : List Nat) (pos : Int) (bytes r : List Nat)
    (h : storeAt buf pos bytes = some r) :
    r.length = buf.length ∧
    ∀ j : Nat, r.getD j 0 =
      if pos ≤ j ∧ (j : Int) < pos + bytes.length then bytes.getD (j - pos.toNat) 0
      else buf.getD j 0 := by
  unfold storeAt at h
  by_cases hb : bytes = []
  · rw [if_pos hb] at h
    injection h with h
    subst h
    subst hb
    refine ⟨rfl, fun j => ?_⟩
    rw [if_neg]
    simp only [List.length_nil, Nat.cast_zero, add_zero]
    omega
  · rw [if_neg hb] at h
    by_cases hp : pos < 0 ∨ (buf.length : Int) < pos + bytes.length
    · rw [if_pos hp] at h
      exact absurd h (by simp)
    · rw [if_neg hp] at h
      injection h with h
      subst h
      push_neg at hp
      obtain ⟨hp0, hp1⟩ := hp
      have hpn : (pos.toNat : Int) = pos := Int.toNat_of_nonneg hp0
      constructor
      · simp only [List.length_append, List.length_take, List.length_drop]
        omega
      · intro j
        simp only [List.getD_eq_getElem?_getD]
        by_cases hj1 : j < pos.toNat
        · rw [if_neg (by omega)]
          rw [List.append_assoc, List.getElem?_append_left (by simp; omega)]
          rw [List.getElem?_take_of_lt hj1]
        · by_cases hj2 : j < pos.toNat + bytes.length
          · rw [if_pos (by omega)]
            rw [List.append_assoc, List.getElem?_append_right (by simp; omega)]
            have hlen : (List.take pos.toNat buf).length = pos.toNat := by
              simp only [List.length_take]
              omega
            rw [hlen, List.getElem?_append_left (by omega)]
          · rw [if_neg (by omega)]
            have hlen : (List.take pos.toNat buf ++ bytes).length = pos.toNat + bytes.length := by
              simp only [List.length_append, List.length_take]
              omega
            rw [List.getElem?_append_right (by omega), hlen, List.getElem?_drop]
            congr 2
            omega

theorem getD_set_nat (l : List Nat) (i j v : Nat) (hi : i < l.length) :
    (l.set i v).getD j 0 = if i = j then v else l.getD j 0 := by
  simp only [List.getD_eq_getElem?_getD, List.getElem?_set]
  by_cases h : i = j
  · subst h
    simp [hi]
  · simp [h]

theorem addOldData_prefix (old : List Nat) (oldsize op np : Int) (new : List Nat)
    (hnp : 0 ≤ np) (hlen : (new.length : Int) ≤ 2 ^ 63) (k : Nat)
    (hfit : k = 0 ∨ np + k ≤ new.length) :
    ((List.range k).foldl
      (fun nw (i : Nat) =>
        if 0 ≤ add64 op i ∧ add64 op i < oldsize then
          nw.set (add64 np i).toNat
            ((nw.getD (add64 np i).toNat 0 + old.getD (add64 op i).toNat 0) % 256)
        else nw) new).length = new.length ∧
    ∀ j : Nat, ((List.range k).foldl
      (fun nw (i : Nat) =>
        if 0 ≤ add64 op i ∧ add64 op i < oldsize then
          nw.set (add64 np i).toNat
            ((nw.getD (add64 np i).toNat 0 + old.getD (add64 op i).toNat 0) % 256)
        else nw) new).getD j 0 =
      if np ≤ j ∧ (j : Int) < np + k ∧ 0 ≤ add64 op (j - np) ∧ add64 op (j - np) < oldsize then
        (new.getD j 0 + old.getD (add64 op (j - np)).toNat 0) % 256
      else new.getD j 0 := by
  induction k with
  | zero =>
    refine ⟨by simp, fun j => ?_⟩
    rw [if_neg]
    · simp
    · simp only [Nat.cast_zero, add_zero]
      omega
  | succ k ih =>
    have hfit1 : np + ((k + 1 : Nat) : Int) ≤ new.length := by
      rcases hfit with h | h
      · omega
      · exact h
    push_cast at hfit1
    obtain ⟨ihl, ihg⟩ := ih (by right; omega)
    rw [List.range_succ, List.foldl_append]
    simp only [List.foldl_cons, List.foldl_nil]
    have hidx : add64 np k = np + k := wrap64_of_range (by omega) (by omega)
    have hidxn : (add64 np k).toNat = np.toNat + k := by
      rw [hidx]
      omega
    by_cases hc : 0 ≤ add64 op k ∧ add64 op k < oldsize
    · rw [if_pos hc]
      constructor
      · rw [List.length_set, ihl]
      · intro j
        rw [getD_set_nat _ _ _ _ (by rw [ihl, hidxn]; omega), hidxn]
        by_cases hj : np.toNat + k = j
        · rw [if_pos hj]
          have hjk : (j : Int) - np = k := by omega
          rw [ihg (np.toNat + k), if_neg (by omega), hj]
          rw [if_pos (by rw [hjk]; refine ⟨by omega, by push_cast; omega, hc.1, hc.2⟩), hjk]
        · rw [if_neg hj, ihg j]
          by_cases hin : np ≤ j ∧ (j : Int) < np + k ∧ 0 ≤ add64 op (j - np)
              ∧ add64 op (j - np) < oldsize
          · rw [if_pos hin, if_pos ⟨hin.1, by push_cast; omega, hin.2.2⟩]
          · rw [if_neg hin, if_neg]
            intro h
            apply hin
            refine ⟨h.1, ?_, h.2.2⟩
            have := h.2.1
            push_cast at this
            omega
    · rw [if_neg hc]
      refine ⟨ihl, fun j => ?_⟩
      rw [ihg j]
      by_cases hin : np ≤ j ∧ (j : Int) < np + k ∧ 0 ≤ add64 op (j - np)
          ∧ add64 op (j - np) < oldsize
      · rw [if_pos hin, if_pos ⟨hin.1, by push_cast; omega, hin.2.2⟩]
      · rw [if_neg hin, if_neg]
        intro h
        apply hin
        refine ⟨h.1, ?_, h.2.2⟩
        have h21 := h.2.1
        push_cast at h21
        have hjk : ¬ ((j : Int) - np = k) := by
          intro e
          rw [e] at h
          exact hc h.2.2
        omega

theorem addOldData_spec (old : List Nat) (oldsize op np a : Int) (new : List Nat)
    (hnp : 0 ≤ np) (hlen : (new.length : Int) ≤ 2 ^ 63)
    (hfit : a ≤ 0 ∨ np + a ≤ new.length) :
    (addOldData old oldsize op np a new).length = new.length ∧
    ∀ j : Nat, (addOldData old oldsize op np a new).getD j 0 =
      if np ≤ j ∧ (j : Int) < np + a ∧ 0 ≤ add64 op (j - np) ∧ add64 op (j - np) < oldsize then
        (new.getD j 0 + old.getD (add64 op (j - np)).toNat 0) % 256
      else new.getD j 0 := by
  have h := addOldData_prefix old oldsize op np new hnp hlen a.toNat
    (by rcases hfit with h | h
        · left; omega
        · by_cases ha : a ≤ 0
          · left; omega
          · right; omega)
  unfold addOldData
  refine ⟨h.1, fun j => ?_⟩
  rw [h.2 j]
  by_cases ha : 0 ≤ a
  · rw [Int.toNat_of_nonneg ha]
  · have : (a.toNat : Int) = 0 := by omega
    rw [this]
    rw [if_neg (by omega), if_neg (by omega)]

theorem foldl_length_inv (f : List Nat → Nat → List Nat)
    (hf : ∀ l i, (f l i).length = l.length) (xs : List Nat) (l : List Nat) :
    (xs.foldl f l).length = l.length := by
  induction xs generalizing l with
  | nil => rfl
  | cons x xs ih => rw [List.foldl_cons, ih, hf]

theorem addOldData_length (old : List Nat) (oldsize op np a : Int) (new : List Nat) :
    (addOldData old oldsize op np a new).length = new.length := by
  unfold addOldData
  apply foldl_length_inv
  intro l i
  split
  · rw [List.length_set]
  · rfl

/-! ## One pass of the loop -/

/-- A pass in which both reads deliver enough and both stores stay inside the buffer
continues with the cursors advanced by the control values. -/
theorem loopBody_pass (old : List Nat) (oldsize newsize : Int) (s : LoopState)
    (cl dl el : List Nat) (a c z : Int)
    (hc : Holds s.cpf cl) (hcl : 24 ≤ cl.length) (hd : Holds s.dpf dl) (he : Holds s.epf el)
    (ha : offtin (cl.take 8) = a) (hcc : offtin ((cl.drop 8).take 8) = c)
    (hz : offtin ((cl.drop 16).take 8) = z)
    (hba : add64 s.newpos a ≤ newsize)
    (hna : 0 ≤ wrap32 a) (hda : wrap32 a = 0 ∨ dl ≠ [])
    (hpa : a ≤ min (wrap32 a) dl.length)
    (hsa : dl.take (wrap32 a).toNat = [] ∨
      (0 ≤ s.newpos ∧ s.newpos + (dl.take (wrap32 a).toNat).length ≤ s.new.length))
    (hbc : add64 (add64 s.newpos a) c ≤ newsize)
    (hnc : 0 ≤ wrap32 c) (hdc : wrap32 c = 0 ∨ el ≠ [])
    (hpc : c ≤ min (wrap32 c) el.length)
    (hsc : el.take (wrap32 c).toNat = [] ∨
      (0 ≤ add64 s.newpos a ∧
        add64 s.newpos a + (el.take (wrap32 c).toNat).length ≤ s.new.length)) :
    ∃ new1 new3 cpf1 dpf1 epf1,
      storeAt s.new s.newpos (dl.take (wrap32 a).toNat) = some new1 ∧
      storeAt (addOldData old oldsize s.oldpos s.newpos a new1) (add64 s.newpos a)
        (el.take (wrap32 c).toNat) = some new3 ∧
      loopBody old oldsize newsize s =
        .running ⟨add64 (add64 s.newpos a) c, add64 (add64 s.oldpos a) z, new3,
          cpf1, dpf1, epf1⟩ ∧
      Holds cpf1 (cl.drop 24) ∧ Holds dpf1 (dl.drop (wrap32 a).toNat) ∧
      Holds epf1 (el.drop (wrap32 c).toNat) := by
  obtain ⟨cpf1, hrc, hcpf1⟩ := readControl_ok s.cpf cl hc hcl
  rw [ha, hcc, hz] at hrc
  obtain ⟨d1, d2, d3, d4⟩ := bzRead_spec s.dpf dl a hd hna hda
  obtain ⟨e1, e2, e3, e4⟩ := bzRead_spec s.epf el c he hnc hdc
  obtain ⟨new1, hnew1⟩ := storeAt_some s.new s.newpos _ hsa
  have hl1 : new1.length = s.new.length := (storeAt_spec _ _ _ _ hnew1).1
  obtain ⟨new3, hnew3⟩ := storeAt_some (addOldData old oldsize s.oldpos s.newpos a new1)
    (add64 s.newpos a) (el.take (wrap32 c).toNat)
    (by rw [addOldData_length, hl1]; exact hsc)
  refine ⟨new1, new3, cpf1, _, _, hnew1, hnew3, ?_, hcpf1, d4, e4⟩
  unfold loopBody
  rw [hrc]
  simp only []
  rw [if_neg (by omega)]
  rw [d2, hnew1]
  simp only []
  rw [if_neg (by rw [d1, d3]; simp; omega)]
  rw [if_neg (by omega)]
  rw [e2, hnew3]
  simp only []
  rw [if_neg (by rw [e1, e3]; simp; omega)]

theorem take_append_len (l1 l2 : List Nat) (n : Nat) (h : l1.length = n) :
    (l1 ++ l2).take n = l1 := by
  subst h
  simp

theorem drop_append_len (l1 l2 : List Nat) (n : Nat) (h : l1.length = n) :
    (l1 ++ l2).drop n = l2 := by
  subst h
  simp

theorem control_fields (a c z : Int) (crest : List Nat) :
    (offtout a ++ offtout c ++ offtout z ++ crest).take 8 = offtout a ∧
    ((offtout a ++ offtout c ++ offtout z ++ crest).drop 8).take 8 = offtout c ∧
    ((offtout a ++ offtout c ++ offtout z ++ crest).drop 16).take 8 = offtout z ∧
    (offtout a ++ offtout c ++ offtout z ++ crest).drop 24 = crest ∧
    24 ≤ (offtout a ++ offtout c ++ offtout z ++ crest).length := by
  have e1 : offtout a ++ offtout c ++ offtout z ++ crest
      = offtout a ++ (offtout c ++ (offtout z ++ crest)) := by simp
  have e2 : offtout a ++ offtout c ++ offtout z ++ crest
      = (offtout a ++ offtout c) ++ (offtout z ++ crest) := by simp
  have e3 : offtout a ++ offtout c ++ offtout z ++ crest
      = (offtout a ++ offtout c ++ offtout z) ++ crest := by simp
  refine ⟨?_, ?_, ?_, ?_, ?_⟩
  · rw [e1, take_append_len _ _ 8 (offtout_length a)]
  · rw [e1, drop_append_len _ _ 8 (offtout_length a), take_append_len _ _ 8 (offtout_length c)]
  · rw [e2, drop_append_len _ _ 16 (by simp [offtout_length]),
      take_append_len _ _ 8 (offtout_length z)]
  · rw [e3, drop_append_len _ _ 24 (by simp [offtout_length])]
  · simp only [List.length_append, offtout_length]
    omega

/-- A pass over a well-formed triple: `a` diff bytes combined with the old file, then `c`
extra bytes, land at `newpos`; everything else in the buffer is untouched. -/
theorem loopBody_wf (old : List Nat) (newsize : Int) (s : LoopState)
    (a c z : Int) (crest dseg drest eseg erest : List Nat)
    (hc : Holds s.cpf (offtout a ++ offtout c ++ offtout z ++ crest))
    (hd : Holds s.dpf (dseg ++ drest)) (he : Holds s.epf (eseg ++ erest))
    (ha0 : 0 ≤ a) (ha1 : a < 2 ^ 31) (hc0 : 0 ≤ c) (hc1 : c < 2 ^ 31)
    (hz0 : -(2 ^ 63) < z) (hz1 : z < 2 ^ 63)
    (hdl : (dseg.length : Int) = a) (hel : (eseg.length : Int) = c)
    (hnp : 0 ≤ s.newpos) (hfit : s.newpos + a + c ≤ newsize) (hns : newsize < 2 ^ 63)
    (hlen : (s.new.length : Int) = newsize + 1)
    (hop0 : -(2 ^ 63) ≤ s.oldpos) (hop1 : s.oldpos + a < 2 ^ 63) :
    ∃ new3 cpf1 dpf1 epf1,
      loopBody old old.length newsize s =
        .running ⟨s.newpos + a + c, add64 (s.oldpos + a) z, new3, cpf1, dpf1, epf1⟩ ∧
      Holds cpf1 crest ∧ Holds dpf1 drest ∧ Holds epf1 erest ∧
      new3.length = s.new.length ∧
      ∀ j : Nat, new3.getD j 0 =
        if s.newpos ≤ j ∧ (j : Int) < s.newpos + a then
          (if 0 ≤ s.oldpos + (j - s.newpos) ∧ s.oldpos + (j - s.newpos) < old.length then
            (dseg.getD (j - s.newpos.toNat) 0
              + old.getD (s.oldpos + (j - s.newpos)).toNat 0) % 256
          else dseg.getD (j - s.newpos.toNat) 0)
        else if s.newpos + a ≤ j ∧ (j : Int) < s.newpos + a + c then
          eseg.getD (j - (s.newpos + a).toNat) 0
        else s.new.getD j 0 := by
  obtain ⟨f1, f2, f3, f4, f5⟩ := control_fields a c z crest
  have wa : wrap32 a = a := wrap32_of_range (by omega) ha1
  have wc : wrap32 c = c := wrap32_of_range (by omega) hc1
  have hnpa : add64 s.newpos a = s.newpos + a := wrap64_of_range (by omega) (by omega)
  have hnpc : add64 (s.newpos + a) c = s.newpos + a + c :=
    wrap64_of_range (by omega) (by omega)
  have hopa : add64 s.oldpos a = s.oldpos + a := wrap64_of_range (by omega) (by omega)
  have tkd : (dseg ++ drest).take (wrap32 a).toNat = dseg := by
    rw [wa]; exact take_append_len _ _ _ (by omega)
  have tke : (eseg ++ erest).take (wrap32 c).toNat = eseg := by
    rw [wc]; exact take_append_len _ _ _ (by omega)
  have drd : (dseg ++ drest).drop (wrap32 a).toNat = drest := by
    rw [wa]; exact drop_append_len _ _ _ (by omega)
  have dre : (eseg ++ erest).drop (wrap32 c).toNat = erest := by
    rw [wc]; exact drop_append_len _ _ _ (by omega)
  obtain ⟨new1, new3, cpf1, dpf1, epf1, h1, h3, hrun, k1, k2, k3⟩ :=
    loopBody_pass old old.length newsize s _ (dseg ++ drest) (eseg ++ erest) a c z
      hc f5 hd he
      (by rw [f1]; exact offtin_offtout a (by omega) (by omega))
      (by rw [f2]; exact offtin_offtout c (by omega) (by omega))
      (by rw [f3]; exact offtin_offtout z hz0 hz1)
      (by rw [hnpa]; omega) (by rw [wa]; exact ha0)
      (by rw [wa]
          by_cases h : a = 0
          · left; exact h
          · right
            intro hnil
            have : dseg = [] := (List.append_eq_nil.mp hnil).1
            rw [this] at hdl
            simp at hdl
            omega)
      (by rw [wa]; simp only [List.length_append]; push_cast; omega)
      (by rw [tkd]; right; omega)
      (by rw [hnpa, hnpc]; omega) (by rw [wc]; exact hc0)
      (by rw [wc]
          by_cases h : c = 0
          · left; exact h
          · right
            intro hnil
            have : eseg = [] := (List.append_eq_nil.mp hnil).1
            rw [this] at hel
            simp at hel
            omega)
      (by rw [wc]; simp only [List.length_append]; push_cast; omega)
      (by rw [tke, hnpa]; right; omega)
  rw [tkd] at h1
  rw [tke, hnpa] at h3
  rw [hnpa, hnpc, hopa] at hrun
  rw [f4] at k1
  rw [drd] at k2
  rw [dre] at k3
  obtain ⟨l1, g1⟩ := storeAt_spec _ _ _ _ h1
  obtain ⟨l3, g3⟩ := storeAt_spec _ _ _ _ h3
  obtain ⟨l2, g2⟩ := addOldData_spec old old.length s.oldpos s.newpos a new1 hnp
    (by rw [l1]; omega) (by right; rw [l1]; omega)
  refine ⟨new3, cpf1, dpf1, epf1, hrun, k1, k2, k3, by rw [l3, l2, l1], fun j => ?_⟩
  rw [g3 j, g2 j, g1 j]
  rw [hdl, hel]
  by_cases hj1 : s.newpos ≤ j ∧ (j : Int) < s.newpos + a
  · have hw : add64 s.oldpos (j - s.newpos) = s.oldpos + (j - s.newpos) :=
      wrap64_of_range (by omega) (by omega)
    rw [hw]
    split_ifs <;> first | rfl | (exfalso; omega)
  · split_ifs <;> first | rfl | (exfalso; omega)

/-! ## The whole loop on a well-formed patch -/

theorem loopFuel_done (old : List Nat) (oldsize newsize : Int) (fuel : Nat) (s : LoopState)
    (h : ¬ s.newpos < newsize) :
    loopFuel old oldsize newsize fuel s = some (.running s) := by
  cases fuel with
  | zero => simp [loopFuel, h]
  | succ n => simp [loopFuel, h]

theorem loopFuel_step (old : List Nat) (oldsize newsize : Int) (fuel : Nat)
    (s s1 : LoopState) (h : s.newpos < newsize)
    (hb : loopBody old oldsize newsize s = .running s1) :
    loopFuel old oldsize newsize (fuel + 1) s = loopFuel old oldsize newsize fuel s1 := by
  simp [loopFuel, h, hb]

theorem take_eq_of_getD (buf new : List Nat) (h1 : new.length ≤ buf.length)
    (h2 : ∀ j : Nat, j < new.length → buf.getD j 0 = new.getD j 0) :
    buf.take new.length = new := by
  apply List.ext_getElem
  · simp only [List.length_take]
    omega
  · intro j hj1 hj2
    have := h2 j hj2
    rw [List.getD_eq_getElem _ _ (by omega), List.getD_eq_getElem _ _ hj2] at this
    rw [List.getElem_take]
    exact this

theorem getD_map_range (f : Nat → Nat) (n i : Nat) (h : i < n) :
    ((List.range n).map f).getD i 0 = f i := by
  rw [List.getD_eq_getElem _ _ (by simpa using h)]
  simp

theorem encodeControl_length (ts : List (Int × Int × Int)) :
    (encodeControl ts).length = 24 * ts.length := by
  induction ts with
  | nil => rfl
  | cons t ts ih =>
    obtain ⟨a, c, z⟩ := t
    simp only [encodeControl, List.length_append, offtout_length, ih, List.length_cons]
    omega

theorem totalLength_nonneg (ts : List (Int × Int × Int)) (h : TriplesOk ts) :
    0 ≤ totalLength ts := by
  induction ts with
  | nil => simp [totalLength]
  | cons t ts ih =>
    obtain ⟨a, c, z⟩ := t
    have ht := h (a, c, z) (List.mem_cons_self _ _)
    have := ih (fun t ht => h t (List.mem_cons_of_mem _ ht))
    simp only [totalLength]
    simp only at ht
    omega

theorem loop_wf (old new : List Nat) (hold : IsBytes old) (hnew : IsBytes new)
    (hns : (new.length : Int) < 2 ^ 63) (ts : List (Int × Int × Int)) :
    ∀ (s : LoopState) (fuel : Nat),
      Holds s.cpf (encodeControl ts) →
      Holds s.dpf (patchStreams old new ts s.newpos s.oldpos).1 →
      Holds s.epf (patchStreams old new ts s.newpos s.oldpos).2 →
      0 ≤ s.newpos → s.newpos + totalLength ts = new.length → TriplesOk ts →
      CursorInRange ts s.oldpos → -(2 ^ 63) ≤ s.oldpos →
      (s.new.length : Int) = new.length + 1 →
      (∀ j : Nat, (j : Int) < s.newpos → s.new.getD j 0 = new.getD j 0) →
      ts.length < fuel →
      ∃ s1, loopFuel old old.length new.length fuel s = some (.running s1) ∧
        s1.new.take new.length = new := by
  induction ts with
  | nil =>
    intro s fuel _ _ _ hnp htot _ _ _ hlen hpre _
    simp only [totalLength, add_zero] at htot
    refine ⟨s, loopFuel_done _ _ _ _ _ (by omega), ?_⟩
    exact take_eq_of_getD _ _ (by omega) (fun j hj => hpre j (by omega))
  | cons t ts ih =>
    intro s fuel hc hd he hnp htot hok hcur hop0 hlen hpre hfuel
    obtain ⟨a, c, z⟩ := t
    by_cases hrun : s.newpos < new.length
    · obtain ⟨⟨ha0, ha1⟩, ⟨hc0, hc1⟩, hz0, hz1⟩ := hok (a, c, z) (List.mem_cons_self _ _)
      simp only at ha0 ha1 hc0 hc1 hz0 hz1
      have hok1 : TriplesOk ts := fun t ht => hok t (List.mem_cons_of_mem _ ht)
      have htn := totalLength_nonneg ts hok1
      simp only [totalLength] at htot
      simp only [CursorInRange] at hcur
      obtain ⟨⟨_, hop1⟩, ⟨hop2, hop3⟩, hcur1⟩ := hcur
      simp only [encodeControl] at hc
      simp only [patchStreams] at hd he
      obtain ⟨new3, cpf1, dpf1, epf1, hbody, k1, k2, k3, l3, g3⟩ :=
        loopBody_wf old new.length s a c z _ _ _ _ _ hc hd he ha0 ha1 hc0 hc1 hz0 hz1
          (by simp [diffSegment]; omega) (by simp [extraSegment]; omega)
          hnp (by omega) hns hlen hop0 hop1
      have hopz : add64 (s.oldpos + a) z = s.oldpos + a + z := wrap64_of_range hop2 hop3
      rw [hopz] at hbody
      obtain ⟨fuel1, rfl⟩ : ∃ f, fuel = f + 1 := ⟨fuel - 1, by omega⟩
      rw [loopFuel_step _ _ _ _ _ _ hrun hbody]
      apply ih ⟨s.newpos + a + c, s.oldpos + a + z, new3, cpf1, dpf1, epf1⟩ fuel1
        k1 k2 k3 (by simp only; omega) (by simp only; omega) hok1 hcur1 hop2
        (by simp only; rw [l3]; exact hlen) ?_ (by simp only [List.length_cons] at hfuel; omega)
      intro j hj
      simp only at hj ⊢
      rw [g3 j]
      by_cases hj1 : s.newpos ≤ j ∧ (j : Int) < s.newpos + a
      · rw [if_pos hj1]
        have hi : j - s.newpos.toNat < a.toNat := by omega
        have hjj : s.newpos.toNat + (j - s.newpos.toNat) = j := by omega
        have hcast : ((j - s.newpos.toNat : Nat) : Int) = j - s.newpos := by omega
        unfold diffSegment
        rw [getD_map_range _ _ _ hi]
        simp only [hjj, hcast]
        have hnj : new.getD j 0 < 256 := by
          rw [List.getD_eq_getElem _ _ (by omega)]
          exact hnew _ (List.getElem_mem _)
        by_cases hin : 0 ≤ s.oldpos + (j - s.newpos) ∧ s.oldpos + (j - s.newpos) < old.length
        · rw [if_pos hin, if_pos hin]
          have hoj : old.getD (s.oldpos + (j - s.newpos)).toNat 0 < 256 := by
            rw [List.getD_eq_getElem _ _ (by omega)]
            exact hold _ (List.getElem_mem _)
          omega
        · rw [if_neg hin, if_neg hin]
      · rw [if_neg hj1]
        by_cases hj2 : s.newpos + a ≤ j ∧ (j : Int) < s.newpos + a + c
        · rw [if_pos hj2]
          have hi : j - (s.newpos + a).toNat < c.toNat := by omega
          have hjj : (s.newpos + a).toNat + (j - (s.newpos + a).toNat) = j := by omega
          unfold extraSegment
          rw [getD_map_range _ _ _ hi, hjj]
        · rw [if_neg hj2]
          exact hpre j (by omega)
    · have htn := totalLength_nonneg _ hok
      refine ⟨s, loopFuel_done _ _ _ _ _ hrun, ?_⟩
      exact take_eq_of_getD _ _ (by omega) (fun j hj => hpre j (by omega))

/-! ## Lengths that do not fit an `int` -/

theorem bzRead_lenread_lt (s : BzStream) (v : Int) : (BZ2_bzRead s v).lenread < 2 ^ 31 := by
  have hr := wrap32_range v
  unfold BZ2_bzRead
  simp only []
  split
  · norm_num
  · split
    · norm_num
    · split
      · norm_num
      · split
        · exact hr.2
        · simp only []
          omega

/-- A pass whose `add` value is `2^31` or more never completes: the diff read hands
back fewer bytes than the 64-bit value asks for. -/
theorem loopBody_add_large (old : List Nat) (oldsize newsize : Int) (s : LoopState)
    (cl : List Nat) (hc : Holds s.cpf cl) (hcl : 24 ≤ cl.length)
    (ha : 2 ^ 31 ≤ offtin (cl.take 8)) (s1 : LoopState) :
    loopBody old oldsize newsize s ≠ .running s1 := by
  obtain ⟨cpf1, hrc, _⟩ := readControl_ok s.cpf cl hc hcl
  have hlt := bzRead_lenread_lt s.dpf (offtin (cl.take 8))
  unfold loopBody
  rw [hrc]
  simp only []
  split
  · simp
  · split
    · simp
    · rw [if_pos (by left; omega)]
      simp

theorem loopFuel_not_running (old : List Nat) (oldsize newsize : Int) (fuel : Nat)
    (s : LoopState) (h : s.newpos < newsize)
    (hb : ∀ s1, loopBody old oldsize newsize s ≠ .running s1) :
    outputOf newsize (loopFuel old oldsize newsize (fuel + 1) s) = none := by
  simp only [loopFuel, h, if_true]
  cases hr : loopBody old oldsize newsize s with
  | running s1 => exact absurd hr (hb s1)
  | exit1 e => simp [outputOf]
  | undefined => simp [outputOf]

theorem reconstruct_single_large (old nb d e : List Nat) (newsize a c z : Int)
    (hn : 0 < newsize) (ha : 2 ^ 31 ≤ a) (ha1 : a < 2 ^ 63) :
    outputOf newsize (reconstruct old newsize nb (encodeControl [(a, c, z)]) d e) = none := by
  unfold reconstruct
  have hlen : (encodeControl [(a, c, z)]).length / 24 + 1 = 1 + 1 := by
    rw [encodeControl_length]
    simp
  rw [hlen]
  apply loopFuel_not_running _ _ _ _ _ hn
  intro s1
  apply loopBody_add_large _ _ _ _ (encodeControl [(a, c, z)]) (holds_fresh _)
    (by rw [encodeControl_length]; simp)
  simp only [encodeControl]
  rw [(control_fields a c z []).1, offtin_offtout a (by omega) ha1]
  exact ha

/-! ## Claim C1: round trip -/

/-- C1 (as amended): for byte sequences `old` and `new` with `|new| < 2^63` and control
triples with `0 ≤ add, copy < 2^31`, a seek that fits the encoding, `sum (add + copy) =
|new|` and an old cursor that stays inside the signed 64-bit range, the loop run on the
encoded triples, the diff stream `(new[j] - old[p]) mod 256` (or `new[j]` where `p` is
outside `old`) and the extra stream of the copy regions ends normally and the bytes
written out are exactly `new`. -/
theorem roundtrip_reconstructs_new (old new newbuf : List Nat) (ts : List (Int × Int × Int))
    (hold : IsBytes old) (hnew : IsBytes new) (hns : (new.length : Int) < 2 ^ 63)
    (hbuf : newbuf.length = new.length + 1) (hok : TriplesOk ts)
    (htot : totalLength ts = new.length) (hcur : CursorInRange ts 0) :
    outputOf new.length
      (reconstruct old new.length newbuf (encodeControl ts)
        (patchStreams old new ts 0 0).1 (patchStreams old new ts 0 0).2) = some new := by
  unfold reconstruct
  obtain ⟨s1, h1, h2⟩ := loop_wf old new hold hnew hns ts
    ⟨0, 0, newbuf, ⟨encodeControl ts, false⟩, ⟨(patchStreams old new ts 0 0).1, false⟩,
      ⟨(patchStreams old new ts 0 0).2, false⟩⟩
    ((encodeControl ts).length / 24 + 1)
    (holds_fresh _) (holds_fresh _) (holds_fresh _) (le_refl _)
    (by simp only; omega) hok hcur (by norm_num) (by simp only; omega)
    (fun j hj => by simp only at hj; omega)
    (by rw [encodeControl_length]; omega)
  rw [h1]
  simp only [outputOf, Int.toNat_ofNat]
  rw [h2]

/-- Instance of `roundtrip_reconstructs_new`: old `[1,2,3]`, new `[1,2,4,9]`, one triple
`(3, 1, 0)`. -/
theorem roundtrip_reconstructs_new_witness :
    outputOf 4
      (reconstruct [1, 2, 3] 4 [0, 0, 0, 0, 0] (encodeControl [(3, 1, 0)])
        (patchStreams [1, 2, 3] [1, 2, 4, 9] [(3, 1, 0)] 0 0).1
        (patchStreams [1, 2, 3] [1, 2, 4, 9] [(3, 1, 0)] 0 0).2) = some [1, 2, 4, 9] :=
  roundtrip_reconstructs_new [1, 2, 3] [1, 2, 4, 9] [0, 0, 0, 0, 0] [(3, 1, 0)]
    (by decide) (by decide) (by decide) (by decide)
    (by intro t ht; simp at ht; subst ht; norm_num)
    (by simp [totalLength]) (by simp [CursorInRange])

set_option maxRecDepth 100000 in
/-- C1 as stated fails: (i) a single add region of `2^31` bytes satisfies the claim's
conditions, yet the run produces no output; (ii) with seeks that carry the old cursor
past `2^63` the diff byte the claim prescribes (`new[j]`, index outside `old`) is
combined with `old[0]` and the output is `[8]` instead of `[5]`. -/
theorem roundtrip_counterexample :
    (totalLength [(2147483648, 0, 0)] = ((List.replicate 2147483648 0).length : Int) ∧
      outputOf ((List.replicate 2147483648 0).length : Int)
        (reconstruct [] ((List.replicate 2147483648 0).length : Int)
          (List.replicate 2147483649 0) (encodeControl [(2147483648, 0, 0)])
          (patchStreams [] (List.replicate 2147483648 0) [(2147483648, 0, 0)] 0 0).1
          (patchStreams [] (List.replicate 2147483648 0) [(2147483648, 0, 0)] 0 0).2)
        ≠ some (List.replicate 2147483648 0)) ∧
    (totalLength [(0, 0, 2 ^ 63 - 1), (0, 0, 2 ^ 63 - 1), (0, 0, 2), (1, 0, 0)]
        = (([5] : List Nat).length : Int) ∧
      outputOf 1
        (reconstruct [3] 1 [0, 0]
          (encodeControl [(0, 0, 2 ^ 63 - 1), (0, 0, 2 ^ 63 - 1), (0, 0, 2), (1, 0, 0)])
          (patchStreams [3] [5]
            [(0, 0, 2 ^ 63 - 1), (0, 0, 2 ^ 63 - 1), (0, 0, 2), (1, 0, 0)] 0 0).1
          (patchStreams [3] [5]
            [(0, 0, 2 ^ 63 - 1), (0, 0, 2 ^ 63 - 1), (0, 0, 2), (1, 0, 0)] 0 0).2)
        = some [8]) := by
  refine ⟨⟨?_, ?_⟩, ?_, ?_⟩
  · rw [List.length_replicate]
    simp [totalLength]
  · rw [List.length_replicate]
    rw [reconstruct_single_large _ _ _ _ _ _ _ _ (by norm_num) (by norm_num) (by norm_num)]
    exact fun h => nomatch h
  · decide
  · decide

/-! ## Claim C2: the decoder -/

/-- C2: on every eight bytes `offtin` returns `s * (b0 + b1*256 + ... + b6*256^6 +
(b7 mod 128)*256^7)` with `s = -1` when `b7 ≥ 128` and `s = 1` otherwise; being a total
function, it rejects no input. -/
theorem offtin_sign_magnitude (b0 b1 b2 b3 b4 b5 b6 b7 : Nat)
    (h0 : b0 < 256) (h1 : b1 < 256) (h2 : b2 < 256) (h3 : b3 < 256)
    (h4 : b4 < 256) (h5 : b5 < 256) (h6 : b6 < 256) (h7 : b7 < 256) :
    offtin [b0, b1, b2, b3, b4, b5, b6, b7] =
      (if b7 ≥ 128 then (-1 : Int) else 1) *
        ((b0 : Int) + b1 * 256 + b2 * 256 ^ 2 + b3 * 256 ^ 3 + b4 * 256 ^ 4 + b5 * 256 ^ 5
          + b6 * 256 ^ 6 + ((b7 % 128 : Nat) : Int) * 256 ^ 7) := by
  have hb : IsBytes [b0, b1, b2, b3, b4, b5, b6, b7] := by
    intro x hx
    simp only [List.mem_cons, List.mem_singleton, List.not_mem_nil, or_false] at hx
    rcases hx with h | h | h | h | h | h | h | h <;> subst h <;> assumption
  rw [offtin_eq_spec _ hb]
  simp only [offtinSpec, byteAt, List.getD_cons_zero, List.getD_cons_succ]

/-- Instance of `offtin_sign_magnitude`: `39 30 00 00 00 00 00 80` decodes to `-12345`. -/
theorem offtin_sign_magnitude_witness :
    offtin [0x39, 0x30, 0, 0, 0, 0, 0, 0x80] = -12345 := by
  rw [offtin_sign_magnitude 0x39 0x30 0 0 0 0 0 0x80 (by decide) (by decide) (by decide)
    (by decide) (by decide) (by decide) (by decide) (by decide)]
  decide

/-! ## Claim C3: header parsing -/

theorem offtin_congr (l1 l2 : List Nat) (h : ∀ i, i < 8 → byteAt l1 i = byteAt l2 i) :
    offtin l1 = offtin l2 := by
  unfold offtin
  simp only [h 0 (by norm_num), h 1 (by norm_num), h 2 (by norm_num), h 3 (by norm_num),
    h 4 (by norm_num), h 5 (by norm_num), h 6 (by norm_num), h 7 (by norm_num)]

theorem offtin_slice (p : List Nat) (k : Nat) (hk : k + 8 ≤ 32) :
    offtin ((p.take 32).drop k) = offtin ((p.drop k).take 8) := by
  apply offtin_congr
  intro i hi
  unfold byteAt
  simp only [List.getD_eq_getElem?_getD, List.getElem?_drop, List.getElem?_take]
  rw [if_pos (by omega), if_pos hi]

theorem readHeader_ok (p : List Nat) (h : ¬ HeaderBad p) :
    readHeader p = .ok (offtin ((p.drop 8).take 8), offtin ((p.drop 16).take 8),
      offtin ((p.drop 24).take 8)) := by
  unfold HeaderBad at h
  push_neg at h
  obtain ⟨h1, h2, h3, h4, h5⟩ := h
  unfold readHeader
  simp only [List.length_take, List.take_take]
  rw [if_neg (by omega)]
  rw [show min 8 32 = 8 by decide, if_neg (by simpa using h2)]
  rw [offtin_slice p 8 (by norm_num), offtin_slice p 16 (by norm_num),
    offtin_slice p 24 (by norm_num)]
  rw [if_neg (by omega)]

theorem readHeader_bad (p : List Nat) (h : HeaderBad p) :
    ∃ e, (e = MainExit.shortHeader ∨ e = MainExit.badMagic ∨ e = MainExit.negativeLength) ∧
      readHeader p = .error e := by
  unfold readHeader
  simp only [List.length_take, List.take_take]
  by_cases h1 : min 32 p.length < 32
  · exact ⟨_, Or.inl rfl, by rw [if_pos h1]⟩
  · rw [if_neg h1, show min 8 32 = 8 by decide]
    by_cases h2 : p.take 8 ≠ magic
    · exact ⟨_, Or.inr (Or.inl rfl), by rw [if_pos h2]⟩
    · rw [if_neg h2]
      rw [offtin_slice p 8 (by norm_num), offtin_slice p 16 (by norm_num),
        offtin_slice p 24 (by norm_num)]
      refine ⟨_, Or.inr (Or.inr rfl), ?_⟩
      rw [if_pos]
      unfold HeaderBad at h
      rcases h with h | h | h | h | h
      · omega
      · exact absurd h h2
      · exact Or.inl h
      · exact Or.inr (Or.inl h)
      · exact Or.inr (Or.inr h)

/-- C3: once the patch file is open, the header is rejected exactly when fewer than 32
bytes are there, or the first eight differ from `BSDIFF40`, or one of the three decoded
lengths is negative; a rejection returns 1 with only the patch handle opened and closed
and the destination untouched; otherwise the three decoded values, all non-negative,
are the control length, the diff length and the new size. -/
theorem header_rejected_iff (env : Env) (hargc : env.argc = 4) (hopen : env.fopenF = true) :
    ((∃ e, readHeader env.patch = .error e) ↔ HeaderBad env.patch) ∧
    (HeaderBad env.patch →
      ∃ e, (e = MainExit.shortHeader ∨ e = MainExit.badMagic ∨ e = MainExit.negativeLength) ∧
        bspatch_main env = .finished ⟨1, e, env.dest, [.acquire .f, .release .f]⟩) ∧
    (¬ HeaderBad env.patch →
      readHeader env.patch = .ok (offtin ((env.patch.drop 8).take 8),
        offtin ((env.patch.drop 16).take 8), offtin ((env.patch.drop 24).take 8)) ∧
      0 ≤ offtin ((env.patch.drop 8).take 8) ∧ 0 ≤ offtin ((env.patch.drop 16).take 8) ∧
      0 ≤ offtin ((env.patch.drop 24).take 8)) := by
  refine ⟨⟨?_, ?_⟩, ?_, ?_⟩
  · rintro ⟨e, he⟩
    by_contra hb
    rw [readHeader_ok _ hb] at he
    exact absurd he (by simp)
  · intro hb
    obtain ⟨e, _, he⟩ := readHeader_bad _ hb
    exact ⟨e, he⟩
  · intro hb
    obtain ⟨e, he1, he2⟩ := readHeader_bad _ hb
    refine ⟨e, he1, ?_⟩
    unfold bspatch_main
    rw [if_neg (by simp [hargc]), hopen, he2]
    simp
  · intro hb
    refine ⟨readHeader_ok _ hb, ?_⟩
    unfold HeaderBad at hb
    push_neg at hb
    exact ⟨hb.2.2.1, hb.2.2.2.1, hb.2.2.2.2⟩

/-- Instance of `header_rejected_iff`: a patch that starts with `XSDIFF40` is rejected
with nothing but the patch handle touched. -/
theorem header_rejected_iff_witness :
    ∃ e, (e = MainExit.shortHeader ∨ e = MainExit.badMagic ∨ e = MainExit.negativeLength) ∧
      bspatch_main (nominalEnv ([88, 83, 68, 73, 70, 70, 52, 48] ++ List.replicate 24 0) []
        (fun _ => []))
      = .finished ⟨1, e, none, [.acquire .f, .release .f]⟩ :=
  (header_rejected_iff
    (nominalEnv ([88, 83, 68, 73, 70, 70, 52, 48] ++ List.replicate 24 0) [] (fun _ => []))
    rfl rfl).2.1 (by right; left; decide)

/-! ## Claim C10: segment offsets -/

theorem readHeader_nonneg (p : List Nat) (c d n : Int) (h : readHeader p = .ok (c, d, n)) :
    0 ≤ c ∧ 0 ≤ d ∧ 0 ≤ n := by
  by_cases hb : HeaderBad p
  · obtain ⟨e, _, he⟩ := readHeader_bad p hb
    rw [he] at h
    exact absurd h (by simp)
  · rw [readHeader_ok p hb] at h
    injection h with h
    injection h with h1 h
    injection h with h2 h3
    unfold HeaderBad at hb
    push_neg at hb
    subst h1 h2 h3
    exact ⟨hb.2.2.1, hb.2.2.2.1, hb.2.2.2.2⟩

/-- C10 (as amended): for an accepted header whose lengths satisfy `32 + controlLength +
diffLength < 2^63`, the three seek targets are `32`, `32 + controlLength` and `32 +
controlLength + diffLength`, and when the opens succeed the three readers deliver the
streams found at exactly these offsets. -/
theorem segments_opened_at_offsets (env : Env) (c d n : Int)
    (hdr : readHeader env.patch = .ok (c, d, n)) (hsum : 32 + c + d < 2 ^ 63)
    (hargc : env.argc = 4) (h1 : env.fopenF = true) (h2 : env.fcloseF = true)
    (h3 : env.fopenC = true) (h4 : env.fseekC = true) (h5 : env.bzOpenC = true)
    (h6 : env.fopenD = true) (h7 : env.fseekD = true) (h8 : env.bzOpenD = true)
    (h9 : env.fopenE = true) (h10 : env.fseekE = true) (h11 : env.bzOpenE = true) :
    segmentOffsets c d = (32, 32 + c, 32 + c + d) ∧
    bspatch_main env =
      loadAndRun env n (env.streamAt 32, env.streamAt (32 + c), env.streamAt (32 + c + d))
        [.acquire .f, .release .f, .acquire .cpf, .acquire .cpfbz2, .acquire .dpf,
          .acquire .dpfbz2, .acquire .epf, .acquire .epfbz2] := by
  obtain ⟨hc, hd, _⟩ := readHeader_nonneg _ _ _ _ hdr
  have e1 : add64 32 c = 32 + c := wrap64_of_range (by omega) (by omega)
  have e2 : add64 (32 + c) d = 32 + c + d := wrap64_of_range (by omega) (by omega)
  have hoff : segmentOffsets c d = (32, 32 + c, 32 + c + d) := by
    unfold segmentOffsets
    rw [e1, e2]
  refine ⟨hoff, ?_⟩
  unfold bspatch_main
  rw [if_neg (by simp [hargc]), h1, hdr]
  simp only [Bool.not_true, Bool.false_eq_true, if_false, h2]
  unfold openStreams
  simp only [hoff, h3, h4, h5, h6, h7, h8, h9, h10, h11, fseekoOk, Bool.true_and,
    Bool.not_true, Bool.false_eq_true, if_false]
  rw [if_neg (by simp), if_neg (by simp; omega), if_neg (by simp; omega)]
  rfl

set_option maxRecDepth 100000 in
/-- Instance of `segments_opened_at_offsets`: the sample patch has its segments at 32,
33 and 35. -/
theorem segments_opened_at_offsets_witness :
    segmentOffsets 1 2 = (32, 32 + 1, 32 + 1 + 2) ∧
    bspatch_main (nominalEnv samplePatch [1] sampleStreams) =
      loadAndRun (nominalEnv samplePatch [1] sampleStreams) 2
        (sampleStreams 32, sampleStreams (32 + 1), sampleStreams (32 + 1 + 2))
        [.acquire .f, .release .f, .acquire .cpf, .acquire .cpfbz2, .acquire .dpf,
          .acquire .dpfbz2, .acquire .epf, .acquire .epfbz2] :=
  segments_opened_at_offsets (nominalEnv samplePatch [1] sampleStreams) 1 2 2
    (by rfl) (by decide) rfl rfl rfl rfl rfl rfl rfl rfl rfl rfl rfl rfl

set_option maxRecDepth 100000 in
/-- C10 as stated fails: the header can encode the control length `2^63 - 1`, it is
accepted, and `32 + controlLength` computed in 64 bits wraps to `-2^63 + 31`. -/
theorem segment_offsets_counterexample :
    readHeader (magic ++ [255, 255, 255, 255, 255, 255, 255, 127]
        ++ [0, 0, 0, 0, 0, 0, 0, 0] ++ [0, 0, 0, 0, 0, 0, 0, 0])
      = .ok (2 ^ 63 - 1, 0, 0) ∧
    (segmentOffsets (2 ^ 63 - 1) 0).2.1 = -(2 ^ 63) + 31 ∧
    (segmentOffsets (2 ^ 63 - 1) 0).2.1 ≠ 32 + (2 ^ 63 - 1) := by
  refine ⟨by rfl, by decide, by decide⟩

/-! ## What a completed pass tells -/

/-- Inversion of `loopBody`: a pass that completes has read a triple, passed both
sanity checks, and both reads returned at least the 64-bit value asked for. -/
theorem loopBody_running (old : List Nat) (oldsize newsize : Int) (s s1 : LoopState)
    (h : loopBody old oldsize newsize s = .running s1) :
    ∃ c0 c1 c2 cpf1 new1 new3,
      readControl s.cpf = some ((c0, c1, c2), cpf1) ∧
      add64 s.newpos c0 ≤ newsize ∧
      storeAt s.new s.newpos (BZ2_bzRead s.dpf c0).bytes = some new1 ∧
      c0 ≤ (BZ2_bzRead s.dpf c0).lenread ∧ (BZ2_bzRead s.dpf c0).ok = true ∧
      add64 (add64 s.newpos c0) c1 ≤ newsize ∧
      storeAt (addOldData old oldsize s.oldpos s.newpos c0 new1) (add64 s.newpos c0)
        (BZ2_bzRead s.epf c1).bytes = some new3 ∧
      c1 ≤ (BZ2_bzRead s.epf c1).lenread ∧ (BZ2_bzRead s.epf c1).ok = true ∧
      s1 = ⟨add64 (add64 s.newpos c0) c1, add64 (add64 s.oldpos c0) c2, new3, cpf1,
        (BZ2_bzRead s.dpf c0).next, (BZ2_bzRead s.epf c1).next⟩ := by
  unfold loopBody at h
  cases hrc : readControl s.cpf with
  | none =>
    rw [hrc] at h
    simp at h
  | some v =>
    obtain ⟨⟨c0, c1, c2⟩, cpf1⟩ := v
    rw [hrc] at h
    simp only [] at h
    by_cases hb0 : add64 s.newpos c0 > newsize
    · rw [if_pos hb0] at h
      simp at h
    · rw [if_neg hb0] at h
      cases hs1 : storeAt s.new s.newpos (BZ2_bzRead s.dpf c0).bytes with
      | none =>
        rw [hs1] at h
        simp at h
      | some new1 =>
        rw [hs1] at h
        simp only [] at h
        by_cases hr0 : (BZ2_bzRead s.dpf c0).lenread < c0 ∨ (BZ2_bzRead s.dpf c0).ok = false
        · rw [if_pos hr0] at h
          simp at h
        · rw [if_neg hr0] at h
          by_cases hb1 : add64 (add64 s.newpos c0) c1 > newsize
          · rw [if_pos hb1] at h
            simp at h
          · rw [if_neg hb1] at h
            cases hs3 : storeAt (addOldData old oldsize s.oldpos s.newpos c0 new1)
                (add64 s.newpos c0) (BZ2_bzRead s.epf c1).bytes with
            | none =>
              rw [hs3] at h
              simp at h
            | some new3 =>
              rw [hs3] at h
              simp only [] at h
              by_cases hr1 : (BZ2_bzRead s.epf c1).lenread < c1
                  ∨ (BZ2_bzRead s.epf c1).ok = false
              · rw [if_pos hr1] at h
                simp at h
              · rw [if_neg hr1] at h
                injection h with h
                push_neg at hr0 hr1
                refine ⟨c0, c1, c2, cpf1, new1, new3, rfl, by omega, hs1, hr0.1, ?_,
                  by omega, hs3, hr1.1, ?_, h.symm⟩
                · simpa using hr0.2
                · simpa using hr1.2

theorem loopBody_length (old : List Nat) (oldsize newsize : Int) (s s1 : LoopState)
    (h : loopBody old oldsize newsize s = .running s1) : s1.new.length = s.new.length := by
  obtain ⟨c0, c1, c2, cpf1, new1, new3, _, _, h1, _, _, _, h3, _, _, hs⟩ :=
    loopBody_running _ _ _ _ _ h
  subst hs
  simp only
  rw [(storeAt_spec _ _ _ _ h3).1, addOldData_length, (storeAt_spec _ _ _ _ h1).1]

theorem loopFuel_length (old : List Nat) (oldsize newsize : Int) (fuel : Nat) :
    ∀ (s s1 : LoopState), loopFuel old oldsize newsize fuel s = some (.running s1) →
      s1.new.length = s.new.length := by
  induction fuel with
  | zero =>
    intro s s1 h
    simp only [loopFuel] at h
    split at h
    · simp at h
    · injection h with h
      injection h with h
      rw [h]
  | succ n ih =>
    intro s s1 h
    simp only [loopFuel] at h
    split at h
    · cases hb : loopBody old oldsize newsize s with
      | running s2 =>
        rw [hb] at h
        simp only [] at h
        rw [ih s2 s1 h, loopBody_length _ _ _ _ _ hb]
      | exit1 e =>
        rw [hb] at h
        simp at h
      | undefined =>
        rw [hb] at h
        simp at h
    · injection h with h
      injection h with h
      rw [h]

/-! ## Claim C6: the destination is written only after a complete reconstruction -/

theorem cleanup_no_dest (ctx : Ctx) : (cleanup_context ctx).filter isDestEvent = [] := by
  obtain ⟨a, b, c, d, e, f, g, h⟩ := ctx
  cases a <;> cases b <;> cases c <;> cases d <;> cases e <;> cases f <;> cases g <;>
    cases h <;> rfl

theorem finishMain_dest (env : Env) (n : Int) (new ev : List _)
    (hev : List.filter isDestEvent ev = []) :
    DestOk env (finishMain env n new ev) (some (new.take n.toNat)) := by
  unfold finishMain DestOk
  cases h1 : env.fcloseC <;> cases h2 : env.fcloseD <;> cases h3 : env.fcloseE <;>
    cases h4 : env.openNew <;> cases h5 : env.writeNew <;> cases h6 : env.closeNew <;>
    simp [List.filter_append, hev, cleanup_no_dest, isDestEvent]

theorem loadAndRun_dest (env : Env) (n : Int) (st : List Nat × List Nat × List Nat)
    (ev : List Event) (hev : List.filter isDestEvent ev = []) (o : Outcome)
    (h : loadAndRun env n st ev = .finished o) :
    DestOk env o (outputOf n (reconstruct env.oldFile n
      ((List.range (n.toNat + 1)).map env.garbage) st.1 st.2.1 st.2.2)) := by
  unfold loadAndRun at h
  simp only [] at h
  have fail : ∀ (e : MainExit) (evs : List Event) (out : Option (List Nat)),
      e ≠ .success → e ≠ .writeNew → List.filter isDestEvent evs = [] →
      DestOk env ⟨1, e, env.dest, evs⟩ out := by
    intro e evs out h1 h2 h3
    right; right
    exact ⟨h1, h2, rfl, rfl, h3⟩
  split at h
  · injection h with h; subst h
    exact fail _ _ _ (by simp) (by simp) (by simp [List.filter_append, hev, cleanup_no_dest])
  · split at h
    · injection h with h; subst h
      exact fail _ _ _ (by simp) (by simp)
        (by simp [List.filter_append, hev, cleanup_no_dest, isDestEvent])
    · split at h
      · injection h with h; subst h
        exact fail _ _ _ (by simp) (by simp)
          (by simp [List.filter_append, hev, cleanup_no_dest, isDestEvent])
      · split at h
        · injection h with h; subst h
          exact fail _ _ _ (by simp) (by simp)
            (by simp [List.filter_append, hev, cleanup_no_dest, isDestEvent])
        · split at h
          · injection h with h; subst h
            exact fail _ _ _ (by simp) (by simp)
              (by simp [List.filter_append, hev, cleanup_no_dest, isDestEvent])
          · split at h
            · injection h with h; subst h
              exact fail _ _ _ (by simp) (by simp)
                (by simp [List.filter_append, hev, cleanup_no_dest, isDestEvent])
            · split at h
              · injection h with h; subst h
                exact fail _ _ _ (by simp) (by simp)
                  (by simp [List.filter_append, hev, cleanup_no_dest, isDestEvent])
              · split at h
                · rename_i s hs
                  injection h with h; subst h
                  rw [hs]
                  exact finishMain_dest env n s.new _
                    (by simp [List.filter_append, hev, isDestEvent])
                · injection h with h; subst h
                  exact fail _ _ _ (by simp) (by simp)
                    (by simp [List.filter_append, hev, cleanup_no_dest, isDestEvent])
                · exact absurd h (by simp)
                · exact absurd h (by simp)

theorem openStreams_dest (env : Env) (c d n : Int) (ev : List Event)
    (hev : List.filter isDestEvent ev = []) (o : Outcome)
    (h : openStreams env c d n ev = .finished o) :
    DestOk env o (outputOf n (reconstruct env.oldFile n
      ((List.range (n.toNat + 1)).map env.garbage) (env.streamAt (segmentOffsets c d).1)
      (env.streamAt (segmentOffsets c d).2.1) (env.streamAt (segmentOffsets c d).2.2))) := by
  unfold openStreams at h
  simp only [] at h
  have fail : ∀ (e : MainExit) (evs : List Event) (out : Option (List Nat)),
      e ≠ .success → e ≠ .writeNew → List.filter isDestEvent evs = [] →
      DestOk env ⟨1, e, env.dest, evs⟩ out := by
    intro e evs out h1 h2 h3
    right; right
    exact ⟨h1, h2, rfl, rfl, h3⟩
  split at h
  · injection h with h; subst h
    exact fail _ _ _ (by simp) (by simp) hev
  · split at h
    · injection h with h; subst h
      exact fail _ _ _ (by simp) (by simp)
        (by simp [List.filter_append, hev, cleanup_no_dest, isDestEvent])
    · split at h
      · injection h with h; subst h
        exact fail _ _ _ (by simp) (by simp)
          (by simp [List.filter_append, hev, cleanup_no_dest, isDestEvent])
      · split at h
        · injection h with h; subst h
          exact fail _ _ _ (by simp) (by simp)
            (by simp [List.filter_append, hev, cleanup_no_dest, isDestEvent])
        · split at h
          · injection h with h; subst h
            exact fail _ _ _ (by simp) (by simp)
              (by simp [List.filter_append, hev, cleanup_no_dest, isDestEvent])
          · split at h
            · injection h with h; subst h
              exact fail _ _ _ (by simp) (by simp)
                (by simp [List.filter_append, hev, cleanup_no_dest, isDestEvent])
            · split at h
              · injection h with h; subst h
                exact fail _ _ _ (by simp) (by simp)
                  (by simp [List.filter_append, hev, cleanup_no_dest, isDestEvent])
              · split at h
                · injection h with h; subst h
                  exact fail _ _ _ (by simp) (by simp)
                    (by simp [List.filter_append, hev, cleanup_no_dest, isDestEvent])
                · split at h
                  · injection h with h; subst h
                    exact fail _ _ _ (by simp) (by simp)
                      (by simp [List.filter_append, hev, cleanup_no_dest, isDestEvent])
                  · have key := loadAndRun_dest env n
                      (env.streamAt (segmentOffsets c d).1, env.streamAt (segmentOffsets c d).2.1,
                        env.streamAt (segmentOffsets c d).2.2) _
                      (by simp [List.filter_append, hev, isDestEvent]) o h
                    exact key

theorem bspatch_main_dest (env : Env) (o : Outcome) (h : bspatch_main env = .finished o) :
    DestOk env o (assembled env) := by
  unfold bspatch_main at h
  have fail : ∀ (e : MainExit) (evs : List Event) (out : Option (List Nat)),
      e ≠ .success → e ≠ .writeNew → List.filter isDestEvent evs = [] →
      DestOk env ⟨1, e, env.dest, evs⟩ out := by
    intro e evs out h1 h2 h3
    right; right
    exact ⟨h1, h2, rfl, rfl, h3⟩
  split at h
  · injection h with h; subst h
    exact fail _ _ _ (by simp) (by simp) rfl
  · split at h
    · injection h with h; subst h
      exact fail _ _ _ (by simp) (by simp) rfl
    · cases hdr : readHeader env.patch with
      | error e =>
        rw [hdr] at h
        simp only [] at h
        injection h with h; subst h
        obtain ⟨e1, he1, he2⟩ := readHeader_bad env.patch (by
          by_contra hb
          rw [readHeader_ok _ hb] at hdr
          exact absurd hdr (by simp))
        rw [hdr] at he2
        injection he2 with he2
        subst he2
        rcases he1 with he | he | he <;> subst he <;>
          exact fail _ _ _ (by simp) (by simp) rfl
      | ok v =>
        obtain ⟨c, d, n⟩ := v
        rw [hdr] at h
        simp only [] at h
        split at h
        · injection h with h; subst h
          exact fail _ _ _ (by simp) (by simp) rfl
        · have := openStreams_dest env c d n [.acquire .f, .release .f] rfl o h
          unfold assembled
          rw [hdr]
          exact this

theorem reconstruct_output_length (old : List Nat) (n : Int) (nb c d e b : List Nat)
    (hn : 0 ≤ n) (hnb : (nb.length : Int) = n + 1)
    (h : outputOf n (reconstruct old n nb c d e) = some b) : (b.length : Int) = n := by
  unfold reconstruct at h
  cases hr : loopFuel old (↑old.length) n (c.length / 24 + 1)
      ⟨0, 0, nb, ⟨c, false⟩, ⟨d, false⟩, ⟨e, false⟩⟩ with
  | none =>
    rw [hr] at h
    simp [outputOf] at h
  | some r =>
    rw [hr] at h
    cases r with
    | running s =>
      simp only [outputOf] at h
      injection h with h
      have hl := loopFuel_length _ _ _ _ _ _ hr
      simp only at hl
      rw [← h, List.length_take]
      omega
    | exit1 e => simp [outputOf] at h
    | undefined => simp [outputOf] at h

/-- C6: a run that fails anywhere before the write stage (header, stream opening,
old-file loading, allocation, a control, diff or extra read, a bounds check, closing
the streams) returns 1, leaves the destination as it was and performs no action on it;
a successful run returns 0 after truncating and writing the destination exactly once,
with the `newsize` bytes the loop assembled. -/
theorem destination_written_only_on_success (env : Env) (o : Outcome)
    (h : bspatch_main env = .finished o) :
    (o.exit ≠ .success → o.exit ≠ .writeNew →
      o.dest = env.dest ∧ o.ret = 1 ∧ o.events.filter isDestEvent = []) ∧
    (o.exit = .success →
      o.ret = 0 ∧ ∃ b c d n, readHeader env.patch = .ok (c, d, n) ∧ assembled env = some b ∧
        (b.length : Int) = n ∧ o.dest = some b ∧
        o.events.filter isDestEvent = [.truncateDest, .writeDest b]) := by
  have hd := bspatch_main_dest env o h
  unfold DestOk at hd
  constructor
  · intro h1 h2
    rcases hd with hd | hd | hd
    · exact absurd hd.1 h1
    · exact absurd hd h2
    · exact hd.2.2
  · intro hs
    rcases hd with hd | hd | hd
    · obtain ⟨_, hret, b, hb, hdest, hev⟩ := hd
      refine ⟨hret, b, ?_⟩
      cases hdr : readHeader env.patch with
      | error e =>
        unfold assembled at hb
        rw [hdr] at hb
        simp at hb
      | ok v =>
        obtain ⟨c, d, n⟩ := v
        refine ⟨c, d, n, rfl, hb, ?_, hdest, hev⟩
        unfold assembled at hb
        rw [hdr] at hb
        simp only [] at hb
        have hn := (readHeader_nonneg _ _ _ _ hdr).2.2
        exact reconstruct_output_length _ _ _ _ _ _ _ hn
          (by simp only [List.length_map, List.length_range]; omega) hb
    · rw [hs] at hd
      simp at hd
    · exact absurd hs hd.1

set_option maxRecDepth 100000 in
/-- Instance of `destination_written_only_on_success`: the sample patch applied to the
old file `[1]` succeeds and the destination holds `[5, 9]`. -/
theorem destination_written_only_on_success_witness :
    bspatch_main (nominalEnv samplePatch [1] sampleStreams) =
      .finished ⟨0, .success, some [5, 9],
        [.acquire .f, .release .f, .acquire .cpf, .acquire .cpfbz2, .acquire .dpf,
          .acquire .dpfbz2, .acquire .epf, .acquire .epfbz2, .acquire .oldfd, .acquire .old,
          .release .oldfd, .acquire .new, .release .cpfbz2, .release .dpfbz2,
          .release .epfbz2, .release .cpf, .release .dpf, .release .epf, .acquire .newfd,
          .truncateDest, .writeDest [5, 9], .release .newfd, .release .new,
          .release .old]⟩ ∧
    List.filter isDestEvent
      [.acquire .f, .release .f, .acquire .cpf, .acquire .cpfbz2, .acquire .dpf,
          .acquire .dpfbz2, .acquire .epf, .acquire .epfbz2, .acquire .oldfd, .acquire .old,
          .release .oldfd, .acquire .new, .release .cpfbz2, .release .dpfbz2,
          .release .epfbz2, .release .cpf, .release .dpf, .release .epf, .acquire .newfd,
          .truncateDest, .writeDest [5, 9], .release .newfd, .release .new,
          .release .old] = [.truncateDest, .writeDest [5, 9]] := by
  have hrun : bspatch_main (nominalEnv samplePatch [1] sampleStreams) =
      .finished ⟨0, .success, some [5, 9],
        [.acquire .f, .release .f, .acquire .cpf, .acquire .cpfbz2, .acquire .dpf,
          .acquire .dpfbz2, .acquire .epf, .acquire .epfbz2, .acquire .oldfd, .acquire .old,
          .release .oldfd, .acquire .new, .release .cpfbz2, .release .dpfbz2,
          .release .epfbz2, .release .cpf, .release .dpf, .release .epf, .acquire .newfd,
          .truncateDest, .writeDest [5, 9], .release .newfd, .release .new,
          .release .old]⟩ := by decide
  obtain ⟨hret, b, c, d, n, _, _, _, hdest, hev⟩ :=
    (destination_written_only_on_success _ _ hrun).2 rfl
  simp only at hdest hev
  injection hdest with hdest
  subst hdest
  exact ⟨hrun, hev⟩

/-! ## Claim C7: release of resources -/

set_option maxRecDepth 100000 in
/-- C7 fails on the code: when the read of the old file comes back short, the run
returns 1 with the old-file descriptor still open (`cleanup_context` has no field for
it); when `fclose(ctx.cpf)` after the loop reports an error, `cleanup_context` closes
the same `FILE` a second time. -/
theorem cleanup_leaks_descriptor :
    (∃ o, bspatch_main readFailEnv = .finished o ∧ o.ret = 1 ∧ o.exit = .loadOld ∧
      leaked o.events = [.oldfd]) ∧
    (∃ o, bspatch_main fcloseFailEnv = .finished o ∧ o.ret = 1 ∧ o.exit = .fcloseStreams ∧
      doubleRelease o.events = true) := by
  constructor
  · refine ⟨_, rfl, ?_, ?_, ?_⟩ <;> decide
  · refine ⟨_, rfl, ?_, ?_, ?_⟩ <;> decide

/-! ## Claim C8: the identity patch -/

theorem getD_replicate_zero (n j : Nat) : (List.replicate n 0).getD j 0 = 0 := by
  rw [List.getD_eq_getElem?_getD, List.getElem?_replicate]
  split <;> rfl

/-- C8 (as amended): for an old file of `n < 2^31` bytes, the patch with new size `n`,
the single triple `(n, 0, seek)`, `n` zero diff bytes and an empty extra stream is
applied successfully and the output is exactly the old file. -/
theorem identity_patch (old newbuf : List Nat) (z : Int) (hold : IsBytes old)
    (hn : (old.length : Int) < 2 ^ 31) (hz0 : -(2 ^ 63) < z) (hz1 : z < 2 ^ 63)
    (hbuf : newbuf.length = old.length + 1) :
    outputOf old.length
      (reconstruct old old.length newbuf (encodeControl [(old.length, 0, z)])
        (List.replicate old.length 0) []) = some old := by
  unfold reconstruct
  have hfuel : (encodeControl [((old.length : Int), 0, z)]).length / 24 + 1 = 1 + 1 := by
    rw [encodeControl_length]
    simp
  rw [hfuel]
  by_cases h0 : (0 : Int) < old.length
  · obtain ⟨new3, cpf1, dpf1, epf1, hbody, _, _, _, l3, g3⟩ :=
      loopBody_wf old old.length
        ⟨0, 0, newbuf, ⟨encodeControl [((old.length : Int), 0, z)], false⟩,
          ⟨List.replicate old.length 0, false⟩, ⟨[], false⟩⟩
        old.length 0 z [] (List.replicate old.length 0) [] [] []
        (by simpa [encodeControl] using holds_fresh _)
        (by simpa using holds_fresh (List.replicate old.length 0))
        (by simpa using holds_fresh ([] : List Nat))
        (by omega) hn (le_refl _) (by norm_num) hz0 hz1 (by simp) (by simp)
        (le_refl _) (by simp) (by omega) (by simp only; omega) (by norm_num)
        (by simp only; omega)
    rw [loopFuel_step _ _ _ _ _ _ (by simpa using h0) hbody]
    rw [loopFuel_done _ _ _ _ _ (by simp)]
    simp only [outputOf, Int.toNat_ofNat]
    congr 1
    apply take_eq_of_getD
    · rw [l3]
      simp only
      omega
    · intro j hj
      rw [g3 j]
      simp only [zero_add, sub_zero, Int.toNat_zero, Nat.sub_zero]
      rw [if_pos (by omega), if_pos (by omega), getD_replicate_zero, zero_add,
        Int.toNat_ofNat]
      have : old.getD j 0 < 256 := by
        rw [List.getD_eq_getElem _ _ hj]
        exact hold _ (List.getElem_mem _)
      omega
  · have hnil : old = [] := by
      cases old with
      | nil => rfl
      | cons x xs =>
        exfalso
        apply h0
        simp only [List.length_cons]
        omega
    subst hnil
    rw [loopFuel_done _ _ _ _ _ (by simp)]
    simp [outputOf]

set_option maxRecDepth 100000 in
/-- Instance of `identity_patch`: old file `[7, 200, 13]`, seek `-5`. -/
theorem identity_patch_witness :
    outputOf 3
      (reconstruct [7, 200, 13] 3 [0, 0, 0, 0] (encodeControl [(3, 0, -5)])
        (List.replicate 3 0) []) = some [7, 200, 13] :=
  identity_patch [7, 200, 13] [0, 0, 0, 0] (-5) (by decide) (by decide) (by decide)
    (by decide) (by decide)

/-- C8 as stated fails: for an old file of `2^31` bytes the identity patch produces no
output, because the diff read is asked for a length that does not fit an `int`. -/
theorem identity_patch_counterexample :
    outputOf ((List.replicate 2147483648 0).length : Int)
      (reconstruct (List.replicate 2147483648 0) ((List.replicate 2147483648 0).length : Int)
        (List.replicate 2147483649 0)
        (encodeControl [(((List.replicate 2147483648 0).length : Int), 0, 0)])
        (List.replicate (List.replicate 2147483648 0).length 0) [])
      ≠ some (List.replicate 2147483648 0) := by
  rw [List.length_replicate]
  rw [reconstruct_single_large _ _ _ _ _ _ _ _ (by norm_num) (by norm_num) (by norm_num)]
  exact fun h => nomatch h

/-! ## Claim C4: the sanity checks -/

/-- A pass whose diff read delivers bytes that do not fit between `newpos` and the end
of the buffer stores outside the allocation. -/
theorem loopBody_add_oob (old : List Nat) (oldsize newsize : Int) (s : LoopState)
    (cl dl : List Nat) (hc : Holds s.cpf cl) (hcl : 24 ≤ cl.length) (hd : Holds s.dpf dl)
    (hchk : add64 s.newpos (offtin (cl.take 8)) ≤ newsize)
    (hn : 0 < wrap32 (offtin (cl.take 8))) (hne : dl ≠ [])
    (hoob : (s.new.length : Int)
      < s.newpos + (dl.take (wrap32 (offtin (cl.take 8))).toNat).length) :
    loopBody old oldsize newsize s = .undefined := by
  obtain ⟨cpf1, hrc, _⟩ := readControl_ok s.cpf cl hc hcl
  obtain ⟨_, d2, _, _⟩ := bzRead_spec s.dpf dl (offtin (cl.take 8)) hd (by omega) (Or.inr hne)
  have hbytes : dl.take (wrap32 (offtin (cl.take 8))).toNat ≠ [] := by
    intro h
    rw [List.take_eq_nil_iff] at h
    rcases h with h | h
    · omega
    · exact hne h
  unfold loopBody
  rw [hrc]
  simp only []
  rw [if_neg (by omega), d2]
  unfold storeAt
  rw [if_neg hbytes, if_pos (Or.inr hoob)]

theorem loopFuel_undefined (old : List Nat) (oldsize newsize : Int) (fuel : Nat)
    (s : LoopState) (h : s.newpos < newsize)
    (hb : loopBody old oldsize newsize s = .undefined) :
    loopFuel old oldsize newsize (fuel + 1) s = some .undefined := by
  simp [loopFuel, h, hb]

theorem wrap_facts :
    wrap32 (2 ^ 63 - 2 ^ 31 - 1) = 2147483647 ∧
    add64 (2 ^ 31 + 1) (2 ^ 63 - 2 ^ 31 - 1) = -(2 ^ 63) := by
  constructor <;> decide

/-- The run of `sanity_check_overflow`, for any streams and buffer of the stated
lengths. -/
theorem overflow_run (nb d1 d2 e : List Nat) (hnb : nb.length = 2147483651)
    (hd1 : d1.length = 2147483647) (hd2 : d2.length = 2147483647) (he : e.length = 2) :
    reconstruct [] 2147483650 nb
      (encodeControl [(2147483647, 2, 0), (2 ^ 63 - 2 ^ 31 - 1, 0, 0)]) (d1 ++ d2) e
      = some .undefined := by
  unfold reconstruct
  have hfuel : (encodeControl [((2147483647 : Int), (2 : Int), (0 : Int)),
      (2 ^ 63 - 2 ^ 31 - 1, 0, 0)]).length / 24 + 1 = 2 + 1 := by
    rw [encodeControl_length]
    rfl
  rw [hfuel]
  obtain ⟨new3, cpf1, dpf1, epf1, hbody, k1, k2, _, l3, _⟩ :=
    loopBody_wf [] 2147483650
      ⟨0, 0, nb, ⟨encodeControl [((2147483647 : Int), (2 : Int), (0 : Int)),
        (2 ^ 63 - 2 ^ 31 - 1, 0, 0)], false⟩, ⟨d1 ++ d2, false⟩, ⟨e, false⟩⟩
      2147483647 2 0 (encodeControl [(2 ^ 63 - 2 ^ 31 - 1, 0, 0)]) d1 d2 e []
      (holds_fresh _) (holds_fresh _) (by simpa using holds_fresh e)
      (by norm_num) (by norm_num) (by norm_num) (by norm_num) (by norm_num) (by norm_num)
      (by rw [hd1]; rfl) (by rw [he]; rfl) (le_refl _) (by norm_num) (by norm_num)
      (by simp only; rw [hnb]; rfl) (by norm_num) (by norm_num)
  rw [loopFuel_step _ _ _ _ _ _ (by norm_num) hbody]
  have hctl : (encodeControl [((2 ^ 63 - 2 ^ 31 - 1 : Int), (0 : Int), (0 : Int))]).take 8
      = offtout (2 ^ 63 - 2 ^ 31 - 1) := by
    simp only [encodeControl]
    exact (control_fields _ _ _ _).1
  have hval : offtin ((encodeControl [((2 ^ 63 - 2 ^ 31 - 1 : Int), (0 : Int),
      (0 : Int))]).take 8) = 2 ^ 63 - 2 ^ 31 - 1 := by
    rw [hctl]
    exact offtin_offtout _ (by norm_num) (by norm_num)
  have hd2ne : d2 ≠ [] := by
    intro h
    rw [h] at hd2
    simp at hd2
  apply loopFuel_undefined _ _ _ _ _ (by norm_num)
  apply loopBody_add_oob _ _ _ _ _ d2 k1 (by rw [encodeControl_length]; simp) k2
  · rw [hval]
    simp only
    have h2 := wrap_facts.2
    norm_num at h2 ⊢
    rw [h2]
    norm_num
  · rw [hval, wrap_facts.1]
    norm_num
  · exact hd2ne
  · rw [hval, wrap_facts.1]
    simp only
    rw [l3, List.length_take, hd2, hnb]
    norm_num

/-- C4 fails on the code: with new size `2^31 + 2`, after a first triple `(2^31 - 1, 2,
0)` the cursor is `2^31 + 1`; the second triple has `add = 2^63 - 2^31 - 1`, so `newpos +
add = 2^63 > newsize`, yet the 64-bit sum wraps, the check passes, the diff read is asked
for `2^31 - 1` bytes and stores them beyond the end of the buffer. -/
theorem sanity_check_overflow :
    reconstruct [] 2147483650 (List.replicate 2147483651 0)
      (encodeControl [(2147483647, 2, 0), (2 ^ 63 - 2 ^ 31 - 1, 0, 0)])
      (List.replicate 2147483647 0 ++ List.replicate 2147483647 0) [0, 0]
      = some .undefined :=
  overflow_run _ _ _ _ (List.length_replicate _ _) (List.length_replicate _ _)
    (List.length_replicate _ _) rfl

/-! ## Passes that only copy -/

theorem addOldData_zero (old : List Nat) (oldsize op np : Int) (new : List Nat) :
    addOldData old oldsize op np 0 new = new := by
  simp [addOldData]

theorem wrap32_zero : wrap32 0 = 0 := by decide

/-- A pass with `add = 0` whose copy value `c` reaches `BZ2_bzRead` as the non-negative
`int` `|eseg|` and does not exceed it: the extra bytes land at `newpos` and the cursor
moves by `c`, which may be negative. -/
theorem loopBody_copy_only (old : List Nat) (oldsize newsize : Int) (s : LoopState)
    (c z np1 op1 : Int) (crest dl eseg erest : List Nat)
    (hc : Holds s.cpf (offtout 0 ++ offtout c ++ offtout z ++ crest))
    (hd : Holds s.dpf dl) (he : Holds s.epf (eseg ++ erest))
    (hc0 : -(2 ^ 63) < c) (hc1 : c < 2 ^ 63) (hz0 : -(2 ^ 63) < z) (hz1 : z < 2 ^ 63)
    (hn : wrap32 c = eseg.length) (hcle : c ≤ eseg.length)
    (hnp0 : 0 ≤ s.newpos) (hnp1 : s.newpos < 2 ^ 63) (hnps : s.newpos ≤ newsize)
    (hchk : add64 s.newpos c = np1) (hle : np1 ≤ newsize)
    (hop : add64 (add64 s.oldpos 0) z = op1)
    (hfit : s.newpos + eseg.length ≤ s.new.length) :
    ∃ new3 cpf1 dpf1 epf1,
      loopBody old oldsize newsize s = .running ⟨np1, op1, new3, cpf1, dpf1, epf1⟩ ∧
      Holds cpf1 crest ∧ Holds dpf1 dl ∧ Holds epf1 erest ∧
      new3.length = s.new.length ∧
      ∀ j : Nat, new3.getD j 0 =
        if s.newpos ≤ j ∧ (j : Int) < s.newpos + eseg.length then
          eseg.getD (j - s.newpos.toNat) 0
        else s.new.getD j 0 := by
  obtain ⟨f1, f2, f3, f4, f5⟩ := control_fields 0 c z crest
  have hnpa : add64 s.newpos 0 = s.newpos := by
    unfold add64
    rw [add_zero]
    exact wrap64_of_range (by omega) (by omega)
  have tke : (eseg ++ erest).take (wrap32 c).toNat = eseg := by
    rw [hn]; exact take_append_len _ _ _ (by simp)
  have dre : (eseg ++ erest).drop (wrap32 c).toNat = erest := by
    rw [hn]; exact drop_append_len _ _ _ (by simp)
  obtain ⟨new1, new3, cpf1, dpf1, epf1, h1, h3, hrun, k1, k2, k3⟩ :=
    loopBody_pass old oldsize newsize s _ dl (eseg ++ erest) 0 c z
      hc f5 hd he
      (by rw [f1]; exact offtin_offtout 0 (by norm_num) (by norm_num))
      (by rw [f2]; exact offtin_offtout c hc0 hc1)
      (by rw [f3]; exact offtin_offtout z hz0 hz1)
      (by rw [hnpa]; exact hnps)
      (by rw [wrap32_zero]) (by left; exact wrap32_zero)
      (by rw [wrap32_zero]; simp)
      (by left; rw [wrap32_zero]; rfl)
      (by rw [hnpa, hchk]; exact hle) (by rw [hn]; omega)
      (by rw [hn]
          by_cases h : eseg = []
          · left; rw [h]; rfl
          · right
            intro hnil
            exact h (List.append_eq_nil.mp hnil).1)
      (by rw [hn]; simp only [List.length_append]; push_cast; omega)
      (by rw [tke, hnpa]; right; exact ⟨hnp0, hfit⟩)
  rw [wrap32_zero] at h1 k2
  simp only [Int.toNat_zero, List.take_zero, List.drop_zero] at h1 k2
  have hnew1 : new1 = s.new := by
    unfold storeAt at h1
    rw [if_pos rfl] at h1
    injection h1 with h1
    exact h1.symm
  rw [tke, hnpa, addOldData_zero, hnew1] at h3
  rw [hnpa, hchk, hop] at hrun
  rw [f4] at k1
  rw [dre] at k3
  obtain ⟨l3, g3⟩ := storeAt_spec _ _ _ _ h3
  exact ⟨new3, cpf1, dpf1, epf1, hrun, k1, k2, k3, l3, g3⟩

/-! ## Claim C9: pure insertion -/

theorem getD_take_zero (l : List Nat) (n : Nat) (hn : 0 < n) :
    (l.take n).getD 0 0 = l.getD 0 0 := by
  simp only [List.getD_eq_getElem?_getD, List.getElem?_take]
  rw [if_pos hn]

/-- The run of `negative_copy_accepted` for any buffer and extra segments of the stated
lengths: six passes complete, and byte 0 of the buffer ends up as the first byte of the
fourth segment. -/
theorem negative_copy_run (old nb e1 e2 e3 e4 e5 e6 : List Nat)
    (hnb : nb.length = 4294967296) (h1 : e1.length = 2147483647) (h2 : e2.length = 2)
    (h3 : e3.length = 2147483647) (h4 : e4.length = 2147483647)
    (h5 : e5.length = 2147483647) (h6 : e6.length = 1) :
    ∃ s, reconstruct old 4294967295 nb
        (encodeControl [(0, 2147483647, 0), (0, 2, 0), (0, -2147483649, 0),
          (0, 2147483647, 0), (0, 2147483647, 0), (0, 1, 0)]) []
        (e1 ++ (e2 ++ (e3 ++ (e4 ++ (e5 ++ e6))))) = some (.running s) ∧
      s.new.getD 0 0 = e4.getD 0 0 := by
  unfold reconstruct
  have hfuel : (encodeControl [((0 : Int), (2147483647 : Int), (0 : Int)), (0, 2, 0),
      (0, -2147483649, 0), (0, 2147483647, 0), (0, 2147483647, 0), (0, 1, 0)]).length / 24 + 1
      = 6 + 1 := by
    rw [encodeControl_length]
    rfl
  rw [hfuel]
  obtain ⟨n1, cp1, dp1, ep1, hb1, kc1, kd1, ke1, l1, _⟩ :=
    loopBody_copy_only old old.length 4294967295
      ⟨0, 0, nb, ⟨encodeControl [((0 : Int), (2147483647 : Int), (0 : Int)), (0, 2, 0),
        (0, -2147483649, 0), (0, 2147483647, 0), (0, 2147483647, 0), (0, 1, 0)], false⟩,
        ⟨[], false⟩, ⟨e1 ++ (e2 ++ (e3 ++ (e4 ++ (e5 ++ e6)))), false⟩⟩
      2147483647 0 2147483647 0 _ [] e1 _
      (holds_fresh _) (holds_fresh _) (holds_fresh _)
      (by norm_num) (by norm_num) (by norm_num) (by norm_num)
      (by rw [h1]; decide) (by rw [h1]; norm_num)
      (by simp only; norm_num) (by simp only; norm_num) (by simp only; norm_num)
      (by simp only; decide) (by norm_num) (by simp only; decide)
      (by simp only; rw [h1, hnb]; norm_num)
  rw [loopFuel_step _ _ _ _ _ _ (by simp only; norm_num) hb1]
  simp only at l1
  obtain ⟨n2, cp2, dp2, ep2, hb2, kc2, kd2, ke2, l2, _⟩ :=
    loopBody_copy_only old old.length 4294967295
      ⟨2147483647, 0, n1, cp1, dp1, ep1⟩
      2 0 2147483649 0 _ [] e2 _ kc1 kd1 ke1
      (by norm_num) (by norm_num) (by norm_num) (by norm_num)
      (by rw [h2]; decide) (by rw [h2]; norm_num)
      (by simp only; norm_num) (by simp only; norm_num) (by simp only; norm_num)
      (by simp only; decide) (by norm_num) (by simp only; decide)
      (by simp only; rw [h2, l1, hnb]; norm_num)
  rw [loopFuel_step _ _ _ _ _ _ (by simp only; norm_num) hb2]
  simp only at l2
  obtain ⟨n3, cp3, dp3, ep3, hb3, kc3, kd3, ke3, l3, _⟩ :=
    loopBody_copy_only old old.length 4294967295
      ⟨2147483649, 0, n2, cp2, dp2, ep2⟩
      (-2147483649) 0 0 0 _ [] e3 _ kc2 kd2 ke2
      (by norm_num) (by norm_num) (by norm_num) (by norm_num)
      (by rw [h3]; decide) (by rw [h3]; norm_num)
      (by simp only; norm_num) (by simp only; norm_num) (by simp only; norm_num)
      (by simp only; decide) (by norm_num) (by simp only; decide)
      (by simp only; rw [h3, l2, l1, hnb]; norm_num)
  rw [loopFuel_step _ _ _ _ _ _ (by simp only; norm_num) hb3]
  simp only at l3
  obtain ⟨n4, cp4, dp4, ep4, hb4, kc4, kd4, ke4, l4, g4⟩ :=
    loopBody_copy_only old old.length 4294967295
      ⟨0, 0, n3, cp3, dp3, ep3⟩
      2147483647 0 2147483647 0 _ [] e4 _ kc3 kd3 ke3
      (by norm_num) (by norm_num) (by norm_num) (by norm_num)
      (by rw [h4]; decide) (by rw [h4]; norm_num)
      (by simp only; norm_num) (by simp only; norm_num) (by simp only; norm_num)
      (by simp only; decide) (by norm_num) (by simp only; decide)
      (by simp only; rw [h4, l3, l2, l1, hnb]; norm_num)
  rw [loopFuel_step _ _ _ _ _ _ (by simp only; norm_num) hb4]
  simp only at l4 g4
  obtain ⟨n5, cp5, dp5, ep5, hb5, kc5, kd5, ke5, l5, g5⟩ :=
    loopBody_copy_only old old.length 4294967295
      ⟨2147483647, 0, n4, cp4, dp4, ep4⟩
      2147483647 0 4294967294 0 _ [] e5 _ kc4 kd4 ke4
      (by norm_num) (by norm_num) (by norm_num) (by norm_num)
      (by rw [h5]; decide) (by rw [h5]; norm_num)
      (by simp only; norm_num) (by simp only; norm_num) (by simp only; norm_num)
      (by simp only; decide) (by norm_num) (by simp only; decide)
      (by simp only; rw [h5, l4, l3, l2, l1, hnb]; norm_num)
  rw [loopFuel_step _ _ _ _ _ _ (by simp only; norm_num) hb5]
  simp only at l5 g5
  obtain ⟨n6, cp6, dp6, ep6, hb6, kc6, kd6, ke6, l6, g6⟩ :=
    loopBody_copy_only old old.length 4294967295
      ⟨4294967294, 0, n5, cp5, dp5, ep5⟩
      1 0 4294967295 0 [] [] e6 []
      (by simpa [encodeControl] using kc5) kd5 (by simpa using ke5)
      (by norm_num) (by norm_num) (by norm_num) (by norm_num)
      (by rw [h6]; decide) (by rw [h6]; norm_num)
      (by simp only; norm_num) (by simp only; norm_num) (by simp only; norm_num)
      (by simp only; decide) (by norm_num) (by simp only; decide)
      (by simp only; rw [h6, l5, l4, l3, l2, l1, hnb]; norm_num)
  rw [loopFuel_step _ _ _ _ _ _ (by simp only; norm_num) hb6]
  simp only at g6
  rw [loopFuel_done _ _ _ _ _ (by simp only; norm_num)]
  refine ⟨_, rfl, ?_⟩
  simp only
  rw [g6 0, if_neg (by norm_num), g5 0, if_neg (by norm_num), g4 0,
    if_pos (by rw [h4]; norm_num)]
  rfl

/-- C9 fails on the code: in this patch every triple has `add = 0`; the third has the
negative copy length `-2^31 - 1`, whose low 32 bits are `2^31 - 1`. The run succeeds
with new size `2^32 - 1`, and its first output byte is `1`, whereas the first bytes of
the extra stream are zeros. -/
theorem negative_copy_accepted :
    ∃ out, outputOf 4294967295 (reconstruct [] 4294967295 (List.replicate 4294967296 0)
        (encodeControl [(0, 2147483647, 0), (0, 2, 0), (0, -2147483649, 0),
          (0, 2147483647, 0), (0, 2147483647, 0), (0, 1, 0)]) []
        (List.replicate 2147483647 0 ++ (List.replicate 2 0 ++ (List.replicate 2147483647 0 ++
          (List.replicate 2147483647 1 ++ (List.replicate 2147483647 0
            ++ List.replicate 1 0)))))) = some out ∧
      out.getD 0 0 = 1 ∧
      ((List.replicate 2147483647 0 ++ (List.replicate 2 0 ++ (List.replicate 2147483647 0 ++
          (List.replicate 2147483647 1 ++ (List.replicate 2147483647 0
            ++ List.replicate 1 0))))).take 4294967295).getD 0 0 = 0 := by
  obtain ⟨s, hs, h0⟩ := negative_copy_run [] (List.replicate 4294967296 0)
    (List.replicate 2147483647 0) (List.replicate 2 0) (List.replicate 2147483647 0)
    (List.replicate 2147483647 1) (List.replicate 2147483647 0) (List.replicate 1 0)
    (List.length_replicate _ _) (List.length_replicate _ _) (List.length_replicate _ _)
    (List.length_replicate _ _) (List.length_replicate _ _) (List.length_replicate _ _)
    (List.length_replicate _ _)
  refine ⟨_, by rw [hs]; rfl, ?_, ?_⟩
  · rw [getD_take_zero _ _ (by decide), h0]
    rw [List.getD_eq_getElem?_getD, List.getElem?_replicate]
    rfl
  · rw [getD_take_zero _ _ (by decide)]
    rw [List.getD_eq_getElem?_getD, List.getElem?_append_left (by rw [List.length_replicate]; decide),
      List.getElem?_replicate]
    rfl

/-! ## Invariants of every run -/

theorem bzRead_next_wf (s : BzStream) (v : Int) (h : Holds s s.data) :
    Holds (BZ2_bzRead s v).next (BZ2_bzRead s v).next.data := by
  unfold BZ2_bzRead
  simp only []
  split
  · exact h
  · split
    · exact h
    · split
      · exact h
      · split
        · exact ⟨rfl, by simp⟩
        · exact ⟨rfl, fun _ => rfl⟩

theorem bzRead_bytes_length (s : BzStream) (v : Int) :
    ((BZ2_bzRead s v).bytes.length : Int) = (BZ2_bzRead s v).lenread ∧
    0 ≤ (BZ2_bzRead s v).lenread := by
  unfold BZ2_bzRead
  simp only []
  split
  · simp
  · split
    · simp
    · split
      · simp
      · split
        · simp only [List.length_take]
          omega
        · simp

/-- Everything a completed pass tells about a consistent state, in terms of the bytes
the handles hold. -/
theorem pass_inv (old : List Nat) (oldsize newsize : Int) (s s1 : LoopState)
    (h : loopBody old oldsize newsize s = .running s1) (hw : WfState s) :
    24 ≤ s.cpf.data.length ∧ s1.cpf.data = s.cpf.data.drop 24 ∧ WfState s1 ∧
    s1.new.length = s.new.length ∧
    s1.newpos = add64 (add64 s.newpos (offtin (s.cpf.data.take 8)))
      (offtin ((s.cpf.data.drop 8).take 8)) ∧
    offtin (s.cpf.data.take 8) ≤ (BZ2_bzRead s.dpf (offtin (s.cpf.data.take 8))).lenread ∧
    s1.dpf = (BZ2_bzRead s.dpf (offtin (s.cpf.data.take 8))).next ∧
    offtin ((s.cpf.data.drop 8).take 8)
      ≤ (BZ2_bzRead s.epf (offtin ((s.cpf.data.drop 8).take 8))).lenread ∧
    s1.epf = (BZ2_bzRead s.epf (offtin ((s.cpf.data.drop 8).take 8))).next := by
  have hlen := loopBody_length _ _ _ _ _ h
  obtain ⟨c0, c1, c2, cpf1, new1, new3, hrc, _, _, hr0, _, _, _, hr1, _, hs⟩ :=
    loopBody_running _ _ _ _ _ h
  have h24 : 24 ≤ s.cpf.data.length := by
    by_contra hlt
    rw [readControl_short s.cpf (by omega)] at hrc
    exact absurd hrc (by simp)
  obtain ⟨s1c, hrc2, hholds⟩ := readControl_ok s.cpf s.cpf.data hw.1 h24
  rw [hrc] at hrc2
  injection hrc2 with hrc2
  injection hrc2 with htr hcp
  injection htr with e0 htr
  injection htr with e1 e2
  subst e0 e1 e2 hcp hs
  refine ⟨h24, hholds.1, ⟨⟨rfl, ?_⟩, bzRead_next_wf _ _ hw.2.1, bzRead_next_wf _ _ hw.2.2⟩,
    hlen, rfl, hr0, rfl, hr1, rfl⟩
  intro he
  have := hholds.2 he
  rw [hholds.1]
  exact this

theorem loopFuel_mono (old : List Nat) (oldsize newsize : Int) (f : Nat) :
    ∀ (k : Nat) (s : LoopState) (r : LoopResult),
      loopFuel old oldsize newsize f s = some r →
      loopFuel old oldsize newsize (f + k) s = some r := by
  induction f with
  | zero =>
    intro k s r h
    simp only [loopFuel] at h
    split at h
    · exact absurd h (by simp)
    · rename_i hnp
      rw [Nat.zero_add, loopFuel_done _ _ _ _ _ hnp]
      exact h
  | succ n ih =>
    intro k s r h
    rw [show n + 1 + k = (n + k) + 1 by omega]
    simp only [loopFuel] at h ⊢
    split
    · rename_i hnp
      rw [if_pos hnp] at h
      cases hb : loopBody old oldsize newsize s with
      | running s1 =>
        rw [hb] at h
        simp only [] at h ⊢
        exact ih k s1 r h
      | exit1 e =>
        rw [hb] at h
        exact h
      | undefined =>
        rw [hb] at h
        exact h
    · rename_i hnp
      rw [if_neg hnp] at h
      exact h

/-- The fuel `length / 24 + 1` that `reconstruct` hands to the loop is never used up:
every pass that completes consumes 24 control bytes. -/
theorem loopFuel_enough (old : List Nat) (oldsize newsize : Int) (f : Nat) :
    ∀ (s : LoopState), WfState s → s.cpf.data.length / 24 < f →
      ∃ r, loopFuel old oldsize newsize f s = some r := by
  induction f with
  | zero =>
    intro s _ h
    omega
  | succ n ih =>
    intro s hw h
    simp only [loopFuel]
    split
    · cases hb : loopBody old oldsize newsize s with
      | running s1 =>
        simp only []
        obtain ⟨h24, hdrop, hw1, _⟩ := pass_inv _ _ _ _ _ hb hw
        apply ih s1 hw1
        rw [hdrop, List.length_drop]
        omega
      | exit1 e => exact ⟨_, rfl⟩
      | undefined => exact ⟨_, rfl⟩
    · exact ⟨_, rfl⟩

theorem wf_fresh (nb c d e : List Nat) (np op : Int) :
    WfState ⟨np, op, nb, ⟨c, false⟩, ⟨d, false⟩, ⟨e, false⟩⟩ :=
  ⟨holds_fresh _, holds_fresh _, holds_fresh _⟩
theorem sumAdd_unfold (c : List Nat) (h : 24 ≤ c.length) :
    sumAdd (c.length / 24) c
      = offtin (c.take 8) + sumAdd ((c.drop 24).length / 24) (c.drop 24) := by
  have : c.length / 24 = (c.drop 24).length / 24 + 1 := by
    rw [List.length_drop]
    omega
  rw [this]
  rfl

theorem sumCopy_unfold (c : List Nat) (h : 24 ≤ c.length) :
    sumCopy (c.length / 24) c
      = offtin ((c.drop 8).take 8) + sumCopy ((c.drop 24).length / 24) (c.drop 24) := by
  have : c.length / 24 = (c.drop 24).length / 24 + 1 := by
    rw [List.length_drop]
    omega
  rw [this]
  rfl

theorem loopFuel_running_inv (old : List Nat) (oldsize newsize : Int) (f : Nat)
    (s sf : LoopState) (h : loopFuel old oldsize newsize f s = some (.running sf)) :
    (¬ s.newpos < newsize ∧ sf = s) ∨
    (s.newpos < newsize ∧ ∃ f1 s1, f = f1 + 1 ∧ loopBody old oldsize newsize s = .running s1 ∧
      loopFuel old oldsize newsize f1 s1 = some (.running sf)) := by
  cases f with
  | zero =>
    simp only [loopFuel] at h
    split at h
    · exact absurd h (by simp)
    · rename_i hnp
      injection h with h
      injection h with h
      exact Or.inl ⟨hnp, h.symm⟩
  | succ n =>
    simp only [loopFuel] at h
    split at h
    · rename_i hnp
      cases hb : loopBody old oldsize newsize s with
      | running s1 =>
        rw [hb] at h
        exact Or.inr ⟨hnp, n, s1, rfl, rfl, h⟩
      | exit1 e =>
        rw [hb] at h
        simp at h
      | undefined =>
        rw [hb] at h
        simp at h
    · rename_i hnp
      injection h with h
      injection h with h
      exact Or.inl ⟨hnp, h.symm⟩

/-- A run that uses up the control stream has read, from the diff and extra streams,
at least the sums of the `add` and `copy` values. -/
theorem run_sum_le (old : List Nat) (oldsize newsize : Int) (f : Nat) :
    ∀ (s sf : LoopState), WfState s →
      loopFuel old oldsize newsize f s = some (.running sf) → sf.cpf.data = [] →
      sumAdd (s.cpf.data.length / 24) s.cpf.data + sf.dpf.data.length ≤ s.dpf.data.length ∧
      sumCopy (s.cpf.data.length / 24) s.cpf.data + sf.epf.data.length
        ≤ s.epf.data.length := by
  induction f with
  | zero =>
    intro s sf _ h hc
    rcases loopFuel_running_inv _ _ _ _ _ _ h with ⟨_, he⟩ | ⟨_, f1, _, hf, _⟩
    · subst he
      rw [hc]
      simp [sumAdd, sumCopy]
    · omega
  | succ n ih =>
    intro s sf hw h hc
    rcases loopFuel_running_inv _ _ _ _ _ _ h with ⟨_, he⟩ | ⟨_, f1, s1, hf, hb, hrest⟩
    · subst he
      rw [hc]
      simp [sumAdd, sumCopy]
    · have hf1 : f1 = n := by omega
      subst hf1
      obtain ⟨h24, hdrop, hw1, _, _, hr0, hd1, hr1, he1⟩ := pass_inv _ _ _ _ _ hb hw
      obtain ⟨ia, ic⟩ := ih s1 sf hw1 hrest hc
      have cd := bzRead_consume s.dpf (offtin (s.cpf.data.take 8))
      have ce := bzRead_consume s.epf (offtin ((s.cpf.data.drop 8).take 8))
      rw [← hd1] at cd
      rw [← he1] at ce
      rw [sumAdd_unfold _ h24, sumCopy_unfold _ h24, ← hdrop]
      constructor <;> omega
theorem storeAt_inbounds (buf : List Nat) (pos : Int) (bytes r : List Nat)
    (h : storeAt buf pos bytes = some r) (hne : bytes ≠ []) :
    0 ≤ pos ∧ pos + bytes.length ≤ buf.length := by
  unfold storeAt at h
  rw [if_neg hne] at h
  by_cases hp : pos < 0 ∨ (buf.length : Int) < pos + bytes.length
  · rw [if_pos hp] at h
    exact absurd h (by simp)
  · push_neg at hp
    exact hp

theorem take_drop_take (l : List Nat) (m k : Nat) :
    (l.take m).drop k = (l.drop k).take (m - k) := by
  apply List.ext_getElem?
  intro i
  simp only [List.getElem?_drop, List.getElem?_take]
  by_cases h : k + i < m
  · rw [if_pos h, if_pos (by omega)]
  · rw [if_neg h, if_neg (by omega)]

theorem take_take_le (l : List Nat) (m k : Nat) (h : k ≤ m) :
    (l.take m).take k = l.take k := by
  rw [List.take_take, Nat.min_eq_left h]

theorem loopBody_exit_control (old : List Nat) (oldsize newsize : Int) (s : LoopState)
    (h : readControl s.cpf = none) : loopBody old oldsize newsize s = .exit1 .controlRead := by
  unfold loopBody
  rw [h]

theorem loopBody_exit_diff (old : List Nat) (oldsize newsize : Int) (s : LoopState)
    (c0 c1 c2 : Int) (cpf1 : BzStream) (x : List Nat)
    (hrc : readControl s.cpf = some ((c0, c1, c2), cpf1))
    (hb0 : add64 s.newpos c0 ≤ newsize)
    (hs : storeAt s.new s.newpos (BZ2_bzRead s.dpf c0).bytes = some x)
    (hr : (BZ2_bzRead s.dpf c0).lenread < c0 ∨ (BZ2_bzRead s.dpf c0).ok = false) :
    loopBody old oldsize newsize s = .exit1 .diffRead := by
  unfold loopBody
  rw [hrc]
  simp only []
  rw [if_neg (by omega), hs]
  simp only []
  rw [if_pos hr]

theorem loopBody_exit_extra (old : List Nat) (oldsize newsize : Int) (s : LoopState)
    (c0 c1 c2 : Int) (cpf1 : BzStream) (new1 x : List Nat)
    (hrc : readControl s.cpf = some ((c0, c1, c2), cpf1))
    (hb0 : add64 s.newpos c0 ≤ newsize)
    (hs : storeAt s.new s.newpos (BZ2_bzRead s.dpf c0).bytes = some new1)
    (hr : c0 ≤ (BZ2_bzRead s.dpf c0).lenread) (hok : (BZ2_bzRead s.dpf c0).ok = true)
    (hb1 : add64 (add64 s.newpos c0) c1 ≤ newsize)
    (hs3 : storeAt (addOldData old oldsize s.oldpos s.newpos c0 new1) (add64 s.newpos c0)
      (BZ2_bzRead s.epf c1).bytes = some x)
    (hr1 : (BZ2_bzRead s.epf c1).lenread < c1 ∨ (BZ2_bzRead s.epf c1).ok = false) :
    loopBody old oldsize newsize s = .exit1 .extraRead := by
  unfold loopBody
  rw [hrc]
  simp only []
  rw [if_neg (by omega), hs]
  simp only []
  rw [if_neg (by rw [hok]; simp; omega), if_neg (by omega), hs3]
  simp only []
  rw [if_pos hr1]

theorem loopBody_run (old : List Nat) (oldsize newsize : Int) (s : LoopState)
    (c0 c1 c2 : Int) (cpf1 : BzStream) (new1 new3 : List Nat)
    (hrc : readControl s.cpf = some ((c0, c1, c2), cpf1))
    (hb0 : add64 s.newpos c0 ≤ newsize)
    (hs : storeAt s.new s.newpos (BZ2_bzRead s.dpf c0).bytes = some new1)
    (hr : c0 ≤ (BZ2_bzRead s.dpf c0).lenread) (hok : (BZ2_bzRead s.dpf c0).ok = true)
    (hb1 : add64 (add64 s.newpos c0) c1 ≤ newsize)
    (hs3 : storeAt (addOldData old oldsize s.oldpos s.newpos c0 new1) (add64 s.newpos c0)
      (BZ2_bzRead s.epf c1).bytes = some new3)
    (hr1 : c1 ≤ (BZ2_bzRead s.epf c1).lenread) (hok1 : (BZ2_bzRead s.epf c1).ok = true) :
    loopBody old oldsize newsize s =
      .running ⟨add64 (add64 s.newpos c0) c1, add64 (add64 s.oldpos c0) c2, new3, cpf1,
        (BZ2_bzRead s.dpf c0).next, (BZ2_bzRead s.epf c1).next⟩ := by
  unfold loopBody
  rw [hrc]
  simp only []
  rw [if_neg (by omega), hs]
  simp only []
  rw [if_neg (by rw [hok]; simp; omega), if_neg (by omega), hs3]
  simp only []
  rw [if_neg (by rw [hok1]; simp; omega)]
/-- A read that returned exactly the `v` bytes asked for, replayed on a handle that
holds only the first `m` bytes of the stream: with `m < v` it comes back short, with
`v ≤ m` it returns the same bytes. -/
theorem bzRead_truncated (st st1 : BzStream) (v : Int) (m : Nat)
    (hw : Holds st st.data) (h1 : Holds st1 (st.data.take m))
    (hx : (BZ2_bzRead st v).lenread = v) :
    ((m : Int) < v →
      ((BZ2_bzRead st1 v).lenread < v ∨ (BZ2_bzRead st1 v).ok = false) ∧
      (BZ2_bzRead st1 v).bytes.length ≤ (BZ2_bzRead st v).bytes.length ∧
      (BZ2_bzRead st v).bytes ≠ []) ∧
    (v ≤ m →
      (BZ2_bzRead st1 v).lenread = v ∧ (BZ2_bzRead st1 v).ok = true ∧
      (BZ2_bzRead st1 v).bytes = (BZ2_bzRead st v).bytes ∧
      Holds (BZ2_bzRead st1 v).next ((BZ2_bzRead st v).next.data.take (m - v.toNat))) := by
  have hv0 : 0 ≤ v := by rw [← hx]; exact (bzRead_bytes_length st v).2
  have hv1 : v < 2 ^ 31 := by rw [← hx]; exact bzRead_lenread_lt st v
  have hw32 : wrap32 v = v := wrap32_of_range (by omega) hv1
  have hle : v ≤ st.data.length := by rw [← hx]; exact bzRead_lenread_le st v
  have hne : wrap32 v = 0 ∨ st.data ≠ [] := by
    by_cases h0 : v = 0
    · left; rw [hw32]; exact h0
    · right
      intro h
      rw [h] at hle
      simp at hle
      omega
  obtain ⟨_, a2, _, a4⟩ := bzRead_spec st st.data v hw (by omega) hne
  rw [hw32] at a2 a4
  have hb := bzRead_bytes_length st v
  have hb1 := bzRead_bytes_length st1 v
  have hl1 := bzRead_lenread_le st1 v
  have hd1 : st1.data.length ≤ m := by
    rw [h1.1, List.length_take]
    omega
  constructor
  · intro hm
    refine ⟨Or.inl (by omega), by omega, ?_⟩
    intro h
    rw [h] at hb
    simp at hb
    omega
  · intro hm
    have hne1 : wrap32 v = 0 ∨ st.data.take m ≠ [] := by
      rcases hne with h | h
      · left; exact h
      · by_cases h0 : v = 0
        · left; rw [hw32]; exact h0
        · right
          intro ht
          rw [List.take_eq_nil_iff] at ht
          rcases ht with ht | ht
          · omega
          · exact h ht
    obtain ⟨b1, b2, b3, b4⟩ := bzRead_spec st1 (st.data.take m) v h1 (by omega) hne1
    rw [hw32] at b1 b2 b4
    refine ⟨?_, b3, ?_, ?_⟩
    · rw [b1, List.length_take]
      omega
    · rw [b2, a2, take_take_le _ _ _ (by omega)]
    · rw [a4.1, ← take_drop_take]
      exact b4
theorem readControl_truncated (st st1 : BzStream) (m : Nat) (c0 c1 c2 : Int)
    (cpf1 : BzStream) (hw : Holds st st.data) (h1 : Holds st1 (st.data.take m))
    (hrc : readControl st = some ((c0, c1, c2), cpf1)) :
    (m < 24 → readControl st1 = none) ∧
    (24 ≤ m → ∃ cpf2, readControl st1 = some ((c0, c1, c2), cpf2) ∧
      Holds cpf2 (cpf1.data.take (m - 24))) := by
  have h24 : 24 ≤ st.data.length := by
    by_contra hlt
    rw [readControl_short st (by omega)] at hrc
    exact absurd hrc (by simp)
  constructor
  · intro hm
    apply readControl_short
    rw [h1.1, List.length_take]
    omega
  · intro hm
    obtain ⟨sa, ha1, ha2⟩ := readControl_ok st st.data hw h24
    rw [hrc] at ha1
    injection ha1 with ha1
    injection ha1 with htr hcp
    injection htr with e0 htr
    injection htr with e1 e2
    obtain ⟨sb, hb1, hb2⟩ := readControl_ok st1 (st.data.take m) h1
      (by rw [List.length_take]; omega)
    refine ⟨sb, ?_, ?_⟩
    · rw [hb1, e0, e1, e2]
      rw [take_take_le _ _ _ (by omega), take_drop_take, take_take_le _ _ _ (by omega),
        take_drop_take, take_take_le _ _ _ (by omega)]
    · rw [hcp, ha2.1, ← take_drop_take]
      exact hb2

/-- One completed pass in which both reads returned exactly the values asked for,
replayed from a state whose three handles hold only the first `mc`, `md`, `me` bytes:
the replay fails at the first read that lacks bytes, and otherwise reaches the same
state with the handles truncated accordingly. -/
theorem pass_truncated (old : List Nat) (oldsize newsize : Int) (s s1 t : LoopState)
    (mc md me : Nat) (h : loopBody old oldsize newsize s = .running s1) (hw : WfState s)
    (hxa : (BZ2_bzRead s.dpf (offtin (s.cpf.data.take 8))).lenread
      ≤ offtin (s.cpf.data.take 8))
    (hxc : (BZ2_bzRead s.epf (offtin ((s.cpf.data.drop 8).take 8))).lenread
      ≤ offtin ((s.cpf.data.drop 8).take 8))
    (hnp : t.newpos = s.newpos) (hop : t.oldpos = s.oldpos) (hnew : t.new = s.new)
    (hc1 : Holds t.cpf (s.cpf.data.take mc)) (hd1 : Holds t.dpf (s.dpf.data.take md))
    (he1 : Holds t.epf (s.epf.data.take me)) :
    (mc < 24 ∧ loopBody old oldsize newsize t = .exit1 .controlRead) ∨
    (24 ≤ mc ∧ (md : Int) < offtin (s.cpf.data.take 8) ∧
      loopBody old oldsize newsize t = .exit1 .diffRead) ∨
    (24 ≤ mc ∧ offtin (s.cpf.data.take 8) ≤ md ∧
      (me : Int) < offtin ((s.cpf.data.drop 8).take 8) ∧
      loopBody old oldsize newsize t = .exit1 .extraRead) ∨
    (24 ≤ mc ∧ offtin (s.cpf.data.take 8) ≤ md ∧ offtin ((s.cpf.data.drop 8).take 8) ≤ me ∧
      ∃ t1, loopBody old oldsize newsize t = .running t1 ∧ t1.newpos = s1.newpos ∧
        t1.oldpos = s1.oldpos ∧ t1.new = s1.new ∧
        Holds t1.cpf (s1.cpf.data.take (mc - 24)) ∧
        Holds t1.dpf (s1.dpf.data.take (md - (offtin (s.cpf.data.take 8)).toNat)) ∧
        Holds t1.epf
          (s1.epf.data.take (me - (offtin ((s.cpf.data.drop 8).take 8)).toNat))) := by
  obtain ⟨c0, c1, c2, cpf1, new1, new3, hrc, hb0, hs1, hr0, hok0, hb1, hs3, hr1, hok1, hs⟩ :=
    loopBody_running _ _ _ _ _ h
  have h24 : 24 ≤ s.cpf.data.length := (pass_inv _ _ _ _ _ h hw).1
  obtain ⟨sa, ha1, _⟩ := readControl_ok s.cpf s.cpf.data hw.1 h24
  rw [hrc] at ha1
  injection ha1 with ha1
  injection ha1 with htr _
  injection htr with e0 htr
  injection htr with e1 e2
  rw [← e0] at hxa ⊢
  rw [← e1] at hxc ⊢
  obtain ⟨rc1, rc2⟩ := readControl_truncated s.cpf t.cpf mc c0 c1 c2 cpf1 hw.1 hc1 hrc
  obtain ⟨rd1, rd2⟩ := bzRead_truncated s.dpf t.dpf c0 md hw.2.1 hd1 (by omega)
  obtain ⟨re1, re2⟩ := bzRead_truncated s.epf t.epf c1 me hw.2.2 he1 (by omega)
  by_cases hmc : mc < 24
  · left
    exact ⟨hmc, loopBody_exit_control _ _ _ _ (rc1 hmc)⟩
  · right
    obtain ⟨cpf2, hrc2, hcpf2⟩ := rc2 (by omega)
    by_cases hmd : (md : Int) < c0
    · left
      obtain ⟨q1, q2, q3⟩ := rd1 hmd
      obtain ⟨i1, i2⟩ := storeAt_inbounds _ _ _ _ hs1 q3
      obtain ⟨x, hx⟩ := storeAt_some t.new t.newpos (BZ2_bzRead t.dpf c0).bytes
        (by right; rw [hnp, hnew]; exact ⟨i1, by omega⟩)
      exact ⟨by omega, hmd,
        loopBody_exit_diff _ _ _ _ c0 c1 c2 cpf2 x hrc2 (by rw [hnp]; exact hb0) hx q1⟩
    · right
      obtain ⟨q1, q2, q3, q4⟩ := rd2 (by omega)
      have hst : storeAt t.new t.newpos (BZ2_bzRead t.dpf c0).bytes = some new1 := by
        rw [hnp, hnew, q3]; exact hs1
      by_cases hme : (me : Int) < c1
      · left
        obtain ⟨p1, p2, p3⟩ := re1 hme
        obtain ⟨i1, i2⟩ := storeAt_inbounds _ _ _ _ hs3 p3
        obtain ⟨x, hx⟩ := storeAt_some (addOldData old oldsize t.oldpos t.newpos c0 new1)
          (add64 t.newpos c0) (BZ2_bzRead t.epf c1).bytes
          (by right; rw [hnp, hop]; exact ⟨i1, by omega⟩)
        exact ⟨by omega, by omega, hme,
          loopBody_exit_extra _ _ _ _ c0 c1 c2 cpf2 new1 x hrc2 (by rw [hnp]; exact hb0) hst
            (by omega) q2 (by rw [hnp]; exact hb1) hx p1⟩
      · right
        obtain ⟨p1, p2, p3, p4⟩ := re2 (by omega)
        have hst3 : storeAt (addOldData old oldsize t.oldpos t.newpos c0 new1)
            (add64 t.newpos c0) (BZ2_bzRead t.epf c1).bytes = some new3 := by
          rw [hnp, hop, p3]; exact hs3
        refine ⟨by omega, by omega, by omega, _,
          loopBody_run _ _ _ _ c0 c1 c2 cpf2 new1 new3 hrc2 (by rw [hnp]; exact hb0) hst
            (by omega) q2 (by rw [hnp]; exact hb1) hst3 (by omega) p2, ?_⟩
        subst hs
        refine ⟨?_, ?_, ?_, hcpf2, q4, p4⟩ <;> simp only [hnp, hop]
theorem loopFuel_exit (old : List Nat) (oldsize newsize : Int) (fuel : Nat)
    (s : LoopState) (e : LoopExit) (h : s.newpos < newsize)
    (hb : loopBody old oldsize newsize s = .exit1 e) :
    loopFuel old oldsize newsize (fuel + 1) s = some (.exit1 e) := by
  simp [loopFuel, h, hb]

/-- A successful run that uses up its three streams, whose diff and extra lengths are
the sums of the `add` and `copy` values, replayed on streams cut to their first `mc`,
`md`, `me` bytes with at least one of them really shortened: the replay exits through a
failed read of a shortened stream. -/
theorem run_truncated (old : List Nat) (oldsize newsize : Int) (f : Nat) :
    ∀ (s sf t : LoopState) (mc md me : Nat), WfState s →
      loopFuel old oldsize newsize f s = some (.running sf) →
      sf.cpf.data = [] → sf.dpf.data = [] → sf.epf.data = [] →
      sumAdd (s.cpf.data.length / 24) s.cpf.data = s.dpf.data.length →
      sumCopy (s.cpf.data.length / 24) s.cpf.data = s.epf.data.length →
      t.newpos = s.newpos → t.oldpos = s.oldpos → t.new = s.new →
      Holds t.cpf (s.cpf.data.take mc) → Holds t.dpf (s.dpf.data.take md) →
      Holds t.epf (s.epf.data.take me) →
      (mc < s.cpf.data.length ∨ md < s.dpf.data.length ∨ me < s.epf.data.length) →
      (loopFuel old oldsize newsize f t = some (.exit1 .controlRead)
          ∧ mc < s.cpf.data.length) ∨
      (loopFuel old oldsize newsize f t = some (.exit1 .diffRead)
          ∧ md < s.dpf.data.length) ∨
      (loopFuel old oldsize newsize f t = some (.exit1 .extraRead)
          ∧ me < s.epf.data.length) := by
  induction f with
  | zero =>
    intro s sf t mc md me _ h hc hd he _ _ _ _ _ _ _ _ htr
    rcases loopFuel_running_inv _ _ _ _ _ _ h with ⟨_, hs⟩ | ⟨_, f1, _, hf, _⟩
    · subst hs
      rw [hc, hd, he] at htr
      simp at htr
    · omega
  | succ n ih =>
    intro s sf t mc md me hw h hc hd he hsa hsc hnp hop hnew kc kd ke htr
    rcases loopFuel_running_inv _ _ _ _ _ _ h with ⟨_, hs⟩ | ⟨hlt, f1, s1, hf, hb, hrest⟩
    · subst hs
      rw [hc, hd, he] at htr
      simp at htr
    · have hf1 : f1 = n := by omega
      subst hf1
      obtain ⟨h24, hdrop, hw1, _, _, hr0, hd1, hr1, he1⟩ := pass_inv _ _ _ _ _ hb hw
      obtain ⟨ia, ic⟩ := run_sum_le _ _ _ _ s1 sf hw1 hrest hc
      rw [hd] at ia
      rw [he] at ic
      have cd := bzRead_consume s.dpf (offtin (s.cpf.data.take 8))
      have ce := bzRead_consume s.epf (offtin ((s.cpf.data.drop 8).take 8))
      rw [← hd1] at cd
      rw [← he1] at ce
      rw [sumAdd_unfold _ h24, ← hdrop] at hsa
      rw [sumCopy_unfold _ h24, ← hdrop] at hsc
      simp only [List.length_nil, Nat.cast_zero, add_zero] at ia ic
      have hlt1 : t.newpos < newsize := by rw [hnp]; exact hlt
      have hn0 := (bzRead_bytes_length s.dpf (offtin (s.cpf.data.take 8))).2
      have hn1 := (bzRead_bytes_length s.epf (offtin ((s.cpf.data.drop 8).take 8))).2
      have hk0 : (((offtin (s.cpf.data.take 8)).toNat : Nat) : Int)
          = offtin (s.cpf.data.take 8) := Int.toNat_of_nonneg (by omega)
      have hk1 : (((offtin ((s.cpf.data.drop 8).take 8)).toNat : Nat) : Int)
          = offtin ((s.cpf.data.drop 8).take 8) := Int.toNat_of_nonneg (by omega)
      have hcl : s1.cpf.data.length + 24 = s.cpf.data.length := by
        rw [hdrop, List.length_drop]
        omega
      rcases pass_truncated old oldsize newsize s s1 t mc md me hb hw (by omega) (by omega)
          hnp hop hnew kc kd ke with
        ⟨q1, q2⟩ | ⟨q1, q2, q3⟩ | ⟨q1, q2, q3, q4⟩ | ⟨q1, q2, q3, t1, q4, r1, r2, r3, r4, r5, r6⟩
      · left
        exact ⟨loopFuel_exit _ _ _ _ _ _ hlt1 q2, by omega⟩
      · right; left
        exact ⟨loopFuel_exit _ _ _ _ _ _ hlt1 q3, by omega⟩
      · right; right
        exact ⟨loopFuel_exit _ _ _ _ _ _ hlt1 q4, by omega⟩
      · rw [loopFuel_step _ _ _ _ _ _ hlt1 q4]
        rcases ih s1 sf t1 (mc - 24) (md - (offtin (s.cpf.data.take 8)).toNat)
            (me - (offtin ((s.cpf.data.drop 8).take 8)).toNat) hw1 hrest hc hd he
            (by omega) (by omega) r1 r2 r3 r4 r5 r6 (by omega) with ⟨u1, u2⟩ | ⟨u1, u2⟩ | ⟨u1, u2⟩
        · left; exact ⟨u1, by omega⟩
        · right; left; exact ⟨u1, by omega⟩
        · right; right; exact ⟨u1, by omega⟩
/-! ## Claim C5: truncation safety -/

/-- C5: suppose the loop succeeds on `(control, diff, extra)` and leaves all three
streams used up, the diff length being the sum of the `add` values and the extra length
the sum of the `copy` values. Then cutting trailing bytes from the control stream makes
the loop exit at the control read, cutting them from the diff stream makes it exit at the
diff read, and cutting them from the extra stream makes it exit at the extra read: in
each case the run returns 1 before anything is written. -/
theorem truncation_fails (old nb c d e : List Nat) (n : Int) (sf : LoopState)
    (hrun : reconstruct old n nb c d e = some (.running sf))
    (hc : sf.cpf.data = []) (hd : sf.dpf.data = []) (he : sf.epf.data = [])
    (hsa : sumAdd (c.length / 24) c = d.length)
    (hsc : sumCopy (c.length / 24) c = e.length) :
    (∀ m, m < c.length →
      reconstruct old n nb (c.take m) d e = some (.exit1 .controlRead)) ∧
    (∀ m, m < d.length →
      reconstruct old n nb c (d.take m) e = some (.exit1 .diffRead)) ∧
    (∀ m, m < e.length →
      reconstruct old n nb c d (e.take m) = some (.exit1 .extraRead)) := by
  unfold reconstruct at hrun ⊢
  have hfull : ∀ l : List Nat, Holds ⟨l, false⟩ (l.take l.length) := by
    intro l
    rw [List.take_length]
    exact holds_fresh l
  refine ⟨fun m hm => ?_, fun m hm => ?_, fun m hm => ?_⟩
  · have key := run_truncated old old.length n (c.length / 24 + 1)
      ⟨0, 0, nb, ⟨c, false⟩, ⟨d, false⟩, ⟨e, false⟩⟩ sf
      ⟨0, 0, nb, ⟨c.take m, false⟩, ⟨d, false⟩, ⟨e, false⟩⟩ m d.length e.length
      (wf_fresh _ _ _ _ _ _) hrun hc hd he hsa hsc rfl rfl rfl
      (holds_fresh _) (hfull d) (hfull e) (Or.inl hm)
    simp only [lt_self_iff_false, and_false, or_false] at key
    obtain ⟨r, hr⟩ := loopFuel_enough old old.length n ((c.take m).length / 24 + 1)
      ⟨0, 0, nb, ⟨c.take m, false⟩, ⟨d, false⟩, ⟨e, false⟩⟩ (wf_fresh _ _ _ _ _ _)
      (by simp only; omega)
    have hle : (c.take m).length / 24 + 1 ≤ c.length / 24 + 1 := by
      rw [List.length_take]
      have : min m c.length ≤ c.length := Nat.min_le_right _ _
      have := Nat.div_le_div_right (c := 24) this
      omega
    have hm2 := loopFuel_mono old old.length n _ (c.length / 24 + 1 - ((c.take m).length / 24 + 1))
      _ _ hr
    rw [show (c.take m).length / 24 + 1 + (c.length / 24 + 1 - ((c.take m).length / 24 + 1))
      = c.length / 24 + 1 by omega] at hm2
    rw [key.1] at hm2
    rw [hr]
    exact hm2.symm
  · have key := run_truncated old old.length n (c.length / 24 + 1)
      ⟨0, 0, nb, ⟨c, false⟩, ⟨d, false⟩, ⟨e, false⟩⟩ sf
      ⟨0, 0, nb, ⟨c, false⟩, ⟨d.take m, false⟩, ⟨e, false⟩⟩ c.length m e.length
      (wf_fresh _ _ _ _ _ _) hrun hc hd he hsa hsc rfl rfl rfl
      (hfull c) (holds_fresh _) (hfull e) (Or.inr (Or.inl hm))
    simp only [lt_self_iff_false, and_false, or_false, false_or] at key
    exact key.1
  · have key := run_truncated old old.length n (c.length / 24 + 1)
      ⟨0, 0, nb, ⟨c, false⟩, ⟨d, false⟩, ⟨e, false⟩⟩ sf
      ⟨0, 0, nb, ⟨c, false⟩, ⟨d, false⟩, ⟨e.take m, false⟩⟩ c.length d.length m
      (wf_fresh _ _ _ _ _ _) hrun hc hd he hsa hsc rfl rfl rfl
      (hfull c) (hfull d) (holds_fresh _) (Or.inr (Or.inr hm))
    simp only [lt_self_iff_false, and_false, or_false, false_or] at key
    exact key.1
set_option maxRecDepth 100000 in
/-- Instance of `truncation_fails`: the patch `(3, 1, 0)`, diff `[0, 0, 1]`, extra `[9]`
for old `[1, 2, 3]`; with the diff stream cut to two bytes the run exits at the diff
read. -/
theorem truncation_fails_witness :
    reconstruct [1, 2, 3] 4 [0, 0, 0, 0, 0] (encodeControl [(3, 1, 0)])
      (([0, 0, 1] : List Nat).take 2) [9] = some (.exit1 .diffRead) :=
  (truncation_fails [1, 2, 3] [0, 0, 0, 0, 0] (encodeControl [(3, 1, 0)]) [0, 0, 1] [9] 4
    ⟨4, 3, [1, 2, 4, 9, 0], ⟨[], true⟩, ⟨[], true⟩, ⟨[], true⟩⟩
    (by decide) rfl rfl rfl (by decide) (by decide)).2.1 2 (by decide)

/-! ## Claim C11: the diff phase -/

theorem getD_take_lt (l : List Nat) (n i : Nat) (h : i < n) :
    (l.take n).getD i 0 = l.getD i 0 := by
  simp only [List.getD_eq_getElem?_getD, List.getElem?_take]
  rw [if_pos h]

/-- C11: when the diff read of a pass with `add = a > 0` has succeeded and its bytes are
stored at `newpos`, the add loop leaves at `newpos + i`, for every `i < a`, the byte
`(d[i] + old[oldpos + i]) mod 256` if `0 ≤ oldpos + i < oldsize` and `d[i]` itself
otherwise, `d` being the bytes the diff stream held; the loop has no failure exit. -/
theorem diff_phase_bytes (old : List Nat) (s : LoopState) (a : Int) (new1 : List Nat)
    (hw : Holds s.dpf s.dpf.data) (ha : 0 < a)
    (hst : storeAt s.new s.newpos (BZ2_bzRead s.dpf a).bytes = some new1)
    (hrd : ¬ ((BZ2_bzRead s.dpf a).lenread < a ∨ (BZ2_bzRead s.dpf a).ok = false))
    (hold : (old.length : Int) < 2 ^ 63)
    (hop0 : -(2 ^ 63) ≤ s.oldpos) (hop1 : s.oldpos < 2 ^ 63)
    (hlen : (s.new.length : Int) ≤ 2 ^ 63) :
    ∀ i : Nat, (i : Int) < a →
      (addOldData old old.length s.oldpos s.newpos a new1).getD (s.newpos.toNat + i) 0 =
        if 0 ≤ s.oldpos + i ∧ s.oldpos + i < old.length then
          (s.dpf.data.getD i 0 + old.getD (s.oldpos + i).toNat 0) % 256
        else s.dpf.data.getD i 0 := by
  push_neg at hrd
  obtain ⟨hr, _⟩ := hrd
  have h31 := bzRead_lenread_lt s.dpf a
  have hle := bzRead_lenread_le s.dpf a
  have hw32 : wrap32 a = a := wrap32_of_range (by omega) (by omega)
  have hne : s.dpf.data ≠ [] := by
    intro h
    rw [h] at hle
    simp at hle
    omega
  obtain ⟨a1, a2, _, _⟩ := bzRead_spec s.dpf s.dpf.data a hw (by omega) (Or.inr hne)
  rw [hw32] at a1 a2
  have hbl : ((BZ2_bzRead s.dpf a).bytes.length : Int) = a := by
    rw [(bzRead_bytes_length s.dpf a).1, a1]
    omega
  have hbne : (BZ2_bzRead s.dpf a).bytes ≠ [] := by
    intro h
    rw [h] at hbl
    simp at hbl
    omega
  obtain ⟨i1, i2⟩ := storeAt_inbounds _ _ _ _ hst hbne
  obtain ⟨l1, g1⟩ := storeAt_spec _ _ _ _ hst
  obtain ⟨_, g2⟩ := addOldData_spec old old.length s.oldpos s.newpos a new1 i1
    (by rw [l1]; exact hlen) (by right; rw [l1]; omega)
  intro i hi
  have hcast : ((s.newpos.toNat + i : Nat) : Int) - s.newpos = i := by
    push_cast
    omega
  have hsub : s.newpos.toNat + i - s.newpos.toNat = i := by omega
  have hnew1 : new1.getD (s.newpos.toNat + i) 0 = s.dpf.data.getD i 0 := by
    rw [g1, if_pos (by omega), hsub, a2, getD_take_lt _ _ _ (by omega)]
  rw [g2, hcast, hnew1]
  by_cases hov : s.oldpos + i < 2 ^ 63
  · have hwp : add64 s.oldpos i = s.oldpos + i := wrap64_of_range (by omega) hov
    rw [hwp]
    by_cases hin : 0 ≤ s.oldpos + i ∧ s.oldpos + i < old.length
    · rw [if_pos ⟨by omega, by omega, hin⟩, if_pos hin]
    · rw [if_neg (fun h => hin h.2.2), if_neg hin]
  · have hneg : add64 s.oldpos i < 0 := by
      unfold add64 wrap64
      omega
    rw [if_neg (fun h => by omega), if_neg (fun h => by omega)]

set_option maxRecDepth 100000 in
/-- Instance of `diff_phase_bytes`: old `[1, 2, 3]`, old cursor 2, diff bytes `[255, 7]`:
the first byte is combined with `old[2]`, the second has no old byte and stays. -/
theorem diff_phase_bytes_witness :
    (addOldData [1, 2, 3] 3 2 0 2 [255, 7, 0]).getD 0 0 = 2 ∧
    (addOldData [1, 2, 3] 3 2 0 2 [255, 7, 0]).getD 1 0 = 7 := by
  have h := diff_phase_bytes [1, 2, 3] ⟨0, 2, [0, 0, 0], ⟨[], false⟩, ⟨[255, 7], false⟩,
    ⟨[], false⟩⟩ 2 [255, 7, 0] (holds_fresh _) (by decide) (by decide) (by decide)
    (by decide) (by decide) (by decide) (by decide)
  exact ⟨h 0 (by decide), h 1 (by decide)⟩

/-! ## Claim C12: the extra phase and the cursors -/

/-- C12 (as amended): a completed pass over a triple `(a, c, z)` with `a ≥ 0` and `c ≥ 0`
leaves `newpos + a + c` and the 64-bit value of `oldpos + a + z` in the cursors, has
taken 24 control bytes, `a` diff bytes and `c` extra bytes, has put the `c` extra bytes
unchanged at `[newpos + a, newpos + a + c)`, and has left the buffer below `newpos` as
it was. -/
theorem extra_phase_and_cursors (old : List Nat) (oldsize newsize : Int) (s s1 : LoopState)
    (h : loopBody old oldsize newsize s = .running s1) (hw : WfState s)
    (ha : 0 ≤ offtin (s.cpf.data.take 8)) (hc : 0 ≤ offtin ((s.cpf.data.drop 8).take 8))
    (hrun : s.newpos < newsize) (hnp0 : -(2 ^ 63) ≤ s.newpos)
    (hlen : (s.new.length : Int) = newsize + 1) (hns : newsize + 1 < 2 ^ 63) :
    s1.newpos = s.newpos + offtin (s.cpf.data.take 8) + offtin ((s.cpf.data.drop 8).take 8) ∧
    s1.oldpos = wrap64 (wrap64 (s.oldpos + offtin (s.cpf.data.take 8))
      + offtin ((s.cpf.data.drop 16).take 8)) ∧
    s1.cpf.data = s.cpf.data.drop 24 ∧
    s1.dpf.data = s.dpf.data.drop (offtin (s.cpf.data.take 8)).toNat ∧
    offtin (s.cpf.data.take 8) ≤ s.dpf.data.length ∧
    s1.epf.data = s.epf.data.drop (offtin ((s.cpf.data.drop 8).take 8)).toNat ∧
    offtin ((s.cpf.data.drop 8).take 8) ≤ s.epf.data.length ∧
    (∀ j : Nat, s.newpos + offtin (s.cpf.data.take 8) ≤ j →
      (j : Int) < s.newpos + offtin (s.cpf.data.take 8) + offtin ((s.cpf.data.drop 8).take 8) →
      s1.new.getD j 0
        = s.epf.data.getD (j - (s.newpos + offtin (s.cpf.data.take 8)).toNat) 0) ∧
    (∀ j : Nat, (j : Int) < s.newpos → s1.new.getD j 0 = s.new.getD j 0) := by
  obtain ⟨c0, c1, c2, cpf1, new1, new3, hrc, hb0, hs1, hr0, hok0, hb1, hs3, hr1, hok1, hs⟩ :=
    loopBody_running _ _ _ _ _ h
  obtain ⟨h24, hdrop, _⟩ := pass_inv _ _ _ _ _ h hw
  obtain ⟨sa, ha1, _⟩ := readControl_ok s.cpf s.cpf.data hw.1 h24
  rw [hrc] at ha1
  injection ha1 with ha1
  injection ha1 with htr _
  injection htr with e0 htr
  injection htr with e1 e2
  rw [← e0] at ha ⊢
  rw [← e1] at hc ⊢
  rw [← e2]
  have d31 := bzRead_lenread_lt s.dpf c0
  have dle := bzRead_lenread_le s.dpf c0
  have e31 := bzRead_lenread_lt s.epf c1
  have ele := bzRead_lenread_le s.epf c1
  have wa : wrap32 c0 = c0 := wrap32_of_range (by omega) (by omega)
  have wc : wrap32 c1 = c1 := wrap32_of_range (by omega) (by omega)
  have dne : wrap32 c0 = 0 ∨ s.dpf.data ≠ [] := by
    by_cases h0 : c0 = 0
    · left; rw [wa]; exact h0
    · right
      intro hnil
      rw [hnil] at dle
      simp at dle
      omega
  have ene : wrap32 c1 = 0 ∨ s.epf.data ≠ [] := by
    by_cases h0 : c1 = 0
    · left; rw [wc]; exact h0
    · right
      intro hnil
      rw [hnil] at ele
      simp at ele
      omega
  obtain ⟨d1, d2, _, d4⟩ := bzRead_spec s.dpf s.dpf.data c0 hw.2.1 (by omega) dne
  obtain ⟨x1, x2, _, x4⟩ := bzRead_spec s.epf s.epf.data c1 hw.2.2 (by omega) ene
  rw [wa] at d1 d2 d4
  rw [wc] at x1 x2 x4
  have hdl : ((BZ2_bzRead s.dpf c0).bytes.length : Int) = c0 := by
    rw [(bzRead_bytes_length s.dpf c0).1]; omega
  have hel : ((BZ2_bzRead s.epf c1).bytes.length : Int) = c1 := by
    rw [(bzRead_bytes_length s.epf c1).1]; omega
  obtain ⟨l1, g1⟩ := storeAt_spec _ _ _ _ hs1
  obtain ⟨l3, g3⟩ := storeAt_spec _ _ _ _ hs3
  have l2 := addOldData_length old oldsize s.oldpos s.newpos c0 new1
  -- the add region lies inside the buffer
  have hin0 : c0 = 0 ∨ (0 ≤ s.newpos ∧ s.newpos + c0 ≤ s.new.length) := by
    by_cases h0 : c0 = 0
    · left; exact h0
    · right
      have hne : (BZ2_bzRead s.dpf c0).bytes ≠ [] := by
        intro hnil
        rw [hnil] at hdl
        simp at hdl
        omega
      have := storeAt_inbounds _ _ _ _ hs1 hne
      omega
  have hnpa : add64 s.newpos c0 = s.newpos + c0 :=
    wrap64_of_range (by omega) (by omega)
  rw [hnpa] at hb0 hb1 hs3 g3 hs
  have hin1 : c1 = 0 ∨ (0 ≤ s.newpos + c0 ∧ s.newpos + c0 + c1 ≤ s.new.length) := by
    by_cases h0 : c1 = 0
    · left; exact h0
    · right
      have hne : (BZ2_bzRead s.epf c1).bytes ≠ [] := by
        intro hnil
        rw [hnil] at hel
        simp at hel
        omega
      have := storeAt_inbounds _ _ _ _ hs3 hne
      rw [l2, l1] at this
      omega
  have hnpc : add64 (s.newpos + c0) c1 = s.newpos + c0 + c1 :=
    wrap64_of_range (by omega) (by omega)
  rw [hnpc] at hs
  subst hs
  refine ⟨rfl, rfl, hdrop, ?_, by omega, ?_, by omega, ?_, ?_⟩
  · simp only
    exact d4.1
  · simp only
    exact x4.1
  · intro j hj1 hj2
    simp only
    rw [g3 j, if_pos ⟨hj1, by omega⟩, x2, getD_take_lt _ _ _ (by omega)]
  · intro j hj
    simp only
    rw [g3 j, if_neg (by omega)]
    have hadd : (addOldData old oldsize s.oldpos s.newpos c0 new1).getD j 0
        = new1.getD j 0 := by
      rcases hin0 with h0 | h0
      · rw [h0, addOldData_zero]
      · rw [(addOldData_spec old oldsize s.oldpos s.newpos c0 new1 h0.1
          (by rw [l1]; omega) (by right; rw [l1]; omega)).2 j, if_neg (by omega)]
    rw [hadd, g1 j, if_neg (by omega)]

set_option maxRecDepth 100000 in
/-- Instance of `extra_phase_and_cursors`: from cursors `(0, 0)` the triple `(1, 1, 5)`
leads to cursors `(2, 6)`. -/
theorem extra_phase_and_cursors_witness :
    ((⟨2, 6, [5, 9, 0], ⟨[], true⟩, ⟨[], true⟩, ⟨[], true⟩⟩ : LoopState).newpos : Int)
      = 0 + offtin ((encodeControl [(1, 1, 5)]).take 8)
        + offtin (((encodeControl [(1, 1, 5)]).drop 8).take 8) :=
  (extra_phase_and_cursors [1] 1 2
    ⟨0, 0, [0, 0, 0], ⟨encodeControl [(1, 1, 5)], false⟩, ⟨[4], false⟩, ⟨[9], false⟩⟩
    ⟨2, 6, [5, 9, 0], ⟨[], true⟩, ⟨[], true⟩, ⟨[], true⟩⟩
    (by decide) (wf_fresh _ _ _ _ _ _) (by decide) (by decide) (by decide) (by decide)
    (by decide) (by decide)).1

set_option maxRecDepth 100000 in
/-- C12 as stated fails: (i) from old cursor `2^63 - 1` the triple `(0, 0, 1)` leaves the
old cursor at `-2^63`, not at `2^63`; (ii) the triple `(-2^32, 0, 0)` is processed
successfully and the diff stream has not moved, whereas `a = -2^32`. -/
theorem cursor_update_counterexample :
    (∃ s1, loopBody [] 0 10
        ⟨0, 2 ^ 63 - 1, List.replicate 11 0, ⟨encodeControl [(0, 0, 1)], false⟩,
          ⟨[], false⟩, ⟨[], false⟩⟩ = .running s1 ∧
      s1.oldpos = -(2 ^ 63) ∧ s1.oldpos ≠ (2 ^ 63 - 1) + 0 + 1) ∧
    (∃ s1, loopBody [] 0 10
        ⟨0, 0, List.replicate 11 0, ⟨encodeControl [(-4294967296, 0, 0)], false⟩,
          ⟨[7], false⟩, ⟨[], false⟩⟩ = .running s1 ∧
      s1.dpf.data = [7] ∧ offtin ((encodeControl [(-4294967296, 0, 0)]).take 8)
        = -4294967296) := by
  constructor
  · refine ⟨_, rfl, ?_, ?_⟩ <;> decide
  · refine ⟨_, rfl, ?_, ?_⟩ <;> decide

/-! ## Claims C13 and C14: unchecked control values -/

set_option maxRecDepth 100000 in
/-- C14 fails on the code: with new size 10 and the single triple `(-2^32 + 1, 1, 0)` the
add-phase check passes, the diff read is asked for the low 32 bits of the value (one
byte), `newpos` becomes `-2^32 + 1`, the copy-phase check passes, and the extra read
stores its byte at `ctx.new - 2^32 + 1`, outside the buffer. -/
theorem negative_add_store_outside :
    reconstruct [] 10 (List.replicate 11 0) (encodeControl [(-4294967295, 1, 0)]) [7] [9]
      = some .undefined := by
  decide

set_option maxRecDepth 100000 in
/-- C13 fails on the code: (i) with new size 10 the triple `(-2^32, 0, 0)` is processed
without failure and leaves `newpos = -2^32`; (ii) the six-triple run with copy length
`-2^31 - 1` in its third triple ends successfully. -/
theorem negative_length_pass_completes :
    (∃ s1, loopBody [] 0 10
        ⟨0, 0, List.replicate 11 0, ⟨encodeControl [(-4294967296, 0, 0)], false⟩,
          ⟨[], false⟩, ⟨[], false⟩⟩ = .running s1 ∧
      s1.newpos = -4294967296) ∧
    (∃ s, reconstruct [] 4294967295 (List.replicate 4294967296 0)
        (encodeControl [(0, 2147483647, 0), (0, 2, 0), (0, -2147483649, 0),
          (0, 2147483647, 0), (0, 2147483647, 0), (0, 1, 0)]) []
        (List.replicate 2147483647 0 ++ (List.replicate 2 0 ++ (List.replicate 2147483647 0 ++
          (List.replicate 2147483647 0 ++ (List.replicate 2147483647 0
            ++ List.replicate 1 0))))) = some (.running s)) := by
  constructor
  · refine ⟨_, rfl, ?_⟩
    decide
  · obtain ⟨s, hs, _⟩ := negative_copy_run [] (List.replicate 4294967296 0)
      (List.replicate 2147483647 0) (List.replicate 2 0) (List.replicate 2147483647 0)
      (List.replicate 2147483647 0) (List.replicate 2147483647 0) (List.replicate 1 0)
      (List.length_replicate _ _) (List.length_replicate _ _) (List.length_replicate _ _)
      (List.length_replicate _ _) (List.length_replicate _ _) (List.length_replicate _ _)
      (List.length_replicate _ _)
    exact ⟨s, hs⟩

/-! ## Claim C15: the terminal condition -/

/-- What holds of the terminal condition on every input: a loop that ends normally, for
a new size `≥ 0`, ends with `newpos = newsize`, and its output has `newsize` bytes. -/
theorem loop_ends_at_newsize (old : List Nat) (oldsize newsize : Int) (f : Nat) :
    ∀ (s sf : LoopState), s.newpos ≤ newsize →
      loopFuel old oldsize newsize f s = some (.running sf) → sf.newpos = newsize := by
  induction f with
  | zero =>
    intro s sf hle h
    rcases loopFuel_running_inv _ _ _ _ _ _ h with ⟨hn, hs⟩ | ⟨_, f1, _, hf, _⟩
    · subst hs
      omega
    · omega
  | succ n ih =>
    intro s sf hle h
    rcases loopFuel_running_inv _ _ _ _ _ _ h with ⟨hn, hs⟩ | ⟨_, f1, s1, hf, hb, hrest⟩
    · subst hs
      omega
    · have hf1 : f1 = n := by omega
      subst hf1
      obtain ⟨c0, c1, c2, cpf1, new1, new3, _, _, _, _, _, hb1, _, _, _, hs⟩ :=
        loopBody_running _ _ _ _ _ hb
      apply ih s1 sf _ hrest
      rw [hs]
      exact hb1

theorem zero_size_run (old nb c d e : List Nat) :
    reconstruct old 0 nb c d e
      = some (.running ⟨0, 0, nb, ⟨c, false⟩, ⟨d, false⟩, ⟨e, false⟩⟩) := by
  unfold reconstruct
  exact loopFuel_done _ _ _ _ _ (by simp)

/-- C15 fails on the code in its clause that every output byte is written by exactly
one phase: in the six-triple run with the copy length `-2^31 - 1`, the first pass stores
the extra byte `5` at index 0, the run ends successfully, and index 0 then holds the
byte `1` that the fourth pass stored there. -/
theorem output_byte_written_twice :
    (∃ s1, loopBody [] 0 4294967295
        ⟨0, 0, List.replicate 4294967296 0,
          ⟨encodeControl [(0, 2147483647, 0), (0, 2, 0), (0, -2147483649, 0),
            (0, 2147483647, 0), (0, 2147483647, 0), (0, 1, 0)], false⟩, ⟨[], false⟩,
          ⟨List.replicate 2147483647 5 ++ (List.replicate 2 0 ++
            (List.replicate 2147483647 0 ++ (List.replicate 2147483647 1 ++
              (List.replicate 2147483647 0 ++ List.replicate 1 0)))), false⟩⟩ = .running s1 ∧
      s1.new.getD 0 0 = 5) ∧
    (∃ s, reconstruct [] 4294967295 (List.replicate 4294967296 0)
        (encodeControl [(0, 2147483647, 0), (0, 2, 0), (0, -2147483649, 0),
          (0, 2147483647, 0), (0, 2147483647, 0), (0, 1, 0)]) []
        (List.replicate 2147483647 5 ++ (List.replicate 2 0 ++
          (List.replicate 2147483647 0 ++ (List.replicate 2147483647 1 ++
            (List.replicate 2147483647 0 ++ List.replicate 1 0))))) = some (.running s) ∧
      s.newpos = 4294967295 ∧ s.new.getD 0 0 = 1) := by
  constructor
  · obtain ⟨n1, cp1, dp1, ep1, hb1, _, _, _, _, g1⟩ :=
      loopBody_copy_only [] 0 4294967295
        ⟨0, 0, List.replicate 4294967296 0,
          ⟨encodeControl [((0 : Int), (2147483647 : Int), (0 : Int)), (0, 2, 0),
            (0, -2147483649, 0), (0, 2147483647, 0), (0, 2147483647, 0), (0, 1, 0)], false⟩,
          ⟨[], false⟩,
          ⟨List.replicate 2147483647 5 ++ (List.replicate 2 0 ++
            (List.replicate 2147483647 0 ++ (List.replicate 2147483647 1 ++
              (List.replicate 2147483647 0 ++ List.replicate 1 0)))), false⟩⟩
        2147483647 0 2147483647 0 _ [] (List.replicate 2147483647 5) _
        (holds_fresh _) (holds_fresh _) (holds_fresh _)
        (by norm_num) (by norm_num) (by norm_num) (by norm_num)
        (by rw [List.length_replicate]; decide) (by rw [List.length_replicate]; norm_num)
        (by simp only; norm_num) (by simp only; norm_num) (by simp only; norm_num)
        (by simp only; decide) (by norm_num) (by simp only; decide)
        (by simp only; rw [List.length_replicate, List.length_replicate]; norm_num)
    refine ⟨_, hb1, ?_⟩
    simp only at g1 ⊢
    rw [g1 0, if_pos (by rw [List.length_replicate]; norm_num), List.getD_eq_getElem?_getD,
      List.getElem?_replicate]
    rfl
  · obtain ⟨s, hs, h0⟩ := negative_copy_run [] (List.replicate 4294967296 0)
      (List.replicate 2147483647 5) (List.replicate 2 0) (List.replicate 2147483647 0)
      (List.replicate 2147483647 1) (List.replicate 2147483647 0) (List.replicate 1 0)
      (List.length_replicate _ _) (List.length_replicate _ _) (List.length_replicate _ _)
      (List.length_replicate _ _) (List.length_replicate _ _) (List.length_replicate _ _)
      (List.length_replicate _ _)
    refine ⟨s, hs, ?_, ?_⟩
    · unfold reconstruct at hs
      exact loop_ends_at_newsize _ _ _ _ _ _ (by simp only; norm_num) hs
    · rw [h0, List.getD_eq_getElem?_getD, List.getElem?_replicate]
      rfl

/-! ## Claim C16: termination -/

/-- C16: for every old file, new size, buffer and three finite streams the loop ends
within `|control| / 24 + 1` passes (the fuel `reconstruct` gives it is never used up),
whatever the `add` and `copy` values are. -/
theorem loop_terminates (old nb c d e : List Nat) (n : Int) :
    ∃ r, loopFuel old old.length n (c.length / 24 + 1)
        ⟨0, 0, nb, ⟨c, false⟩, ⟨d, false⟩, ⟨e, false⟩⟩ = some r ∧
      reconstruct old n nb c d e = some r := by
  obtain ⟨r, hr⟩ := loopFuel_enough old old.length n (c.length / 24 + 1)
    ⟨0, 0, nb, ⟨c, false⟩, ⟨d, false⟩, ⟨e, false⟩⟩ (wf_fresh _ _ _ _ _ _)
    (by simp only; omega)
  exact ⟨r, hr, hr⟩

/-! ## Claim C17: range and canonicity of the decoder -/

theorem list8 (b : List Nat) (h : b.length = 8) :
    ∃ b0 b1 b2 b3 b4 b5 b6 b7, b = [b0, b1, b2, b3, b4, b5, b6, b7] := by
  match b, h with
  | [b0, b1, b2, b3, b4, b5, b6, b7], _ => exact ⟨b0, b1, b2, b3, b4, b5, b6, b7, rfl⟩

theorem isBytes8 {b0 b1 b2 b3 b4 b5 b6 b7 : Nat}
    (h : IsBytes [b0, b1, b2, b3, b4, b5, b6, b7]) :
    b0 < 256 ∧ b1 < 256 ∧ b2 < 256 ∧ b3 < 256 ∧ b4 < 256 ∧ b5 < 256 ∧ b6 < 256 ∧ b7 < 256 := by
  refine ⟨h _ ?_, h _ ?_, h _ ?_, h _ ?_, h _ ?_, h _ ?_, h _ ?_, h _ ?_⟩ <;> simp

theorem offtin8 (b0 b1 b2 b3 b4 b5 b6 b7 : Nat)
    (h : IsBytes [b0, b1, b2, b3, b4, b5, b6, b7]) :
    offtin [b0, b1, b2, b3, b4, b5, b6, b7] =
      (if b7 ≥ 128 then (-1 : Int) else 1) *
        ((b0 : Int) + b1 * 256 + b2 * 256 ^ 2 + b3 * 256 ^ 3 + b4 * 256 ^ 4 + b5 * 256 ^ 5
          + b6 * 256 ^ 6 + ((b7 % 128 : Nat) : Int) * 256 ^ 7) := by
  rw [offtin_eq_spec _ h]
  simp only [offtinSpec, byteAt, List.getD_cons_zero, List.getD_cons_succ]

theorem offtin_bounds (b : List Nat) (hl : b.length = 8) (hb : IsBytes b) :
    -(2 ^ 63) < offtin b ∧ offtin b < 2 ^ 63 := by
  obtain ⟨b0, b1, b2, b3, b4, b5, b6, b7, rfl⟩ := list8 b hl
  obtain ⟨h0, h1, h2, h3, h4, h5, h6, h7⟩ := isBytes8 hb
  rw [offtin8 _ _ _ _ _ _ _ _ hb]
  have hm : b7 % 128 < 128 := Nat.mod_lt _ (by norm_num)
  split <;> constructor <;> omega

theorem xor_80 (n : Nat) (h : n < 256) :
    n ^^^ 0x80 = if n ≥ 128 then n - 128 else n + 128 := by
  interval_cases n <;> rfl

theorem offtin_injective (b c : List Nat) (hl : b.length = 8) (hb : IsBytes b)
    (hl2 : c.length = 8) (hc : IsBytes c) (h : offtin b = offtin c) :
    b = c ∨ (offtin b = 0 ∧ offtin c = 0) := by
  obtain ⟨b0, b1, b2, b3, b4, b5, b6, b7, rfl⟩ := list8 b hl
  obtain ⟨c0, c1, c2, c3, c4, c5, c6, c7, rfl⟩ := list8 c hl2
  obtain ⟨h0, h1, h2, h3, h4, h5, h6, h7⟩ := isBytes8 hb
  obtain ⟨g0, g1, g2, g3, g4, g5, g6, g7⟩ := isBytes8 hc
  rw [offtin8 _ _ _ _ _ _ _ _ hb, offtin8 _ _ _ _ _ _ _ _ hc] at h ⊢
  have hm : b7 % 128 < 128 := Nat.mod_lt _ (by norm_num)
  have gm : c7 % 128 < 128 := Nat.mod_lt _ (by norm_num)
  by_cases s1 : b7 ≥ 128 <;> by_cases s2 : c7 ≥ 128
  · rw [if_pos s1, if_pos s2] at h ⊢
    left
    have e0 : b0 = c0 := by omega
    have e1 : b1 = c1 := by omega
    have e2 : b2 = c2 := by omega
    have e3 : b3 = c3 := by omega
    have e4 : b4 = c4 := by omega
    have e5 : b5 = c5 := by omega
    have e6 : b6 = c6 := by omega
    have e7 : b7 = c7 := by omega
    subst e0 e1 e2 e3 e4 e5 e6 e7
    rfl
  · rw [if_pos s1, if_neg s2] at h ⊢
    right
    constructor <;> omega
  · rw [if_neg s1, if_pos s2] at h ⊢
    right
    constructor <;> omega
  · rw [if_neg s1, if_neg s2] at h ⊢
    left
    have e0 : b0 = c0 := by omega
    have e1 : b1 = c1 := by omega
    have e2 : b2 = c2 := by omega
    have e3 : b3 = c3 := by omega
    have e4 : b4 = c4 := by omega
    have e5 : b5 = c5 := by omega
    have e6 : b6 = c6 := by omega
    have e7 : b7 = c7 := by omega
    subst e0 e1 e2 e3 e4 e5 e6 e7
    rfl

theorem offtin_flip (b0 b1 b2 b3 b4 b5 b6 b7 : Nat)
    (hb : IsBytes [b0, b1, b2, b3, b4, b5, b6, b7]) :
    IsBytes [b0, b1, b2, b3, b4, b5, b6, b7 ^^^ 0x80] ∧
    offtin [b0, b1, b2, b3, b4, b5, b6, b7 ^^^ 0x80]
      = -offtin [b0, b1, b2, b3, b4, b5, b6, b7] := by
  obtain ⟨h0, h1, h2, h3, h4, h5, h6, h7⟩ := isBytes8 hb
  have hx := xor_80 b7 h7
  have hb2 : IsBytes [b0, b1, b2, b3, b4, b5, b6, b7 ^^^ 0x80] := by
    intro x hx2
    simp only [List.mem_cons, List.mem_singleton, List.not_mem_nil, or_false] at hx2
    rcases hx2 with h | h | h | h | h | h | h | h <;> subst h <;> try assumption
    rw [hx]
    split <;> omega
  refine ⟨hb2, ?_⟩
  rw [offtin8 _ _ _ _ _ _ _ _ hb2, offtin8 _ _ _ _ _ _ _ _ hb, hx]
  by_cases s1 : b7 ≥ 128
  · rw [if_pos s1, if_pos s1, if_neg (by omega)]
    have : (b7 - 128) % 128 = b7 % 128 := by omega
    rw [this]
    ring
  · rw [if_neg s1, if_neg s1, if_pos (by omega)]
    have : (b7 + 128) % 128 = b7 % 128 := by omega
    rw [this]
    ring

set_option maxRecDepth 100000 in
/-- C17: on eight-byte inputs `offtin` takes exactly the values `v` with `|v| ≤ 2^63 - 1`
(every such value is the decoding of `offtout v`); flipping the top bit of the last byte
negates the result; and two inputs decode to the same value only if they are equal or
both decode to zero, the negative zero `00 00 00 00 00 00 00 80` being decoded to 0. -/
theorem offtin_range_and_canonicity :
    (∀ b : List Nat, b.length = 8 → IsBytes b → -(2 ^ 63) < offtin b ∧ offtin b < 2 ^ 63) ∧
    (∀ v : Int, -(2 ^ 63) < v → v < 2 ^ 63 →
      (offtout v).length = 8 ∧ IsBytes (offtout v) ∧ offtin (offtout v) = v) ∧
    (∀ b0 b1 b2 b3 b4 b5 b6 b7 : Nat, IsBytes [b0, b1, b2, b3, b4, b5, b6, b7] →
      offtin [b0, b1, b2, b3, b4, b5, b6, b7 ^^^ 0x80]
        = -offtin [b0, b1, b2, b3, b4, b5, b6, b7]) ∧
    (∀ b c : List Nat, b.length = 8 → IsBytes b → c.length = 8 → IsBytes c →
      (offtin b = offtin c ↔ (b = c ∨ (offtin b = 0 ∧ offtin c = 0)))) ∧
    offtin [0, 0, 0, 0, 0, 0, 0, 0x80] = 0 := by
  refine ⟨offtin_bounds, fun v h1 h2 => ⟨offtout_length v, offtout_isBytes v h1 h2,
    offtin_offtout v h1 h2⟩, fun b0 b1 b2 b3 b4 b5 b6 b7 hb =>
      (offtin_flip b0 b1 b2 b3 b4 b5 b6 b7 hb).2, ?_, by decide⟩
  intro b c hl hb hl2 hc
  constructor
  · exact offtin_injective b c hl hb hl2 hc
  · rintro (h | ⟨h1, h2⟩)
    · rw [h]
    · rw [h1, h2]

/-- Instance of `offtin_range_and_canonicity`: `-5` has an encoding, and `05 00 .. 00`
and `05 00 .. 80` decode to different values. -/
theorem offtin_range_and_canonicity_witness :
    offtin (offtout (-5)) = -5 ∧
    offtin [5, 0, 0, 0, 0, 0, 0, 0x80] = -offtin [5, 0, 0, 0, 0, 0, 0, 0] :=
  ⟨(offtin_range_and_canonicity.2.1 (-5) (by decide) (by decide)).2.2,
    offtin_range_and_canonicity.2.2.1 5 0 0 0 0 0 0 0 (by decide)⟩

/-! ## Claim C18: trailing data -/

theorem wrap_facts2 :
    wrap32 (-4294967291) = 5 ∧ add64 4294967294 (-4294967291) = 3 ∧
    add64 3 2147483647 = 2147483650 ∧ wrap32 2147483647 = 2147483647 ∧
    add64 2147483650 2147483646 = 4294967296 ∧ wrap32 2147483646 = 2147483646 := by
  refine ⟨?_, ?_, ?_, ?_, ?_, ?_⟩ <;> decide

/-- The two runs of `trailing_diff_bytes_change_run`, for any buffer and segments of
the stated lengths. -/
theorem short_read_run (old nb d1 d2 x e1 e2 e3 : List Nat) (hnb : nb.length = 4294967297)
    (hd1 : d1.length = 2147483647) (hd2 : d2.length = 2) (hx : x.length = 3)
    (he1 : e1.length = 2147483647) (he2 : e2.length = 2147483647)
    (he3 : e3.length = 2147483646) :
    (∃ s, reconstruct old 4294967296 nb
        (encodeControl [(2147483647, 2147483647, 0), (-4294967291, 2147483647, 0),
          (0, 2147483646, 0)]) (d1 ++ d2) (e1 ++ (e2 ++ e3)) = some (.running s)) ∧
    reconstruct old 4294967296 nb
        (encodeControl [(2147483647, 2147483647, 0), (-4294967291, 2147483647, 0),
          (0, 2147483646, 0)]) (d1 ++ (d2 ++ x)) (e1 ++ (e2 ++ e3)) = some .undefined := by
  have hfuel : (encodeControl [((2147483647 : Int), (2147483647 : Int), (0 : Int)),
      (-4294967291, 2147483647, 0), (0, 2147483646, 0)]).length / 24 + 1 = 3 + 1 := by
    rw [encodeControl_length]
    rfl
  obtain ⟨w1, w2, w3, w4, w5, w6⟩ := wrap_facts2
  have hctl := control_fields (-4294967291) 2147483647 0 (encodeControl [(0, 2147483646, 0)])
  have hv0 : offtin ((offtout (-4294967291) ++ offtout 2147483647 ++ offtout 0
      ++ encodeControl [(0, 2147483646, 0)]).take 8) = -4294967291 := by
    rw [hctl.1]; exact offtin_offtout _ (by norm_num) (by norm_num)
  have hv1 : offtin (((offtout (-4294967291) ++ offtout 2147483647 ++ offtout 0
      ++ encodeControl [(0, 2147483646, 0)]).drop 8).take 8) = 2147483647 := by
    rw [hctl.2.1]; exact offtin_offtout _ (by norm_num) (by norm_num)
  have hv2 : offtin (((offtout (-4294967291) ++ offtout 2147483647 ++ offtout 0
      ++ encodeControl [(0, 2147483646, 0)]).drop 16).take 8) = 0 := by
    rw [hctl.2.2.1]; exact offtin_offtout _ (by norm_num) (by norm_num)
  have hd2ne : d2 ≠ [] := by
    intro h; rw [h] at hd2; simp at hd2
  have htk : (d2.take (wrap32 (-4294967291)).toNat).length = 2 := by
    rw [w1, List.length_take, hd2]; rfl
  have htke : ((e2 ++ e3).take (wrap32 2147483647).toNat).length = 2147483647 := by
    rw [w4, List.length_take, List.length_append, he2, he3]; rfl
  have htkx : ((d2 ++ x).take (wrap32 (-4294967291)).toNat).length = 5 := by
    rw [w1, List.length_take, List.length_append, hd2, hx]; rfl
  constructor
  · unfold reconstruct
    rw [hfuel]
    obtain ⟨n1, cp1, dp1, ep1, hb1, kc1, kd1, ke1, l1, _⟩ :=
      loopBody_wf old 4294967296
        ⟨0, 0, nb, ⟨encodeControl [((2147483647 : Int), (2147483647 : Int), (0 : Int)),
          (-4294967291, 2147483647, 0), (0, 2147483646, 0)], false⟩, ⟨d1 ++ d2, false⟩,
          ⟨e1 ++ (e2 ++ e3), false⟩⟩
        2147483647 2147483647 0 _ d1 d2 e1 (e2 ++ e3)
        (holds_fresh _) (holds_fresh _) (holds_fresh _)
        (by norm_num) (by norm_num) (by norm_num) (by norm_num) (by norm_num) (by norm_num)
        (by rw [hd1]; rfl) (by rw [he1]; rfl) (le_refl _) (by simp only; norm_num)
        (by norm_num) (by simp only; rw [hnb]; rfl) (by simp only; norm_num)
        (by simp only; norm_num)
    rw [loopFuel_step _ _ _ _ _ _ (by simp only; norm_num) hb1]
    simp only at l1
    have hop : add64 ((0 : Int) + 2147483647) 0 = 2147483647 := by decide
    rw [hop] at hb1 ⊢
    obtain ⟨m1, m3, cp2, dp2, ep2, hs1, hs3, hb2, kc2, kd2, ke2⟩ :=
      loopBody_pass old old.length 4294967296
        ⟨0 + 2147483647 + 2147483647, 2147483647, n1, cp1, dp1, ep1⟩
        _ d2 (e2 ++ e3) (-4294967291) 2147483647 0 kc1 hctl.2.2.2.2 kd1 ke1 hv0 hv1 hv2
        (by simp only; norm_num; rw [w2]; norm_num)
        (by rw [w1]; norm_num) (Or.inr hd2ne)
        (by rw [w1, hd2]; norm_num)
        (by right; simp only; rw [htk, l1, hnb]; norm_num)
        (by simp only; norm_num; rw [w2, w3]; norm_num)
        (by rw [w4]; norm_num)
        (by right; intro h; have := congrArg List.length h; simp [he2] at this)
        (by rw [w4]; simp only [List.length_append, he2, he3]; norm_num)
        (by right; simp only; rw [htke, l1, hnb]; norm_num; rw [w2]; norm_num)
    rw [loopFuel_step _ _ _ _ _ _ (by simp only; norm_num) hb2]
    have l3 : m3.length = 4294967297 := by
      rw [(storeAt_spec _ _ _ _ hs3).1, addOldData_length, (storeAt_spec _ _ _ _ hs1).1]
      simp only
      rw [l1, hnb]
    have hnp2 : add64 (add64 ((0 : Int) + 2147483647 + 2147483647) (-4294967291)) 2147483647
        = 2147483650 := by decide
    rw [hnp2]
    have ke2b : Holds ep2 (e3 ++ []) := by
      rw [w4] at ke2
      have : (e2 ++ e3).drop (2147483647 : Int).toNat = e3 :=
        drop_append_len _ _ _ (by rw [he2]; rfl)
      rw [this] at ke2
      simpa using ke2
    obtain ⟨n3, cp3, dp3, ep3, hb3, _, _, _, _, _⟩ :=
      loopBody_copy_only old old.length 4294967296
        ⟨2147483650, add64 (add64 2147483647 (-4294967291)) 0, m3, cp2, dp2, ep2⟩
        2147483646 0 4294967296 (add64 (add64 (add64 (add64 2147483647 (-4294967291)) 0) 0) 0)
        [] _ e3 []
        (by simpa [encodeControl] using kc2) kd2 ke2b
        (by norm_num) (by norm_num) (by norm_num) (by norm_num)
        (by rw [he3]; decide) (by rw [he3]; norm_num)
        (by simp only; norm_num) (by simp only; norm_num) (by simp only; norm_num)
        (by simp only; decide) (by norm_num) rfl
        (by simp only; rw [he3, l3]; norm_num)
    rw [loopFuel_step _ _ _ _ _ _ (by simp only; norm_num) hb3]
    rw [loopFuel_done _ _ _ _ _ (by simp only; norm_num)]
    exact ⟨_, rfl⟩
  · unfold reconstruct
    rw [hfuel]
    obtain ⟨n1, cp1, dp1, ep1, hb1, kc1, kd1, ke1, l1, _⟩ :=
      loopBody_wf old 4294967296
        ⟨0, 0, nb, ⟨encodeControl [((2147483647 : Int), (2147483647 : Int), (0 : Int)),
          (-4294967291, 2147483647, 0), (0, 2147483646, 0)], false⟩, ⟨d1 ++ (d2 ++ x), false⟩,
          ⟨e1 ++ (e2 ++ e3), false⟩⟩
        2147483647 2147483647 0 _ d1 (d2 ++ x) e1 (e2 ++ e3)
        (holds_fresh _) (holds_fresh _) (holds_fresh _)
        (by norm_num) (by norm_num) (by norm_num) (by norm_num) (by norm_num) (by norm_num)
        (by rw [hd1]; rfl) (by rw [he1]; rfl) (le_refl _) (by simp only; norm_num)
        (by norm_num) (by simp only; rw [hnb]; rfl) (by simp only; norm_num)
        (by simp only; norm_num)
    rw [loopFuel_step _ _ _ _ _ _ (by simp only; norm_num) hb1]
    simp only at l1
    apply loopFuel_undefined _ _ _ _ _ (by simp only; norm_num)
    apply loopBody_add_oob _ _ _ _ _ (d2 ++ x) kc1 hctl.2.2.2.2 kd1
    · rw [hv0]
      simp only
      norm_num
      rw [w2]
      norm_num
    · rw [hv0, w1]
      norm_num
    · intro h
      exact hd2ne (List.append_eq_nil.mp h).1
    · rw [hv0, htkx]
      simp only
      rw [l1, hnb]
      norm_num

/-- C18 fails on the code: with new size `2^32`, the triples `(2^31-1, 2^31-1, 0)`,
`(-2^32+5, 2^31-1, 0)`, `(0, 2^31-2, 0)` and a diff stream of `2^31 + 1` bytes the run
succeeds (the second diff read asks for five bytes, gets the last two and the end of the
stream, which satisfies the test against the negative 64-bit value); with three more
bytes appended to the diff stream that read gets five bytes and stores them past the
end of the buffer. -/
theorem trailing_diff_bytes_change_run :
    (∃ s, reconstruct [] 4294967296 (List.replicate 4294967297 0)
        (encodeControl [(2147483647, 2147483647, 0), (-4294967291, 2147483647, 0),
          (0, 2147483646, 0)]) (List.replicate 2147483647 0 ++ List.replicate 2 0)
        (List.replicate 2147483647 0 ++ (List.replicate 2147483647 0
          ++ List.replicate 2147483646 0)) = some (.running s)) ∧
    reconstruct [] 4294967296 (List.replicate 4294967297 0)
        (encodeControl [(2147483647, 2147483647, 0), (-4294967291, 2147483647, 0),
          (0, 2147483646, 0)])
        ((List.replicate 2147483647 0 ++ List.replicate 2 0) ++ List.replicate 3 0)
        (List.replicate 2147483647 0 ++ (List.replicate 2147483647 0
          ++ List.replicate 2147483646 0)) = some .undefined := by
  rw [List.append_assoc]
  exact short_read_run [] (List.replicate 4294967297 0) (List.replicate 2147483647 0)
    (List.replicate 2 0) (List.replicate 3 0) (List.replicate 2147483647 0)
    (List.replicate 2147483647 0) (List.replicate 2147483646 0)
    (List.length_replicate _ _) (List.length_replicate _ _) (List.length_replicate _ _)
    (List.length_replicate _ _) (List.length_replicate _ _) (List.length_replicate _ _)
    (List.length_replicate _ _)

/-! ## What holds of the sanity checks and of pure insertion -/

/-- Without 64-bit overflow the add-phase check does what the specification says: if
`newpos + add > newsize` and the sum fits an `off_t`, the pass exits at line 195-198,
before the diff read. -/
theorem sanity_check_add_exits (old : List Nat) (oldsize newsize : Int) (s : LoopState)
    (hw : Holds s.cpf s.cpf.data) (h24 : 24 ≤ s.cpf.data.length)
    (hgt : s.newpos + offtin (s.cpf.data.take 8) > newsize)
    (hfit : s.newpos + offtin (s.cpf.data.take 8) < 2 ^ 63)
    (hns : -(2 ^ 63) ≤ newsize) :
    loopBody old oldsize newsize s = .exit1 .boundsAdd := by
  obtain ⟨cpf1, hrc, _⟩ := readControl_ok s.cpf s.cpf.data hw h24
  have hsum : add64 s.newpos (offtin (s.cpf.data.take 8))
      = s.newpos + offtin (s.cpf.data.take 8) := wrap64_of_range (by omega) hfit
  unfold loopBody
  rw [hrc]
  simp only []
  rw [if_pos (by rw [hsum]; exact hgt)]

/-- With `add = 0` a pass does not look at the old file: it gives the same result for
any two old files. -/
theorem loopBody_old_independent (old1 old2 : List Nat) (size1 size2 newsize : Int)
    (s : LoopState) (hw : Holds s.cpf s.cpf.data)
    (h0 : 24 ≤ s.cpf.data.length → offtin (s.cpf.data.take 8) = 0) :
    loopBody old1 size1 newsize s = loopBody old2 size2 newsize s := by
  by_cases h24 : 24 ≤ s.cpf.data.length
  · obtain ⟨cpf1, hrc, _⟩ := readControl_ok s.cpf s.cpf.data hw h24
    rw [h0 h24] at hrc
    unfold loopBody
    rw [hrc]
    simp only [addOldData_zero]
  · have hrc := readControl_short s.cpf (by omega)
    unfold loopBody
    rw [hrc]

theorem allAddZero_drop (c : List Nat) (h : AllAddZero c) : AllAddZero (c.drop 24) := by
  intro k hk
  rw [List.length_drop] at hk
  have := h (k + 1) (by omega)
  rw [List.drop_drop]
  rw [show 24 * (k + 1) = 24 + 24 * k by ring] at this
  exact this

/-- With `add = 0` in every triple of the control stream, the whole loop gives the same
result for any two old files. -/
theorem loopFuel_old_independent (old1 old2 : List Nat) (size1 size2 newsize : Int)
    (f : Nat) :
    ∀ s : LoopState, WfState s → AllAddZero s.cpf.data →
      loopFuel old1 size1 newsize f s = loopFuel old2 size2 newsize f s := by
  induction f with
  | zero =>
    intro s _ _
    rfl
  | succ n ih =>
    intro s hw hz
    have hb := loopBody_old_independent old1 old2 size1 size2 newsize s hw.1
      (fun h24 => by simpa using hz 0 (by omega))
    simp only [loopFuel]
    split
    · rw [hb]
      cases hr : loopBody old2 size2 newsize s with
      | running s1 =>
        simp only []
        obtain ⟨_, hdrop, hw1, _⟩ := pass_inv _ _ _ _ _ hr hw
        apply ih s1 hw1
        rw [hdrop]
        exact allAddZero_drop _ hz
      | exit1 e => rfl
      | undefined => rfl
    · rfl

end BSPatch
